import Mathlib

/-! # BVH accelerator and path-tracing integrator (`BVH.cpp`, `Scene.cpp`)

A shallow embedding of the two translation units.  Scalars (`float`, `double`)
are read as elements of a linear ordered field `α`, so every arithmetic
expression is exact; the few places where the C++ relies on IEEE special values
(a quotient by a zero surface area) are modelled explicitly.  Pointers that may
be null are modelled by a `nullptr` constructor or by `Option`; dereferencing
one yields `Fault.nullDeref`.  Recursion that the C++ does not bound is given a
fuel argument.  Everything declared in headers that are not part of the two
files (vector and box arithmetic, numeric constants, initial field values,
`std::sort`, `std::sqrt`, the slab test) is either modelled from the
specification or taken through the `Runtime` record.
-/

namespace RayTracing

/-! ## Vectors, boxes, rays -/

/-- Modelled from the spec: the three-component vector of the external math
library (`Vector.hpp` is not among the sources). -/
structure Vector3f (α : Type) where
  x : α
  y : α
  z : α
  deriving DecidableEq

namespace Vector3f

variable {α : Type} [LinearOrderedField α]

/-- Modelled from the spec: `Vector3f(0, 0, 0)`. -/
def zero : Vector3f α := ⟨0, 0, 0⟩

/-- Modelled from the spec: componentwise sum `a + b`. -/
def add (a b : Vector3f α) : Vector3f α := ⟨a.x + b.x, a.y + b.y, a.z + b.z⟩

/-- Modelled from the spec: componentwise difference `a - b`. -/
def sub (a b : Vector3f α) : Vector3f α := ⟨a.x - b.x, a.y - b.y, a.z - b.z⟩

/-- Modelled from the spec: unary minus `-a`. -/
def neg (a : Vector3f α) : Vector3f α := ⟨-a.x, -a.y, -a.z⟩

/-- Modelled from the spec: componentwise product `a * b` of two vectors. -/
def mul (a b : Vector3f α) : Vector3f α := ⟨a.x * b.x, a.y * b.y, a.z * b.z⟩

/-- Modelled from the spec: product `a * r` of a vector and a scalar. -/
def scale (a : Vector3f α) (r : α) : Vector3f α := ⟨a.x * r, a.y * r, a.z * r⟩

/-- Modelled from the spec: quotient `a / r` of a vector by a scalar. -/
def divScalar (a : Vector3f α) (r : α) : Vector3f α := ⟨a.x / r, a.y / r, a.z / r⟩

/-- Modelled from the spec: `dotProduct(a, b)`. -/
def dotProduct (a b : Vector3f α) : α := a.x * b.x + a.y * b.y + a.z * b.z

/-- Modelled from the spec: `a.norm()`, with `std::sqrt` passed in. -/
def norm (sqrt : α → α) (a : Vector3f α) : α := sqrt (a.x * a.x + a.y * a.y + a.z * a.z)

/-- Modelled from the spec: `a.normalized()`, with `std::sqrt` passed in. -/
def normalized (sqrt : α → α) (a : Vector3f α) : Vector3f α := divScalar a (norm sqrt a)

/-- Modelled from the spec: `Vector3f::Min`, the componentwise minimum. -/
def vmin (a b : Vector3f α) : Vector3f α := ⟨min a.x b.x, min a.y b.y, min a.z b.z⟩

/-- Modelled from the spec: `Vector3f::Max`, the componentwise maximum. -/
def vmax (a b : Vector3f α) : Vector3f α := ⟨max a.x b.x, max a.y b.y, max a.z b.z⟩

/-- Componentwise order on vectors. -/
def le (a b : Vector3f α) : Prop := a.x ≤ b.x ∧ a.y ≤ b.y ∧ a.z ≤ b.z

end Vector3f

/-- Modelled from the spec: the axis-aligned box of `Bounds3.hpp` (not among the
sources), given by its minimum and maximum corner. -/
structure Bounds3 (α : Type) where
  pMin : Vector3f α
  pMax : Vector3f α
  deriving DecidableEq

namespace Bounds3

variable {α : Type} [LinearOrderedField α]

/-- Modelled from the spec: `Diagonal()`, the extent of the box. -/
def Diagonal (b : Bounds3 α) : Vector3f α := Vector3f.sub b.pMax b.pMin

/-- Modelled from the spec: `maxExtent()`, the axis (0, 1 or 2) of largest
extent. -/
def maxExtent (b : Bounds3 α) : Nat :=
  let d := b.Diagonal
  if d.x > d.y ∧ d.x > d.z then 0
  else if d.y > d.z then 1
  else 2

/-- Modelled from the spec: `SurfaceArea()` of the box. -/
def SurfaceArea (b : Bounds3 α) : α :=
  let d := b.Diagonal
  2 * (d.x * d.y + d.x * d.z + d.y * d.z)

/-- Modelled from the spec: `Centroid()`, the midpoint of the two corners. -/
def Centroid (b : Bounds3 α) : Vector3f α :=
  Vector3f.add (Vector3f.scale b.pMin (1 / 2)) (Vector3f.scale b.pMax (1 / 2))

/-- Modelled from the spec: `Union(b1, b2)`, the componentwise min/max box
union. -/
def Union (b1 b2 : Bounds3 α) : Bounds3 α :=
  ⟨Vector3f.vmin b1.pMin b2.pMin, Vector3f.vmax b1.pMax b2.pMax⟩

/-- Modelled from the spec: `Union(b, p)`, the box `b` grown to hold the point
`p`. -/
def UnionPoint (b : Bounds3 α) (p : Vector3f α) : Bounds3 α :=
  ⟨Vector3f.vmin b.pMin p, Vector3f.vmax b.pMax p⟩

/-- The box `inner` lies within the box `outer`. -/
def Encloses (outer inner : Bounds3 α) : Prop :=
  Vector3f.le outer.pMin inner.pMin ∧ Vector3f.le inner.pMax outer.pMax

end Bounds3

/-- Modelled from the spec: a ray with its origin, direction and the
precomputed reciprocal direction (`Ray.hpp` is not among the sources). -/
structure Ray (α : Type) where
  origin : Vector3f α
  direction : Vector3f α
  direction_inv : Vector3f α

/-- Modelled from the spec: the constructor `Ray(ori, dir)`. -/
def Ray.new {α : Type} [LinearOrderedField α] (ori dir : Vector3f α) : Ray α :=
  ⟨ori, dir, ⟨1 / dir.x, 1 / dir.y, 1 / dir.z⟩⟩

/-! ## Random source, materials, primitives -/

/-- Modelled from the spec: the uniform random source, replaced by a scripted
sequence; `pos` counts the values consumed so far. -/
structure RNG (α : Type) where
  script : Nat → α
  pos : Nat

/-- Modelled from the spec: `get_random_float()`, which hands out the next
value of the script. -/
def get_random_float {α : Type} (g : RNG α) : α × RNG α :=
  (g.script g.pos, { g with pos := g.pos + 1 })

/-- Modelled from the spec: the material capabilities used by `castRay`
(`Material.hpp` is not among the sources).  `sample` may consume random
values. -/
structure Material (α : Type) where
  hasEmission : Bool
  getEmission : Vector3f α
  eval : Vector3f α → Vector3f α → Vector3f α → Vector3f α
  sample : Vector3f α → Vector3f α → RNG α → Vector3f α × RNG α
  pdf : Vector3f α → Vector3f α → Vector3f α → α

/-- Modelled from the spec: the hit record (`Intersection.hpp` is not among the
sources), restricted to the fields the two files read; `m` is the material
pointer, `none` when null. -/
structure Intersection (α : Type) where
  happened : Bool
  coords : Vector3f α
  normal : Vector3f α
  emit : Vector3f α
  distance : α
  m : Option (Material α)

/-- Modelled from the spec: the default-constructed no-hit record
`Intersection()`: nothing happened, the distance is the largest representable
number `M`, the material pointer is null. -/
def Intersection.default {α : Type} [LinearOrderedField α] (M : α) : Intersection α :=
  ⟨false, Vector3f.zero, Vector3f.zero, Vector3f.zero, M, none⟩

/-- Modelled from the spec: the polymorphic primitive `Object` (external), as
the record of the virtual methods the two files call.  `Sample(pos, pdf)`
writes through both reference arguments and may consume random values. -/
structure Object (α : Type) where
  getBounds : Bounds3 α
  getArea : α
  hasEmit : Bool
  getIntersection : Ray α → Intersection α
  Sample : Intersection α → α → RNG α → Intersection α × α × RNG α

/-- Ways in which an execution fails to produce a value. -/
inductive Fault where
  | outOfFuel
  | nullDeref
  | indeterminate
  deriving DecidableEq, Repr

/-- Everything the two files take from headers and libraries that are not among
the sources. -/
structure Runtime (α : Type) where
  /-- The constant `EPSILON`. -/
  EPSILON : α
  /-- The constant `RussianRoulette`. -/
  RussianRoulette : α
  /-- The value `std::numeric_limits<double>::max()`. -/
  maxDouble : α
  /-- The default-constructed box `Bounds3()`. -/
  emptyBounds : Bounds3 α
  /-- The value the field `area` holds in a node right after
  `new BVHBuildNode()`. -/
  areaInit : α
  /-- The value the local `float pdf_light;` of `castRay` holds before
  `sampleLight` writes it. -/
  pdfInit : α
  /-- The function `std::sqrt`. -/
  sqrt : α → α
  /-- The slab test `Bounds3::IntersectP(ray, invDir, dirIsNeg)`. -/
  IntersectP : Bounds3 α → Ray α → Vector3f α → Bool × Bool × Bool → Bool
  /-- The call `std::sort(objects.begin(), objects.end(), cmp)`. -/
  sort : (Object α → Object α → Bool) → List (Object α) → List (Object α)

/-! ## The tree and its construction (`BVH.cpp`) -/

/-- A `BVHBuildNode*`: either the null pointer or a node with its bounds, its
two child pointers, its primitive pointer (`none` when null) and its area. -/
inductive BVHBuildNode (α : Type) where
  | nullptr : BVHBuildNode α
  | node (bounds : Bounds3 α) (left right : BVHBuildNode α)
      (object : Option (Object α)) (area : α) : BVHBuildNode α

namespace BVHBuildNode

variable {α : Type}

/-- The read `node->bounds`. -/
def bounds : BVHBuildNode α → Except Fault (Bounds3 α)
  | nullptr => .error .nullDeref
  | node b _ _ _ _ => .ok b

/-- The read `node->area`. -/
def area : BVHBuildNode α → Except Fault α
  | nullptr => .error .nullDeref
  | node _ _ _ _ a => .ok a

/-- The test `node == nullptr`. -/
def isNull : BVHBuildNode α → Bool
  | nullptr => true
  | node _ _ _ _ _ => false

end BVHBuildNode

section Build

variable {α : Type} [LinearOrderedField α]

/-- The leaf that `recursiveBuild` makes for a single primitive
(`BVH.cpp` lines 46-54). -/
def leafNode (o : Object α) : BVHBuildNode α :=
  .node o.getBounds .nullptr .nullptr (some o) o.getArea

/-- The two assignments that close both interior branches of `recursiveBuild`:
`node->bounds = Union(node->left->bounds, node->right->bounds)` and
`node->area = node->left->area + node->right->area` (lines 59-60, 102-103). -/
def linkChildren (l r : BVHBuildNode α) : Except Fault (BVHBuildNode α) :=
  match l.bounds, r.bounds, l.area, r.area with
  | .ok bl, .ok br, .ok al, .ok ar => .ok (.node (Bounds3.Union bl br) l r none (al + ar))
  | _, _, _, _ => .error .nullDeref

/-- Modelled from the spec: the comparator `cmp[i]` of the header, which orders
primitives by the `i`-th coordinate of the centroid of their bounds; the three
lambdas of `recursiveBuild` (lines 71-86) are the same comparators. -/
def cmp (i : Nat) (f1 f2 : Object α) : Bool :=
  match i with
  | 0 => decide (f1.getBounds.Centroid.x < f2.getBounds.Centroid.x)
  | 1 => decide (f1.getBounds.Centroid.y < f2.getBounds.Centroid.y)
  | _ => decide (f1.getBounds.Centroid.z < f2.getBounds.Centroid.z)

/-- The centroid box of lines 64-67. -/
def centroidBounds (R : Runtime α) (objects : List (Object α)) : Bounds3 α :=
  objects.foldl (fun b o => Bounds3.UnionPoint b o.getBounds.Centroid)
    R.emptyBounds

/-- The `switch (dim)` of lines 69-88: sort along the chosen axis, and leave
the vector as it is when no case matches. -/
def sortSwitch (R : Runtime α) (dim : Nat) (objects : List (Object α)) : List (Object α) :=
  match dim with
  | 0 => R.sort (cmp 0) objects
  | 1 => R.sort (cmp 1) objects
  | 2 => R.sort (cmp 2) objects
  | _ => objects

/-- The function `BVHAccel::recursiveBuild` (lines 38-107).  The box `bounds`
of lines 43-45 is computed and never read, and the assertion of line 97 always
holds, so neither appears.  With no primitive the C++ falls into the last
branch and calls itself on two empty vectors without end; here the fuel runs
out. -/
def recursiveBuild (R : Runtime α) : Nat → List (Object α) → Except Fault (BVHBuildNode α)
  | 0, _ => .error .outOfFuel
  | fuel + 1, objects =>
    match objects with
    | [o] => .ok (leafNode o)
    | [o0, o1] =>
      match recursiveBuild R fuel [o0], recursiveBuild R fuel [o1] with
      | .ok l, .ok r => linkChildren l r
      | .error e, _ => .error e
      | _, .error e => .error e
    | _ =>
      let dim := (centroidBounds R objects).maxExtent
      let sorted := sortSwitch R dim objects
      let leftshapes := sorted.take (sorted.length / 2)
      let rightshapes := sorted.drop (sorted.length / 2)
      match recursiveBuild R fuel leftshapes, recursiveBuild R fuel rightshapes with
      | .ok l, .ok r => linkChildren l r
      | .error e, _ => .error e
      | _, .error e => .error e

/-- The value of a `double` expression: a number or one of the IEEE special
values that a quotient by zero produces. -/
inductive FCost (α : Type) where
  | nan : FCost α
  | negInf : FCost α
  | posInf : FCost α
  | fin (v : α) : FCost α

/-- The quotient `num / den` of line 139: by IEEE rules a zero denominator
gives an infinity of the sign of the numerator, or NaN for `0 / 0`. -/
def FCost.quot (num den : α) : FCost α :=
  if den = 0 then
    if 0 < num then .posInf else if num < 0 then .negInf else .nan
  else .fin (num / den)

/-- The sum `c + q` of a number and a quotient. -/
def FCost.addConst (c : α) : FCost α → FCost α
  | .fin v => .fin (c + v)
  | q => q

/-- The comparison `a < b` of line 140; it is false as soon as one side is
NaN. -/
def FCost.lt : FCost α → FCost α → Bool
  | .fin a, .fin b => decide (a < b)
  | .fin _, .posInf => true
  | .negInf, .fin _ => true
  | .negInf, .posInf => true
  | _, _ => false

/-- The box of a partition, lines 132-138 (and of the whole list, lines
117-119): the union of the bounds of its primitives, starting from
`Bounds3()`. -/
def boundsOf (R : Runtime α) (objs : List (Object α)) : Bounds3 α :=
  objs.foldl (fun b o => Bounds3.Union b o.getBounds) R.emptyBounds

/-- The split position `(int)(div[j] * objects.size())` of lines 128 and 148,
with `div[j] = (j+1)/6` and the product taken exactly. -/
def splitIndex (j n : Nat) : Nat := (j + 1) * n / 6

/-- The cost of line 139 for the candidate that cuts `objects` at the `j`-th
fraction, `bounds` being the box of the whole list. -/
def splitCost (R : Runtime α) (bounds : Bounds3 α) (objects : List (Object α)) (j : Nat) :
    FCost α :=
  let interval := splitIndex j objects.length
  let left_objs := objects.take interval
  let right_objs := objects.drop interval
  let left_bds := boundsOf R left_objs
  let right_bds := boundsOf R right_objs
  FCost.addConst 120
    (FCost.quot (left_bds.SurfaceArea * (left_objs.length : α)
      + right_bds.SurfaceArea * (right_objs.length : α)) bounds.SurfaceArea)

/-- The variables the search of lines 121-146 updates: the vector being sorted
in place, `min_cost`, and the pair `(dim, div_ind)`, which stays `none` while
both are unassigned. -/
structure SplitSearch (α : Type) where
  objects : List (Object α)
  min_cost : FCost α
  pick : Option (Nat × Nat)

/-- One pass of the inner loop body, lines 128-144. -/
def searchStep (R : Runtime α) (bounds : Bounds3 α) (i : Nat) (st : SplitSearch α) (j : Nat) :
    SplitSearch α :=
  let cost := splitCost R bounds st.objects j
  if FCost.lt cost st.min_cost then
    { st with min_cost := cost, pick := some (i, j) }
  else st

/-- One pass of the outer loop body, lines 126-145: sort along axis `i`, then
try the five fractions. -/
def searchAxis (R : Runtime α) (bounds : Bounds3 α) (st : SplitSearch α) (i : Nat) :
    SplitSearch α :=
  [0, 1, 2, 3, 4].foldl (searchStep R bounds i) { st with objects := R.sort (cmp i) st.objects }

/-- The whole search, lines 121-146. -/
def searchSplit (R : Runtime α) (bounds : Bounds3 α) (objects : List (Object α)) :
    SplitSearch α :=
  [0, 1, 2].foldl (searchAxis R bounds) ⟨objects, .fin R.maxDouble, none⟩

/-- The single assignment that closes `recursiveBuildSAH`:
`node->bounds = Union(node->left->bounds, node->right->bounds)` (line 156).
No statement assigns `node->area`, so the node keeps the area it was
constructed with. -/
def linkChildrenSAH (R : Runtime α) (l r : BVHBuildNode α) : Except Fault (BVHBuildNode α) :=
  match l.bounds, r.bounds with
  | .ok bl, .ok br => .ok (.node (Bounds3.Union bl br) l r none R.areaInit)
  | _, _ => .error .nullDeref

/-- The function `BVHAccel::recursiveBuildSAH` (lines 109-159).  When no
candidate is accepted `dim` and `div_ind` are read unassigned, which is reported
as `Fault.indeterminate`. -/
def recursiveBuildSAH (R : Runtime α) : Nat → List (Object α) → Except Fault (BVHBuildNode α)
  | 0, _ => .error .outOfFuel
  | fuel + 1, objects =>
    if objects.length < 12 then recursiveBuild R (fuel + 1) objects
    else
      let bounds := boundsOf R objects
      let st := searchSplit R bounds objects
      match st.pick with
      | none => .error .indeterminate
      | some (dim, div_ind) =>
        let sorted := R.sort (cmp dim) st.objects
        let mid := splitIndex div_ind sorted.length
        let leftshapes := sorted.take mid
        let rightshapes := sorted.drop mid
        match recursiveBuildSAH R fuel leftshapes, recursiveBuildSAH R fuel rightshapes with
        | .ok l, .ok r => linkChildrenSAH R l r
        | .error e, _ => .error e
        | _, .error e => .error e

end Build

/-! ## Effects: random draws and the record of calls -/

/-- The routines of a material. -/
inductive MaterialRoutine where
  | hasEmission
  | getEmission
  | eval
  | sample
  | pdf
  deriving DecidableEq, Repr

/-- What an execution does besides computing: the calls it makes to
`sampleLight`, to a primitive's `Sample`, to a material routine and to
`castRay` itself, and its divisions by a sampling pdf. -/
inductive Event (α : Type) where
  | sampleLight : Event α
  | objectSample (o : Object α) : Event α
  | material (r : MaterialRoutine) : Event α
  | divPdfLight (v : α) : Event α
  | divPdfBounce (v : α) : Event α
  | recurse (depth : Int) : Event α

/-- The state threaded through the sampling code: the random source and the
events so far, oldest first. -/
structure State (α : Type) where
  rng : RNG α
  trace : List (Event α)

/-- Append one event to the record. -/
def State.log {α : Type} (s : State α) (e : Event α) : State α :=
  { s with trace := s.trace ++ [e] }

/-- The outcome of a stateful routine: a value or a fault, each with the state
reached. -/
inductive Res (σ β : Type) where
  | ok (v : β) (s : σ) : Res σ β
  | fault (f : Fault) (s : σ) : Res σ β

/-- The state an outcome was reached in. -/
def Res.state {σ β : Type} : Res σ β → σ
  | .ok _ s => s
  | .fault _ s => s

/-- The value of an outcome, if it has one. -/
def Res.value? {σ β : Type} : Res σ β → Option β
  | .ok v _ => some v
  | .fault _ _ => none

/-! ## Queries on the tree (`BVH.cpp`) -/

/-- The enumeration `BVHAccel::SplitMethod`. -/
inductive SplitMethod where
  | NAIVE
  | SAH
  deriving DecidableEq, Repr

/-- The class `BVHAccel`: the root pointer and the three data members the
constructor initialises. -/
structure BVHAccel (α : Type) where
  root : BVHBuildNode α
  maxPrimsInNode : Int
  splitMethod : SplitMethod
  primitives : List (Object α)

section Query

variable {α : Type} [LinearOrderedField α]

/-- Modelled from the spec: the value of the member `root` before the
constructor body runs (its declaration is in `BVH.hpp`, not among the sources);
the spec has the tree absent for an empty primitive list. -/
def BVHAccel.rootInit : BVHBuildNode α := .nullptr

/-- The constructor `BVHAccel::BVHAccel` (lines 5-36), without the timing
report.  The build is given as much fuel as there are primitives. -/
def BVHAccel.new (R : Runtime α) (p : List (Object α)) (maxPrimsInNode : Int)
    (splitMethod : SplitMethod) : Except Fault (BVHAccel α) :=
  if p.isEmpty then .ok ⟨BVHAccel.rootInit, min 255 maxPrimsInNode, splitMethod, p⟩
  else
    match splitMethod with
    | .NAIVE =>
      match recursiveBuild R p.length p with
      | .ok t => .ok ⟨t, min 255 maxPrimsInNode, splitMethod, p⟩
      | .error e => .error e
    | .SAH =>
      match recursiveBuildSAH R p.length p with
      | .ok t => .ok ⟨t, min 255 maxPrimsInNode, splitMethod, p⟩
      | .error e => .error e

/-- The array `dirIsNeg` of line 173. -/
def dirIsNeg (ray : Ray α) : Bool × Bool × Bool :=
  (decide (ray.direction.x > 0), decide (ray.direction.y > 0), decide (ray.direction.z > 0))

/-- The function `BVHAccel::getIntersection` (lines 170-200). -/
def getIntersection (R : Runtime α) : BVHBuildNode α → Ray α → Except Fault (Intersection α)
  | .nullptr, _ => .error .nullDeref
  | .node bounds left right object _, ray =>
    if !R.IntersectP bounds ray ray.direction_inv (dirIsNeg ray) then
      .ok (Intersection.default R.maxDouble)
    else if left.isNull && right.isNull then
      match object with
      | none => .error .nullDeref
      | some o => .ok (o.getIntersection ray)
    else
      match getIntersection R left ray, getIntersection R right ray with
      | .ok inter_left, .ok inter_right =>
        if !inter_left.happened && !inter_right.happened then
          .ok (Intersection.default R.maxDouble)
        else if inter_left.distance < inter_right.distance then .ok inter_left
        else .ok inter_right
      | .error e, _ => .error e
      | _, .error e => .error e

/-- The function `BVHAccel::Intersect` (lines 161-168). -/
def BVHAccel.Intersect (R : Runtime α) (bvh : BVHAccel α) (ray : Ray α) :
    Except Fault (Intersection α) :=
  if bvh.root.isNull then .ok (Intersection.default R.maxDouble)
  else getIntersection R bvh.root ray

/-- The function `BVHAccel::getSample` (lines 203-211); `pos` and `pdf` are the
values behind the two reference arguments, returned updated. -/
def getSample : BVHBuildNode α → α → Intersection α → α → State α →
    Res (State α) (Intersection α × α)
  | .nullptr, _, _, _, s => .fault .nullDeref s
  | .node _ left right object area, p, pos, pdf, s =>
    if left.isNull || right.isNull then
      match object with
      | none => .fault .nullDeref s
      | some o =>
        .ok ((o.Sample pos pdf s.rng).1, (o.Sample pos pdf s.rng).2.1 * area)
          { rng := (o.Sample pos pdf s.rng).2.2, trace := s.trace ++ [.objectSample o] }
    else
      match left.area with
      | .error f => .fault f s
      | .ok leftArea =>
        if p < leftArea then getSample left p pos pdf s
        else getSample right (p - leftArea) pos pdf s

/-- The function `BVHAccel::Sample` (lines 214-218). -/
def BVHAccel.Sample (R : Runtime α) (bvh : BVHAccel α) (pos : Intersection α) (pdf : α)
    (s : State α) : Res (State α) (Intersection α × α) :=
  match bvh.root.area with
  | .error f => .fault f s
  | .ok rootArea =>
    let p := R.sqrt (get_random_float s.rng).1 * rootArea
    match getSample bvh.root p pos pdf { s with rng := (get_random_float s.rng).2 } with
    | .fault f s1 => .fault f s1
    | .ok out s1 => .ok (out.1, out.2 / rootArea) s1

end Query

/-! ## The scene and the integrator (`Scene.cpp`) -/

/-- The class `Scene`, restricted to the members the file reads: the primitive
list, the accelerator pointer (`none` while null) and the background colour. -/
structure Scene (α : Type) where
  objects : List (Object α)
  bvh : Option (BVHAccel α)
  backgroundColor : Vector3f α

section SceneCode

variable {α : Type} [LinearOrderedField α]

/-- The function `Scene::buildBVH` (lines 8-11). -/
def Scene.buildBVH (R : Runtime α) (scene : Scene α) : Except Fault (Scene α) :=
  match BVHAccel.new R scene.objects 1 .NAIVE with
  | .ok b => .ok { scene with bvh := some b }
  | .error e => .error e

/-- The function `Scene::buildSAH` (lines 13-16). -/
def Scene.buildSAH (R : Runtime α) (scene : Scene α) : Except Fault (Scene α) :=
  match BVHAccel.new R scene.objects 1 .SAH with
  | .ok b => .ok { scene with bvh := some b }
  | .error e => .error e

/-- The function `Scene::intersect` (lines 18-21). -/
def Scene.intersect (R : Runtime α) (scene : Scene α) (ray : Ray α) :
    Except Fault (Intersection α) :=
  match scene.bvh with
  | none => .error .nullDeref
  | some b => b.Intersect R ray

/-- The first loop of `sampleLight` (lines 25-30): the total area of the
emissive primitives. -/
def emitAreaSum (objects : List (Object α)) : α :=
  objects.foldl (fun acc o => if o.hasEmit then acc + o.getArea else acc) 0

/-- The second loop of `sampleLight` (lines 33-41), entered with threshold `p`
and running sum `emit_area_sum`. -/
def sampleLightLoop : List (Object α) → α → α → Intersection α → α → State α →
    Intersection α × α × State α
  | [], _, _, pos, pdf, s => (pos, pdf, s)
  | o :: rest, p, emit_area_sum, pos, pdf, s =>
    if o.hasEmit then
      if p ≤ emit_area_sum + o.getArea then
        ((o.Sample pos pdf s.rng).1, (o.Sample pos pdf s.rng).2.1,
          { rng := (o.Sample pos pdf s.rng).2.2, trace := s.trace ++ [.objectSample o] })
      else sampleLightLoop rest p (emit_area_sum + o.getArea) pos pdf s
    else sampleLightLoop rest p emit_area_sum pos pdf s

/-- The function `Scene::sampleLight` (lines 23-42). -/
def Scene.sampleLight (scene : Scene α) (pos : Intersection α) (pdf : α) (s : State α) :
    Intersection α × α × State α :=
  let p := (get_random_float s.rng).1 * emitAreaSum scene.objects
  sampleLightLoop scene.objects p 0 pos pdf { s with rng := (get_random_float s.rng).2 }

/-- The right-hand side of lines 85-86, the direct term. -/
def directTerm (emit evalv ws normal light_normal light_coords coords : Vector3f α)
    (pdf_light : α) : Vector3f α :=
  Vector3f.divScalar
    (Vector3f.divScalar
      (Vector3f.scale
        (Vector3f.scale (Vector3f.mul emit evalv) (Vector3f.dotProduct ws normal))
        (Vector3f.dotProduct (Vector3f.neg ws) light_normal))
      (Vector3f.dotProduct light_coords coords))
    pdf_light

/-- The right-hand side of line 99, the indirect term, `radiance` being the
value of the recursive call. -/
def indirectTerm (R : Runtime α) (radiance evalv wi normal : Vector3f α) (pdf : α) :
    Vector3f α :=
  Vector3f.divScalar
    (Vector3f.divScalar
      (Vector3f.scale (Vector3f.mul radiance evalv) (Vector3f.dotProduct wi normal))
      pdf)
    R.RussianRoulette

/-- The block "Contribution from the light source" of `castRay` (lines 75-87):
the value of `l_dir` for the hit `inter` with material `m`. -/
def directLight (R : Runtime α) (scene : Scene α) (ray : Ray α) (inter : Intersection α)
    (m : Material α) (s : State α) : Res (State α) (Vector3f α) :=
  let lit := scene.sampleLight (Intersection.default R.maxDouble) R.pdfInit (s.log .sampleLight)
  let light_point := lit.1
  let pdf_light := lit.2.1
  let s1 := lit.2.2
  let light_coords := light_point.coords
  let ws := Vector3f.normalized R.sqrt (Vector3f.sub light_point.coords inter.coords)
  let light_normal := light_point.normal
  let emit := light_point.emit
  let wo := ray.direction
  match scene.intersect R (Ray.new inter.coords ws) with
  | .error f => .fault f s1
  | .ok block_check =>
    if Vector3f.norm R.sqrt (Vector3f.sub light_coords inter.coords) - block_check.distance
        < R.EPSILON then
      .ok (directTerm emit (m.eval wo ws inter.normal) ws inter.normal light_normal
          light_coords inter.coords pdf_light)
        ((s1.log (.material .eval)).log (.divPdfLight pdf_light))
    else .ok Vector3f.zero s1

/-- The function `Scene::castRay` (lines 66-104).  The recursion is bounded
only by the roulette draw, so it is given fuel. -/
def castRay (R : Runtime α) (scene : Scene α) : Nat → Ray α → Int → State α →
    Res (State α) (Vector3f α)
  | 0, _, _, s => .fault .outOfFuel s
  | fuel + 1, ray, depth, s =>
    match scene.intersect R ray with
    | .error f => .fault f s
    | .ok inter =>
      if !inter.happened then .ok scene.backgroundColor s
      else
        match inter.m with
        | none => .fault .nullDeref s
        | some m =>
          let s1 := s.log (.material .hasEmission)
          let l_emit := if m.hasEmission then m.getEmission else Vector3f.zero
          let s2 := if m.hasEmission then s1.log (.material .getEmission) else s1
          let wo := ray.direction
          match directLight R scene ray inter m s2 with
          | .fault f s3 => .fault f s3
          | .ok l_dir s3 =>
            let s4 : State α := { s3 with rng := (get_random_float s3.rng).2 }
            if (get_random_float s3.rng).1 > R.RussianRoulette then
              .ok (Vector3f.add l_dir l_emit) s4
            else
              let wi := (m.sample wo inter.normal s4.rng).1
              let s5 : State α :=
                { rng := (m.sample wo inter.normal s4.rng).2,
                  trace := s4.trace ++ [.material .sample] }
              let r := Ray.new inter.coords wi
              match scene.intersect R r with
              | .error f => .fault f s5
              | .ok non_emit_check =>
                if non_emit_check.happened then
                  match non_emit_check.m with
                  | none => .fault .nullDeref s5
                  | some m2 =>
                    let s6 := s5.log (.material .hasEmission)
                    if !m2.hasEmission then
                      let pdf := m.pdf wo wi inter.normal
                      let s7 := s6.log (.material .pdf)
                      if pdf > R.EPSILON then
                        match castRay R scene fuel r (depth + 1) (s7.log (.recurse (depth + 1))) with
                        | .fault f s8 => .fault f s8
                        | .ok radiance s8 =>
                          .ok (Vector3f.add
                              (Vector3f.add l_dir
                                (indirectTerm R radiance (m.eval wo wi inter.normal) wi
                                  inter.normal pdf))
                              l_emit)
                            ((s8.log (.material .eval)).log (.divPdfBounce pdf))
                      else .ok (Vector3f.add (Vector3f.add l_dir Vector3f.zero) l_emit) s7
                    else .ok (Vector3f.add (Vector3f.add l_dir Vector3f.zero) l_emit) s6
                else .ok (Vector3f.add (Vector3f.add l_dir Vector3f.zero) l_emit) s5

end SceneCode

/-! ## Notions used to state the properties -/

section Notions

variable {α : Type} [LinearOrderedField α]

instance Vector3f.decidableLe (a b : Vector3f α) : Decidable (Vector3f.le a b) :=
  inferInstanceAs (Decidable (a.x ≤ b.x ∧ a.y ≤ b.y ∧ a.z ≤ b.z))

instance Bounds3.decidableEncloses (outer inner : Bounds3 α) :
    Decidable (Bounds3.Encloses outer inner) :=
  inferInstanceAs
    (Decidable (Vector3f.le outer.pMin inner.pMin ∧ Vector3f.le inner.pMax outer.pMax))

/-- The primitives held by the leaves (nodes with both children null) of a
subtree, from left to right. -/
def BVHBuildNode.heldObjects : BVHBuildNode α → List (Object α)
  | .nullptr => []
  | .node _ l r o _ =>
    (if l.isNull && r.isNull then o.toList else []) ++ (l.heldObjects ++ r.heldObjects)

/-- Area additivity: every leaf stores the area of its primitive, and every
other node stores the sum of the areas stored in its two children. -/
def BVHBuildNode.areaAdditive : BVHBuildNode α → Bool
  | .nullptr => true
  | .node _ l r o a =>
    (if l.isNull && r.isNull then
      match o with
      | some p => decide (a = p.getArea)
      | none => false
    else
      match l.area, r.area with
      | .ok al, .ok ar => decide (a = al + ar)
      | _, _ => false)
    && l.areaAdditive && r.areaAdditive

/-- Containment: the box of every node encloses the bounds of every primitive
held in its subtree. -/
def BVHBuildNode.contained : BVHBuildNode α → Bool
  | .nullptr => true
  | .node b l r o a =>
    (BVHBuildNode.node b l r o a).heldObjects.all (fun p => decide (b.Encloses p.getBounds))
    && l.contained && r.contained

/-- Every node is a leaf holding a primitive or has both children and holds
none. -/
def BVHBuildNode.proper : BVHBuildNode α → Bool
  | .nullptr => true
  | .node _ l r o _ =>
    ((l.isNull && r.isNull && o.isSome) || (!l.isNull && !r.isNull && o.isNone))
    && l.proper && r.proper

/-- The two leaf tests agree on every node of the subtree: the test of
`getIntersection` (line 184, both children null) and the test of `getSample`
(line 204, some child null). -/
def BVHBuildNode.leafTestsAgree : BVHBuildNode α → Bool
  | .nullptr => true
  | .node _ l r _ _ =>
    ((l.isNull && r.isNull) == (l.isNull || r.isNull)) && l.leafTestsAgree && r.leafTestsAgree

/-- The number of nodes of a subtree. -/
def BVHBuildNode.size : BVHBuildNode α → Nat
  | .nullptr => 0
  | .node _ l r _ _ => 1 + l.size + r.size

/-- The number of leaves (nodes with both children null) of a subtree. -/
def BVHBuildNode.leafCount : BVHBuildNode α → Nat
  | .nullptr => 0
  | .node _ l r _ _ => (if l.isNull && r.isNull then 1 else 0) + l.leafCount + r.leafCount

/-- The height of a subtree: zero for a node without children (and for the
null pointer), one more than the higher child otherwise. -/
def BVHBuildNode.height : BVHBuildNode α → Nat
  | .nullptr => 0
  | .node _ l r _ _ => if l.isNull && r.isNull then 0 else 1 + max l.height r.height

/-- A box whose minimum corner does not exceed its maximum corner. -/
def Bounds3.WellFormed (b : Bounds3 α) : Prop := Vector3f.le b.pMin b.pMax

instance Bounds3.decidableWellFormed (b : Bounds3 α) : Decidable b.WellFormed :=
  inferInstanceAs (Decidable (Vector3f.le b.pMin b.pMax))

/-- The sum of the areas of a list of primitives. -/
def totalArea (objs : List (Object α)) : α := (objs.map Object.getArea).sum

/-- The structural facts shared by every tree either builder returns for the
list `objs`: its nodes are proper, its boxes contain what they hold, and its
leaves hold the primitives of `objs`, each as often as it occurs there. -/
def WellBuilt (objs : List (Object α)) (t : BVHBuildNode α) : Prop :=
  t.proper = true ∧ t.contained = true ∧ t.heldObjects.Perm objs

/-- The area facts of a tree the naive builder returns for the list `objs`. -/
def AreaSummed (objs : List (Object α)) (t : BVHBuildNode α) : Prop :=
  t.areaAdditive = true ∧ t.area = .ok (totalArea objs)

/-- The values by which a record of events divided on behalf of the direct
term. -/
def lightDivisors : List (Event α) → List α
  | [] => []
  | .divPdfLight v :: l => v :: lightDivisors l
  | _ :: l => lightDivisors l

/-- The values by which a record of events divided on behalf of the indirect
term. -/
def bounceDivisors : List (Event α) → List α
  | [] => []
  | .divPdfBounce v :: l => v :: bounceDivisors l
  | _ :: l => bounceDivisors l

/-- The nearest-hit query answered by a linear scan, as the specification
words it: keep, among the primitives that report a hit, one of least
distance. -/
def bruteForce (R : Runtime α) (objs : List (Object α)) (ray : Ray α) : Intersection α :=
  objs.foldl
    (fun best o =>
      if (o.getIntersection ray).happened
          && (!best.happened || decide ((o.getIntersection ray).distance < best.distance))
      then o.getIntersection ray else best)
    (Intersection.default R.maxDouble)

/-- The record of `t` extends what the record of `s` divided by, on behalf of
the indirect term, only with values above `EPSILON`. -/
def Guarded (R : Runtime α) (s t : State α) : Prop :=
  ∃ extra, bounceDivisors t.trace = bounceDivisors s.trace ++ extra ∧ ∀ v ∈ extra, R.EPSILON < v

/-- The nodes at which `getSample` stops (those with a null child), from left
to right. -/
def BVHBuildNode.sampleLeaves : BVHBuildNode α → List (BVHBuildNode α)
  | .nullptr => []
  | .node b l r o a =>
    if l.isNull || r.isNull then [.node b l r o a] else l.sampleLeaves ++ r.sampleLeaves

/-- The position, among `sampleLeaves`, of the node at which `getSample` stops
when called with the number `p`: the descent of lines 204-210 without the call
to the primitive. -/
def BVHBuildNode.leafIndex : BVHBuildNode α → α → Nat
  | .nullptr, _ => 0
  | .node _ l r _ _, p =>
    if l.isNull || r.isNull then 0
    else
      match l.area with
      | .ok leftArea =>
        if p < leftArea then l.leafIndex p
        else l.sampleLeaves.length + r.leafIndex (p - leftArea)
      | .error _ => 0

/-- The area stored in a node (zero for the null pointer). -/
def BVHBuildNode.storedArea : BVHBuildNode α → α
  | .nullptr => 0
  | .node _ _ _ _ a => a

/-- The areas stored in the leaves, from left to right. -/
def BVHBuildNode.leafAreas (t : BVHBuildNode α) : List α :=
  t.sampleLeaves.map BVHBuildNode.storedArea

/-- The total area stored in the leaves to the left of the `i`-th leaf. -/
def BVHBuildNode.areaBefore (t : BVHBuildNode α) (i : Nat) : α :=
  (t.leafAreas.take i).sum

/-- The outcome of the call `sampleLight(light_point, pdf_light)` of line 78,
made by the direct-lighting block from the state `s`. -/
def lightSample (R : Runtime α) (scene : Scene α) (s : State α) :
    Intersection α × α × State α :=
  scene.sampleLight (Intersection.default R.maxDouble) R.pdfInit (s.log .sampleLight)

/-- The direction `ws` of line 79, from the hit point to the sampled light
point. -/
def shadowDirection (R : Runtime α) (scene : Scene α) (inter : Intersection α)
    (s : State α) : Vector3f α :=
  Vector3f.normalized R.sqrt (Vector3f.sub (lightSample R scene s).1.coords inter.coords)

/-- The distance `(light_coords - inter.coords).norm()` of line 84. -/
def lightDistance (R : Runtime α) (scene : Scene α) (inter : Intersection α) (s : State α) :
    α :=
  Vector3f.norm R.sqrt (Vector3f.sub (lightSample R scene s).1.coords inter.coords)

/-- The emitted term `l_emit` of lines 71-73 for the hit material `m`. -/
def emitTerm (m : Material α) : Vector3f α :=
  if m.hasEmission then m.getEmission else Vector3f.zero

/-- The state in which `castRay` enters the direct-lighting block: the calls of
lines 72-73 recorded. -/
def afterEmit (m : Material α) (s : State α) : State α :=
  if m.hasEmission then (s.log (.material .hasEmission)).log (.material .getEmission)
  else s.log (.material .hasEmission)

/-- The bounce direction `wi` of line 93, sampled after the direct-lighting
block has left the state `s3` and the roulette draw has been taken. -/
def bounceDirection (m : Material α) (ray : Ray α) (inter : Intersection α) (s3 : State α) :
    Vector3f α :=
  (m.sample ray.direction inter.normal (get_random_float s3.rng).2).1

/-- The bounce ray `r` of line 94. -/
def bounceRay (m : Material α) (ray : Ray α) (inter : Intersection α) (s3 : State α) : Ray α :=
  Ray.new inter.coords (bounceDirection m ray inter s3)

/-- The state after line 93: the roulette draw and the random values of the
material consumed, the call to `sample` recorded. -/
def afterBounce (m : Material α) (ray : Ray α) (inter : Intersection α) (s3 : State α) :
    State α :=
  { rng := (m.sample ray.direction inter.normal (get_random_float s3.rng).2).2,
    trace := s3.trace ++ [.material .sample] }

/-- The value `pdf` of line 97. -/
def bouncePdf (m : Material α) (ray : Ray α) (inter : Intersection α) (s3 : State α) : α :=
  m.pdf ray.direction (bounceDirection m ray inter s3) inter.normal

/-- The number of recursive calls in a record of events. -/
def recursions : List (Event α) → Nat
  | [] => 0
  | .recurse _ :: l => recursions l + 1
  | _ :: l => recursions l

/-- The number of calls to the material routine `r` in a record of events. -/
def materialCalls (r : MaterialRoutine) : List (Event α) → Nat
  | [] => 0
  | .material q :: l => (if q = r then 1 else 0) + materialCalls r l
  | _ :: l => materialCalls r l

/-- The primitive `o` reports a hit for `ray`. -/
def Hits (o : Object α) (ray : Ray α) : Prop := (o.getIntersection ray).happened = true

/-- The record `r` lies beyond every hit that a primitive of `all` reports for
`ray`. -/
def Beyond (all : List (Object α)) (ray : Ray α) (r : Intersection α) : Prop :=
  ∀ o ∈ all, Hits o ray → (o.getIntersection ray).distance < r.distance

/-- The record `r` answers the nearest-hit query for `ray` over the primitives
`objs`: if one of them reports a hit, `r` is the record of such a primitive and
no reported hit is nearer; if none does, `r` is a no-hit record beyond every hit
reported in `all`. -/
def Nearest (all objs : List (Object α)) (ray : Ray α) (r : Intersection α) : Prop :=
  ((∃ o ∈ objs, Hits o ray) →
    r.happened = true ∧ (∃ o ∈ objs, Hits o ray ∧ r = o.getIntersection ray) ∧
      ∀ o ∈ objs, Hits o ray → r.distance ≤ (o.getIntersection ray).distance) ∧
  ((¬ ∃ o ∈ objs, Hits o ray) → r.happened = false ∧ Beyond all ray r)

end Notions

/-- The uniform draws `u` in `[0, 1)` for which `Sample`, which calls
`getSample(root, sqrt(u) * rootArea)`, stops at the `i`-th leaf of `t`. -/
def selectionSet (t : BVHBuildNode ℝ) (i : Nat) : Set ℝ :=
  {u | 0 ≤ u ∧ u < 1 ∧ t.leafIndex (Real.sqrt u * t.storedArea) = i}

/-! ## A concrete runtime and concrete scenes -/

section Concrete

/-- A square of area `a` over any scalar field, sampled uniformly (density
`1 / a`). -/
def squareOfArea {α : Type} [LinearOrderedField α] (a : α) : Object α where
  getBounds := ⟨⟨0, 0, 0⟩, ⟨a, 1, 0⟩⟩
  getArea := a
  hasEmit := true
  getIntersection := fun _ => ⟨false, Vector3f.zero, Vector3f.zero, Vector3f.zero, 0, none⟩
  Sample := fun pos _ g => (pos, 1 / a, g)

/-- The tree `recursiveBuild` makes of a square of area `a` followed by a
square of area `b`. -/
def pairTree {α : Type} [LinearOrderedField α] (a b : α) : BVHBuildNode α :=
  .node (Bounds3.Union (squareOfArea a).getBounds (squareOfArea b).getBounds)
    (leafNode (squareOfArea a)) (leafNode (squareOfArea b)) none (a + b)

/-- Integer square root by linear search. -/
def natSqrt (n : Nat) : Nat :=
  (List.range (n + 1)).foldl (fun k i => if i * i ≤ n then i else k) 0

/-- A square root on the rationals, exact on quotients of perfect squares. -/
def ratSqrt (q : ℚ) : ℚ := (natSqrt q.num.toNat : ℚ) / (natSqrt q.den : ℚ)

/-- Insertion of one element into a list kept in order. -/
def insertBy {β : Type} (lt : β → β → Bool) (a : β) : List β → List β
  | [] => [a]
  | b :: l => if lt a b then a :: b :: l else b :: insertBy lt a l

/-- Insertion sort, one admissible behaviour of `std::sort`. -/
def insertionSort {β : Type} (lt : β → β → Bool) (l : List β) : List β :=
  l.foldr (insertBy lt) []

/-- A runtime over the rationals: `EPSILON = 0.00001`, `RussianRoulette = 0.8`,
a default box with minimum corner at the largest number and maximum corner at
the lowest, a slab test that always succeeds, and nodes whose area starts at
zero. -/
def demoRuntime : Runtime ℚ where
  EPSILON := 1 / 100000
  RussianRoulette := 4 / 5
  maxDouble := 10 ^ 30
  emptyBounds := ⟨⟨10 ^ 30, 10 ^ 30, 10 ^ 30⟩, ⟨-10 ^ 30, -10 ^ 30, -10 ^ 30⟩⟩
  areaInit := 0
  pdfInit := 0
  sqrt := ratSqrt
  IntersectP := fun _ _ _ _ => true
  sort := insertionSort

/-- The same runtime, except that a freshly constructed node holds the stale
area five. -/
def staleRuntime : Runtime ℚ := { demoRuntime with areaInit := 5 }

/-- The no-hit record over the rationals. -/
def demoMiss : Intersection ℚ := Intersection.default (10 ^ 30)

/-- An axis-aligned unit square in the plane `z = 0` with lower corner
`(k, 0, 0)`: area one, never hit, sampled with density one. -/
def unitSquare (k : Nat) : Object ℚ where
  getBounds := ⟨⟨k, 0, 0⟩, ⟨k + 1, 1, 0⟩⟩
  getArea := 1
  hasEmit := false
  getIntersection := fun _ => demoMiss
  Sample := fun pos _ g => ({ pos with coords := ⟨k, 0, 0⟩ }, 1, g)

/-- Twelve unit squares side by side. -/
def twelveSquares : List (Object ℚ) := (List.range 12).map unitSquare

/-- The initial state of the demonstrations: a random source that always
returns `u`, nothing consumed, nothing recorded. -/
def demoState (u : ℚ) : State ℚ := ⟨⟨fun _ => u, 0⟩, []⟩

/-- A ray from the origin along the `z` axis. -/
def demoRay : Ray ℚ := Ray.new ⟨0, 0, 0⟩ ⟨0, 0, 1⟩

/-- A scene holding one unit square, after `buildBVH`. -/
def missScene : Scene ℚ where
  objects := [unitSquare 0]
  bvh := some ⟨leafNode (unitSquare 0), 1, .NAIVE, [unitSquare 0]⟩
  backgroundColor := ⟨47 / 200, 27 / 40, 843 / 1000⟩

/-- An emissive unit square: area one, sampled at its corner with density
one. -/
def lightA : Object ℚ where
  getBounds := ⟨⟨0, 0, 0⟩, ⟨1, 1, 0⟩⟩
  getArea := 1
  hasEmit := true
  getIntersection := fun _ => demoMiss
  Sample := fun pos _ g => ({ pos with coords := ⟨0, 0, 0⟩, emit := ⟨1, 1, 1⟩ }, 1, g)

/-- An emissive rectangle of area two, sampled at its corner with density one
half. -/
def lightB : Object ℚ where
  getBounds := ⟨⟨5, 0, 0⟩, ⟨7, 1, 0⟩⟩
  getArea := 2
  hasEmit := true
  getIntersection := fun _ => demoMiss
  Sample := fun pos _ g => ({ pos with coords := ⟨5, 0, 0⟩, emit := ⟨1, 1, 1⟩ }, 1 / 2, g)

/-- A scene with the two lights, in this order. -/
def twoLights : Scene ℚ where
  objects := [lightA, lightB]
  bvh := none
  backgroundColor := ⟨0, 0, 0⟩

/-- A material that emits `(1, 1, 1)` and reflects with response `(1, 1, 1)`
whatever the directions; it bounces along the `z` axis with density one. -/
def glowMaterial : Material ℚ where
  hasEmission := true
  getEmission := ⟨1, 1, 1⟩
  eval := fun _ _ _ => ⟨1, 1, 1⟩
  sample := fun _ _ g => (⟨0, 0, 1⟩, g)
  pdf := fun _ _ _ => 1

/-- The inside of an emissive spherical shell of diameter five centred at
`(5/2, 2, 0)`, with nominal area `area` and normals pointing inward; `(1, 0, 0)`
and `(4, 4, 0)` are opposite points of it.  A ray leaving `(1, 0, 0)` is
reported to hit at `(4, 4, 0)` at distance five, any other ray at `(1, 0, 0)`
at distance five halves; `Sample` returns the point `(4, 4, 0)` with density
`1 / area`. -/
def glowObject (area : ℚ) : Object ℚ where
  getBounds := ⟨⟨0, -1 / 2, -5 / 2⟩, ⟨5, 9 / 2, 5 / 2⟩⟩
  getArea := area
  hasEmit := true
  getIntersection := fun r =>
    if r.origin = ⟨1, 0, 0⟩ then
      ⟨true, ⟨4, 4, 0⟩, ⟨-3 / 5, -4 / 5, 0⟩, ⟨1, 1, 1⟩, 5, some glowMaterial⟩
    else ⟨true, ⟨1, 0, 0⟩, ⟨3 / 5, 4 / 5, 0⟩, ⟨1, 1, 1⟩, 5 / 2, some glowMaterial⟩
  Sample := fun pos _ g =>
    ({ pos with coords := ⟨4, 4, 0⟩, normal := ⟨-3 / 5, -4 / 5, 0⟩, emit := ⟨1, 1, 1⟩ },
      1 / area, g)

/-- The scene whose only primitive is `glowObject area`, after `buildBVH`. -/
def glowScene (area : ℚ) : Scene ℚ where
  objects := [glowObject area]
  bvh := some ⟨leafNode (glowObject area), 1, .NAIVE, [glowObject area]⟩
  backgroundColor := ⟨0, 0, 0⟩

/-- A ray from the centre of the shell towards its point `(1, 0, 0)`. -/
def glowRay : Ray ℚ := Ray.new ⟨5 / 2, 2, 0⟩ ⟨-3 / 5, -4 / 5, 0⟩

/-- A unit plate across the `z` axis that every ray is reported to hit at
distance `d`. -/
def plate (d : ℚ) : Object ℚ where
  getBounds := ⟨⟨0, 0, d⟩, ⟨1, 1, d⟩⟩
  getArea := 1
  hasEmit := false
  getIntersection := fun _ => ⟨true, ⟨0, 0, d⟩, ⟨0, 0, -1⟩, ⟨0, 0, 0⟩, d, none⟩
  Sample := fun pos _ g => ({ pos with coords := ⟨0, 0, d⟩ }, 1, g)

/-- Two plates, at distances seven and three, with a square that is never hit
between them in the list. -/
def threeObjects : List (Object ℚ) := [plate 7, unitSquare 0, plate 3]

/-- A diffuse, non-emissive material with response `(1, 1, 1)`; it bounces
along the `y` axis with density one. -/
def floorMaterial : Material ℚ where
  hasEmission := false
  getEmission := ⟨0, 0, 0⟩
  eval := fun _ _ _ => ⟨1, 1, 1⟩
  sample := fun _ _ g => (⟨0, 1, 0⟩, g)
  pdf := fun _ _ _ => 1

/-- A floor in the plane `y = 0`, facing up: a ray that starts on it at
`(1, 0, 0)` leaves it without a hit, any other ray is reported to hit it at
`(1, 0, 0)`, five away. -/
def floorObject : Object ℚ where
  getBounds := ⟨⟨-10, 0, -10⟩, ⟨10, 0, 10⟩⟩
  getArea := 400
  hasEmit := false
  getIntersection := fun r =>
    if r.origin = ⟨1, 0, 0⟩ then demoMiss
    else ⟨true, ⟨1, 0, 0⟩, ⟨0, 1, 0⟩, ⟨0, 0, 0⟩, 5, some floorMaterial⟩
  Sample := fun pos _ g => ({ pos with coords := ⟨1, 0, 0⟩ }, 1 / 400, g)

/-- A unit lamp around `(4, 4, 0)` that faces up, away from the floor.  A ray
coming down beside it or reaching it from below is reported as no hit;
`Sample` returns the point `(4, 4, 0)` with its normal and density one. -/
def lampObject : Object ℚ where
  getBounds := ⟨⟨7 / 2, 4, -1 / 2⟩, ⟨9 / 2, 4, 1 / 2⟩⟩
  getArea := 1
  hasEmit := true
  getIntersection := fun _ => demoMiss
  Sample := fun pos _ g =>
    ({ pos with coords := ⟨4, 4, 0⟩, normal := ⟨0, 1, 0⟩, emit := ⟨1, 1, 1⟩ }, 1, g)

/-- The scene with the floor and the lamp, after `buildBVH`. -/
def lampScene : Scene ℚ where
  objects := [floorObject, lampObject]
  bvh := some ⟨.node (Bounds3.Union floorObject.getBounds lampObject.getBounds)
    (leafNode floorObject) (leafNode lampObject) none
    (floorObject.getArea + lampObject.getArea), 1, .NAIVE, [floorObject, lampObject]⟩
  backgroundColor := ⟨0, 0, 0⟩

/-- A ray coming straight down onto the floor point `(1, 0, 0)`. -/
def downRay : Ray ℚ := Ray.new ⟨1, 5, 0⟩ ⟨0, -1, 0⟩

/-- A primitive shrunk to the point `(k, 0, 0)`, such as a triangle whose three
vertices coincide: its box has no extent and its area is zero. -/
def speck (k : Nat) : Object ℚ where
  getBounds := ⟨⟨k, 0, 0⟩, ⟨k, 0, 0⟩⟩
  getArea := 0
  hasEmit := false
  getIntersection := fun _ => demoMiss
  Sample := fun pos _ g => ({ pos with coords := ⟨k, 0, 0⟩ }, 1, g)

/-- Twelve point primitives along the `x` axis; the box around them is a
segment, of surface area zero. -/
def twelveSpecks : List (Object ℚ) := (List.range 12).map speck

end Concrete

/-! ## How the two builders proceed -/

section BuildLemmas

variable {α : Type} [LinearOrderedField α]

theorem linkChildren_ok (l r : BVHBuildNode α) (hl : l.isNull = false) (hr : r.isNull = false) :
    ∃ bl br al ar, l.bounds = .ok bl ∧ r.bounds = .ok br ∧ l.area = .ok al ∧ r.area = .ok ar ∧
      linkChildren l r = .ok (.node (Bounds3.Union bl br) l r none (al + ar)) := by
  cases l with
  | nullptr => simp [BVHBuildNode.isNull] at hl
  | node bl ll lr lo la =>
    cases r with
    | nullptr => simp [BVHBuildNode.isNull] at hr
    | node br rl rr ro ra =>
      exact ⟨bl, br, la, ra, rfl, rfl, rfl, rfl, rfl⟩

theorem linkChildrenSAH_ok (R : Runtime α) (l r : BVHBuildNode α) (hl : l.isNull = false)
    (hr : r.isNull = false) :
    ∃ bl br, l.bounds = .ok bl ∧ r.bounds = .ok br ∧
      linkChildrenSAH R l r = .ok (.node (Bounds3.Union bl br) l r none R.areaInit) := by
  cases l with
  | nullptr => simp [BVHBuildNode.isNull] at hl
  | node bl ll lr lo la =>
    cases r with
    | nullptr => simp [BVHBuildNode.isNull] at hr
    | node br rl rr ro ra =>
      exact ⟨bl, br, rfl, rfl, rfl⟩

theorem sortSwitch_perm (R : Runtime α) (hperm : ∀ lt l, (R.sort lt l).Perm l) (dim : Nat)
    (objs : List (Object α)) : (sortSwitch R dim objs).Perm objs := by
  unfold sortSwitch
  split
  · exact hperm _ _
  · exact hperm _ _
  · exact hperm _ _
  · exact List.Perm.refl _

theorem recursiveBuild_many (R : Runtime α) (fuel : Nat) (objs : List (Object α))
    (h : 3 ≤ objs.length) :
    recursiveBuild R (fuel + 1) objs =
      match recursiveBuild R fuel
          ((sortSwitch R (centroidBounds R objs).maxExtent objs).take
            ((sortSwitch R (centroidBounds R objs).maxExtent objs).length / 2)),
        recursiveBuild R fuel
          ((sortSwitch R (centroidBounds R objs).maxExtent objs).drop
            ((sortSwitch R (centroidBounds R objs).maxExtent objs).length / 2)) with
      | .ok l, .ok r => linkChildren l r
      | .error e, _ => .error e
      | _, .error e => .error e := by
  match objs, h with
  | o0 :: o1 :: o2 :: rest, _ => rfl

theorem recursiveBuild_rec (R : Runtime α) (hperm : ∀ lt l, (R.sort lt l).Perm l)
    (Q : List (Object α) → BVHBuildNode α → Prop)
    (hleaf : ∀ o, Q [o] (leafNode o))
    (hnode : ∀ objs ls rs l r t, ls.length = objs.length / 2 →
      rs.length = objs.length - objs.length / 2 → 2 ≤ objs.length → (ls ++ rs).Perm objs →
      Q ls l → Q rs r → l.isNull = false → r.isNull = false → linkChildren l r = .ok t →
      Q objs t) :
    ∀ fuel objs, objs ≠ [] → objs.length ≤ fuel →
      ∃ t, recursiveBuild R fuel objs = .ok t ∧ t.isNull = false ∧ Q objs t := by
  intro fuel
  induction fuel with
  | zero =>
    intro objs hne hlen
    cases objs with
    | nil => exact absurd rfl hne
    | cons o rest => simp at hlen
  | succ fuel ih =>
    intro objs hne hlen
    match objs, hne, hlen with
    | [o], _, _ => exact ⟨leafNode o, by simp [recursiveBuild], rfl, hleaf o⟩
    | [o0, o1], _, hlen =>
      have hf : 1 ≤ fuel := by simpa using hlen
      obtain ⟨l, hl, hln, hlq⟩ := ih [o0] (by simp) (by simpa using hf)
      obtain ⟨r, hr, hrn, hrq⟩ := ih [o1] (by simp) (by simpa using hf)
      obtain ⟨bl, br, al, ar, _, _, _, _, hlink⟩ := linkChildren_ok l r hln hrn
      refine ⟨.node (Bounds3.Union bl br) l r none (al + ar), ?_, rfl,
        hnode [o0, o1] [o0] [o1] l r _ (by simp) (by simp) (by simp) (List.Perm.refl _)
        hlq hrq hln hrn hlink⟩
      simp only [recursiveBuild, hl, hr, hlink]
    | o0 :: o1 :: o2 :: rest, _, hlen =>
      have h3 : 3 ≤ (o0 :: o1 :: o2 :: rest).length := by simp
      generalize hobjs : o0 :: o1 :: o2 :: rest = objs at *
      have hsp := sortSwitch_perm R hperm (centroidBounds R objs).maxExtent objs
      rw [recursiveBuild_many R fuel objs h3]
      generalize sortSwitch R (centroidBounds R objs).maxExtent objs = sorted at *
      have hsl : sorted.length = objs.length := hsp.length_eq
      have hltake : (sorted.take (sorted.length / 2)).length = objs.length / 2 := by
        rw [List.length_take, hsl]; omega
      have hldrop : (sorted.drop (sorted.length / 2)).length = objs.length - objs.length / 2 := by
        rw [List.length_drop, hsl]
      obtain ⟨l, hl, hln, hlq⟩ := ih (sorted.take (sorted.length / 2))
        (by intro h; rw [h] at hltake; simp at hltake; omega) (by omega)
      obtain ⟨r, hr, hrn, hrq⟩ := ih (sorted.drop (sorted.length / 2))
        (by intro h; rw [h] at hldrop; simp at hldrop; omega) (by omega)
      obtain ⟨bl, br, al, ar, _, _, _, _, hlink⟩ := linkChildren_ok l r hln hrn
      refine ⟨.node (Bounds3.Union bl br) l r none (al + ar), ?_, rfl,
        hnode objs _ _ l r _ hltake hldrop (by omega)
        (by rw [List.take_append_drop]; exact hsp) hlq hrq hln hrn hlink⟩
      simp only [hl, hr, hlink]

theorem searchStep_objects (R : Runtime α) (b : Bounds3 α) (i j : Nat) (st : SplitSearch α) :
    (searchStep R b i st j).objects = st.objects := by
  simp only [searchStep]
  split <;> rfl

theorem searchStep_pick (R : Runtime α) (b : Bounds3 α) (i j : Nat) (st : SplitSearch α) :
    (searchStep R b i st j).pick = st.pick ∨ (searchStep R b i st j).pick = some (i, j) := by
  simp only [searchStep]
  split
  · exact Or.inr rfl
  · exact Or.inl rfl

theorem searchAxis_objects (R : Runtime α) (b : Bounds3 α) (i : Nat) (st : SplitSearch α) :
    (searchAxis R b st i).objects = R.sort (cmp i) st.objects := by
  simp only [searchAxis, List.foldl, searchStep_objects]

theorem searchAxis_pick (R : Runtime α) (b : Bounds3 α) (i : Nat) (st : SplitSearch α)
    (P : Nat × Nat → Prop) (hP : ∀ j, j < 5 → P (i, j)) (h : ∀ p, st.pick = some p → P p) :
    ∀ p, (searchAxis R b st i).pick = some p → P p := by
  have step : ∀ (s : SplitSearch α) (j : Nat), j < 5 → (∀ p, s.pick = some p → P p) →
      ∀ p, (searchStep R b i s j).pick = some p → P p := by
    intro s j hj hs p hp
    rcases searchStep_pick R b i j s with h1 | h1
    · exact hs p (h1 ▸ hp)
    · rw [h1] at hp
      cases hp
      exact hP j hj
  simp only [searchAxis, List.foldl]
  exact step _ 4 (by omega) (step _ 3 (by omega) (step _ 2 (by omega) (step _ 1 (by omega)
    (step _ 0 (by omega) h))))

theorem searchSplit_objects (R : Runtime α) (hperm : ∀ lt l, (R.sort lt l).Perm l)
    (b : Bounds3 α) (objs : List (Object α)) : (searchSplit R b objs).objects.Perm objs := by
  simp only [searchSplit, List.foldl, searchAxis_objects]
  exact (hperm _ _).trans ((hperm _ _).trans (hperm _ _))

theorem searchSplit_pick (R : Runtime α) (b : Bounds3 α) (objs : List (Object α))
    (p : Nat × Nat) (h : (searchSplit R b objs).pick = some p) : p.1 < 3 ∧ p.2 < 5 := by
  simp only [searchSplit, List.foldl] at h
  refine searchAxis_pick R b 2 _ (fun p => p.1 < 3 ∧ p.2 < 5) (fun j hj => ⟨by omega, hj⟩) ?_ p h
  refine searchAxis_pick R b 1 _ (fun p => p.1 < 3 ∧ p.2 < 5) (fun j hj => ⟨by omega, hj⟩) ?_
  refine searchAxis_pick R b 0 _ (fun p => p.1 < 3 ∧ p.2 < 5) (fun j hj => ⟨by omega, hj⟩) ?_
  intro p hp
  simp at hp

theorem splitIndex_bounds (j n : Nat) (hj : j < 5) (hn : 12 ≤ n) :
    2 ≤ splitIndex j n ∧ splitIndex j n + 2 ≤ n := by
  unfold splitIndex
  have h1 : (j + 1) * n ≤ 5 * n := Nat.mul_le_mul_right n (by omega)
  have h2 : 1 * n ≤ (j + 1) * n := Nat.mul_le_mul_right n (by omega)
  constructor
  · omega
  · omega


theorem recursiveBuildSAH_small (R : Runtime α) (fuel : Nat) (objs : List (Object α))
    (h : objs.length < 12) :
    recursiveBuildSAH R (fuel + 1) objs = recursiveBuild R (fuel + 1) objs := by
  simp only [recursiveBuildSAH, h, if_true]

theorem recursiveBuildSAH_large (R : Runtime α) (fuel : Nat) (objs : List (Object α))
    (h : 12 ≤ objs.length) :
    recursiveBuildSAH R (fuel + 1) objs =
      match (searchSplit R (boundsOf R objs) objs).pick with
      | none => .error .indeterminate
      | some (dim, div_ind) =>
        match recursiveBuildSAH R fuel
            ((R.sort (cmp dim) (searchSplit R (boundsOf R objs) objs).objects).take
              (splitIndex div_ind
                (R.sort (cmp dim) (searchSplit R (boundsOf R objs) objs).objects).length)),
          recursiveBuildSAH R fuel
            ((R.sort (cmp dim) (searchSplit R (boundsOf R objs) objs).objects).drop
              (splitIndex div_ind
                (R.sort (cmp dim) (searchSplit R (boundsOf R objs) objs).objects).length)) with
        | .ok l, .ok r => linkChildrenSAH R l r
        | .error e, _ => .error e
        | _, .error e => .error e := by
  have h' : ¬ objs.length < 12 := by omega
  simp only [recursiveBuildSAH, h', if_false]

theorem recursiveBuildSAH_rec (R : Runtime α) (hperm : ∀ lt l, (R.sort lt l).Perm l)
    (Q : List (Object α) → BVHBuildNode α → Prop)
    (hleaf : ∀ o, Q [o] (leafNode o))
    (hnode : ∀ objs ls rs l r t, ls.length = objs.length / 2 →
      rs.length = objs.length - objs.length / 2 → 2 ≤ objs.length → (ls ++ rs).Perm objs →
      Q ls l → Q rs r → l.isNull = false → r.isNull = false → linkChildren l r = .ok t →
      Q objs t)
    (hsah : ∀ objs ls rs l r t, 12 ≤ objs.length → 2 ≤ ls.length → 2 ≤ rs.length →
      (ls ++ rs).Perm objs → Q ls l → Q rs r → l.isNull = false → r.isNull = false →
      linkChildrenSAH R l r = .ok t → Q objs t) :
    ∀ fuel objs, objs ≠ [] → objs.length ≤ fuel →
      recursiveBuildSAH R fuel objs = .error .indeterminate ∨
      ∃ t, recursiveBuildSAH R fuel objs = .ok t ∧ t.isNull = false ∧ Q objs t := by
  intro fuel
  induction fuel with
  | zero =>
    intro objs hne hlen
    cases objs with
    | nil => exact absurd rfl hne
    | cons o rest => simp at hlen
  | succ fuel ih =>
    intro objs hne hlen
    by_cases hsmall : objs.length < 12
    · rw [recursiveBuildSAH_small R fuel objs hsmall]
      exact Or.inr (recursiveBuild_rec R hperm Q hleaf hnode (fuel + 1) objs hne hlen)
    · have hbig : 12 ≤ objs.length := by omega
      rw [recursiveBuildSAH_large R fuel objs hbig]
      have hso := searchSplit_objects R hperm (boundsOf R objs) objs
      have hsp := searchSplit_pick R (boundsOf R objs) objs
      generalize searchSplit R (boundsOf R objs) objs = st at *
      cases hpick : st.pick with
      | none => exact Or.inl rfl
      | some p =>
        obtain ⟨dim, div_ind⟩ := p
        dsimp only
        have hj : div_ind < 5 := (hsp _ hpick).2
        have hsorted : (R.sort (cmp dim) st.objects).Perm objs := (hperm _ _).trans hso
        generalize R.sort (cmp dim) st.objects = sorted at *
        have hsl : sorted.length = objs.length := hsorted.length_eq
        have hmid := splitIndex_bounds div_ind sorted.length hj (by omega)
        generalize splitIndex div_ind sorted.length = mid at *
        have hltake : (sorted.take mid).length = mid := by
          rw [List.length_take]; omega
        have hldrop : (sorted.drop mid).length = sorted.length - mid := by
          rw [List.length_drop]
        have hl := ih (sorted.take mid)
          (by intro h; rw [h] at hltake; simp at hltake; omega) (by omega)
        have hr := ih (sorted.drop mid)
          (by intro h; rw [h] at hldrop; simp at hldrop; omega) (by omega)
        rcases hl with hl | ⟨l, hl, hln, hlq⟩
        · left
          simp only [hl]
        · rcases hr with hr | ⟨r, hr, hrn, hrq⟩
          · left
            simp only [hl, hr]
          · right
            obtain ⟨bl, br, _, _, hlink⟩ := linkChildrenSAH_ok R l r hln hrn
            refine ⟨.node (Bounds3.Union bl br) l r none R.areaInit, ?_, rfl,
              hsah objs _ _ l r _ hbig (by omega) (by omega)
              (by rw [List.take_append_drop]; exact hsorted) hlq hrq hln hrn hlink⟩
            simp only [hl, hr, hlink]

theorem Bounds3.encloses_refl (b : Bounds3 α) : b.Encloses b :=
  ⟨⟨le_rfl, le_rfl, le_rfl⟩, ⟨le_rfl, le_rfl, le_rfl⟩⟩

theorem Bounds3.encloses_trans {a b c : Bounds3 α} (h1 : a.Encloses b) (h2 : b.Encloses c) :
    a.Encloses c := by
  obtain ⟨⟨a1, a2, a3⟩, ⟨a4, a5, a6⟩⟩ := h1
  obtain ⟨⟨b1, b2, b3⟩, ⟨b4, b5, b6⟩⟩ := h2
  exact ⟨⟨a1.trans b1, a2.trans b2, a3.trans b3⟩, ⟨b4.trans a4, b5.trans a5, b6.trans a6⟩⟩

theorem Bounds3.Union_encloses_left (a b : Bounds3 α) : (Bounds3.Union a b).Encloses a :=
  ⟨⟨min_le_left _ _, min_le_left _ _, min_le_left _ _⟩,
    ⟨le_max_left _ _, le_max_left _ _, le_max_left _ _⟩⟩

theorem Bounds3.Union_encloses_right (a b : Bounds3 α) : (Bounds3.Union a b).Encloses b :=
  ⟨⟨min_le_right _ _, min_le_right _ _, min_le_right _ _⟩,
    ⟨le_max_right _ _, le_max_right _ _, le_max_right _ _⟩⟩

theorem contained_root (t : BVHBuildNode α) (b : Bounds3 α) (hc : t.contained = true)
    (hb : t.bounds = .ok b) : ∀ p ∈ t.heldObjects, b.Encloses p.getBounds := by
  cases t with
  | nullptr => simp [BVHBuildNode.bounds] at hb
  | node b' l r o a =>
    simp only [BVHBuildNode.bounds, Except.ok.injEq] at hb
    subst hb
    simp only [BVHBuildNode.contained, Bool.and_eq_true, List.all_eq_true,
      decide_eq_true_eq] at hc
    exact hc.1.1

theorem wellBuilt_leaf (o : Object α) : WellBuilt [o] (leafNode o) := by
  refine ⟨?_, ?_, ?_⟩
  · simp [leafNode, BVHBuildNode.proper, BVHBuildNode.isNull]
  · simp [leafNode, BVHBuildNode.contained, BVHBuildNode.heldObjects, BVHBuildNode.isNull,
      Bounds3.encloses_refl]
  · simp [leafNode, BVHBuildNode.heldObjects, BVHBuildNode.isNull]

theorem wellBuilt_node (objs ls rs : List (Object α)) (l r : BVHBuildNode α)
    (bl br : Bounds3 α) (a : α) (hp : (ls ++ rs).Perm objs) (hl : WellBuilt ls l)
    (hr : WellBuilt rs r) (hln : l.isNull = false) (hrn : r.isNull = false)
    (hbl : l.bounds = .ok bl) (hbr : r.bounds = .ok br) :
    WellBuilt objs (.node (Bounds3.Union bl br) l r none a) := by
  obtain ⟨hl1, hl2, hl3⟩ := hl
  obtain ⟨hr1, hr2, hr3⟩ := hr
  have hheld : (BVHBuildNode.node (Bounds3.Union bl br) l r none a).heldObjects
      = l.heldObjects ++ r.heldObjects := by
    simp [BVHBuildNode.heldObjects, hln]
  refine ⟨?_, ?_, ?_⟩
  · simp [BVHBuildNode.proper, hln, hrn, hl1, hr1]
  · have hall : ∀ p ∈ l.heldObjects ++ r.heldObjects,
        (Bounds3.Union bl br).Encloses p.getBounds := by
      intro p hp
      rcases List.mem_append.mp hp with h | h
      · exact Bounds3.encloses_trans (Bounds3.Union_encloses_left bl br)
          (contained_root l bl hl2 hbl p h)
      · exact Bounds3.encloses_trans (Bounds3.Union_encloses_right bl br)
          (contained_root r br hr2 hbr p h)
    rw [BVHBuildNode.contained, hheld]
    simp only [Bool.and_eq_true, List.all_eq_true, decide_eq_true_eq]
    exact ⟨⟨hall, hl2⟩, hr2⟩
  · rw [hheld]
    exact (List.Perm.append hl3 hr3).trans hp

theorem wellBuilt_link (objs ls rs : List (Object α)) (l r t : BVHBuildNode α)
    (hp : (ls ++ rs).Perm objs) (hl : WellBuilt ls l) (hr : WellBuilt rs r)
    (hln : l.isNull = false) (hrn : r.isNull = false) (ht : linkChildren l r = .ok t) :
    WellBuilt objs t := by
  obtain ⟨bl, br, al, ar, hbl, hbr, _, _, hlink⟩ := linkChildren_ok l r hln hrn
  rw [hlink] at ht
  cases ht
  exact wellBuilt_node objs ls rs l r bl br _ hp hl hr hln hrn hbl hbr

theorem wellBuilt_linkSAH (R : Runtime α) (objs ls rs : List (Object α))
    (l r t : BVHBuildNode α)
    (hp : (ls ++ rs).Perm objs) (hl : WellBuilt ls l) (hr : WellBuilt rs r)
    (hln : l.isNull = false) (hrn : r.isNull = false) (ht : linkChildrenSAH R l r = .ok t) :
    WellBuilt objs t := by
  obtain ⟨bl, br, hbl, hbr, hlink⟩ := linkChildrenSAH_ok R l r hln hrn
  rw [hlink] at ht
  cases ht
  exact wellBuilt_node objs ls rs l r bl br _ hp hl hr hln hrn hbl hbr

theorem areaSummed_leaf (o : Object α) : AreaSummed [o] (leafNode o) := by
  constructor
  · simp [leafNode, BVHBuildNode.areaAdditive, BVHBuildNode.isNull]
  · simp [leafNode, BVHBuildNode.area, totalArea]

theorem totalArea_perm {l1 l2 : List (Object α)} (h : l1.Perm l2) :
    totalArea l1 = totalArea l2 := by
  unfold totalArea
  exact (h.map _).sum_eq

theorem areaSummed_link (objs ls rs : List (Object α)) (l r t : BVHBuildNode α)
    (hp : (ls ++ rs).Perm objs) (hl : AreaSummed ls l) (hr : AreaSummed rs r)
    (hln : l.isNull = false) (hrn : r.isNull = false) (ht : linkChildren l r = .ok t) :
    AreaSummed objs t := by
  obtain ⟨bl, br, al, ar, hbl, hbr, hal, har, hlink⟩ := linkChildren_ok l r hln hrn
  rw [hlink] at ht
  cases ht
  obtain ⟨hl1, hl2⟩ := hl
  obtain ⟨hr1, hr2⟩ := hr
  rw [hal] at hl2
  rw [har] at hr2
  cases hl2
  cases hr2
  constructor
  · simp [BVHBuildNode.areaAdditive, hln, hal, har, hl1, hr1]
  · rw [← totalArea_perm hp]
    simp [BVHBuildNode.area, totalArea]

theorem recursiveBuild_wellBuilt (R : Runtime α) (hperm : ∀ lt l, (R.sort lt l).Perm l)
    (fuel : Nat) (objs : List (Object α)) (hne : objs ≠ []) (hlen : objs.length ≤ fuel) :
    ∃ t, recursiveBuild R fuel objs = .ok t ∧ t.isNull = false ∧
      (WellBuilt objs t ∧ AreaSummed objs t) :=
  recursiveBuild_rec R hperm (fun o t => WellBuilt o t ∧ AreaSummed o t)
    (fun o => ⟨wellBuilt_leaf o, areaSummed_leaf o⟩)
    (fun objs ls rs l r t _ _ _ hp hl hr hln hrn ht =>
      ⟨wellBuilt_link objs ls rs l r t hp hl.1 hr.1 hln hrn ht,
        areaSummed_link objs ls rs l r t hp hl.2 hr.2 hln hrn ht⟩)
    fuel objs hne hlen

theorem recursiveBuildSAH_wellBuilt (R : Runtime α) (hperm : ∀ lt l, (R.sort lt l).Perm l)
    (fuel : Nat) (objs : List (Object α)) (hne : objs ≠ []) (hlen : objs.length ≤ fuel) :
    recursiveBuildSAH R fuel objs = .error .indeterminate ∨
      ∃ t, recursiveBuildSAH R fuel objs = .ok t ∧ t.isNull = false ∧ WellBuilt objs t :=
  recursiveBuildSAH_rec R hperm (fun o t => WellBuilt o t)
    (fun o => wellBuilt_leaf o)
    (fun objs ls rs l r t _ _ _ hp hl hr hln hrn ht =>
      wellBuilt_link objs ls rs l r t hp hl hr hln hrn ht)
    (fun objs ls rs l r t _ _ _ hp hl hr hln hrn ht =>
      wellBuilt_linkSAH R objs ls rs l r t hp hl hr hln hrn ht)
    fuel objs hne hlen

theorem recursiveBuildSAH_area (R : Runtime α) (fuel : Nat) (objs : List (Object α))
    (t : BVHBuildNode α) (h12 : 12 ≤ objs.length) (h : recursiveBuildSAH R fuel objs = .ok t) :
    t.area = .ok R.areaInit := by
  cases fuel with
  | zero => simp [recursiveBuildSAH] at h
  | succ fuel =>
    rw [recursiveBuildSAH_large R fuel objs h12] at h
    split at h
    · cases h
    · split at h
      · rename_i l r _ _
        unfold linkChildrenSAH at h
        split at h
        · cases h
          rfl
        · cases h
      · cases h
      · cases h

theorem BVHAccel.new_nil (R : Runtime α) (maxPrims : Int) (method : SplitMethod) :
    BVHAccel.new R [] maxPrims method = .ok ⟨.nullptr, min 255 maxPrims, method, []⟩ := rfl

theorem BVHAccel.new_naive (R : Runtime α) (hperm : ∀ lt l, (R.sort lt l).Perm l)
    (objs : List (Object α)) (hne : objs ≠ []) (maxPrims : Int) :
    ∃ t, BVHAccel.new R objs maxPrims .NAIVE = .ok ⟨t, min 255 maxPrims, .NAIVE, objs⟩ ∧
      t.isNull = false ∧ WellBuilt objs t ∧ AreaSummed objs t := by
  obtain ⟨t, ht, hn, hw, ha⟩ := recursiveBuild_wellBuilt R hperm objs.length objs hne le_rfl
  refine ⟨t, ?_, hn, hw, ha⟩
  have he : objs.isEmpty = false := by
    cases objs with
    | nil => exact absurd rfl hne
    | cons o rest => rfl
  simp only [BVHAccel.new, he, ht]
  rfl

theorem BVHAccel.new_sah (R : Runtime α) (hperm : ∀ lt l, (R.sort lt l).Perm l)
    (objs : List (Object α)) (hne : objs ≠ []) (maxPrims : Int) :
    BVHAccel.new R objs maxPrims .SAH = .error .indeterminate ∨
    ∃ t, BVHAccel.new R objs maxPrims .SAH = .ok ⟨t, min 255 maxPrims, .SAH, objs⟩ ∧
      t.isNull = false ∧ WellBuilt objs t := by
  have he : objs.isEmpty = false := by
    cases objs with
    | nil => exact absurd rfl hne
    | cons o rest => rfl
  rcases recursiveBuildSAH_wellBuilt R hperm objs.length objs hne le_rfl with h | ⟨t, ht, hn, hw⟩
  · left
    simp only [BVHAccel.new, he, h]
    rfl
  · right
    refine ⟨t, ?_, hn, hw⟩
    simp only [BVHAccel.new, he, ht]
    rfl

theorem insertBy_perm {β : Type} (lt : β → β → Bool) (a : β) (l : List β) :
    (insertBy lt a l).Perm (a :: l) := by
  induction l with
  | nil => exact List.Perm.refl _
  | cons b l ih =>
    unfold insertBy
    split
    · exact List.Perm.refl _
    · exact (List.Perm.cons b ih).trans (List.Perm.swap a b l)

theorem insertionSort_perm {β : Type} (lt : β → β → Bool) (l : List β) :
    (insertionSort lt l).Perm l := by
  induction l with
  | nil => exact List.Perm.refl _
  | cons a l ih =>
    unfold insertionSort at ih ⊢
    rw [List.foldr_cons]
    exact (insertBy_perm lt a _).trans (List.Perm.cons a ih)

theorem demoRuntime_sort_perm :
    ∀ (lt : Object ℚ → Object ℚ → Bool) (l : List (Object ℚ)), (demoRuntime.sort lt l).Perm l :=
  fun lt l => insertionSort_perm lt l

end BuildLemmas

/-! ## The linear light scan -/

section LightLemmas

variable {α : Type} [LinearOrderedField α]

theorem emitAreaSum_append_singleton (pre : List (Object α)) (o : Object α) :
    emitAreaSum (pre ++ [o])
      = if o.hasEmit then emitAreaSum pre + o.getArea else emitAreaSum pre := by
  simp [emitAreaSum, List.foldl_append]

theorem sampleLightLoop_spec (rest : List (Object α)) :
    ∀ (pre : List (Object α)) (p : α) (pos : Intersection α) (pdf : α) (s : State α),
      (∃ k o, rest[k]? = some o ∧ o.hasEmit = true ∧
        p ≤ emitAreaSum (pre ++ rest.take (k + 1))) →
      ∃ k o, rest[k]? = some o ∧ o.hasEmit = true ∧
        p ≤ emitAreaSum (pre ++ rest.take (k + 1)) ∧
        (∀ j o', j < k → rest[j]? = some o' → o'.hasEmit = true →
          emitAreaSum (pre ++ rest.take (j + 1)) < p) ∧
        sampleLightLoop rest p (emitAreaSum pre) pos pdf s =
          ((o.Sample pos pdf s.rng).1, (o.Sample pos pdf s.rng).2.1,
            { rng := (o.Sample pos pdf s.rng).2.2, trace := s.trace ++ [.objectSample o] }) := by
  induction rest with
  | nil =>
    intro pre p pos pdf s ⟨k, o, hk, _, _⟩
    simp at hk
  | cons o rest ih =>
    intro pre p pos pdf s hex
    have hsnoc := emitAreaSum_append_singleton pre o
    by_cases he : o.hasEmit = true
    · rw [if_pos he] at hsnoc
      by_cases hp : p ≤ emitAreaSum pre + o.getArea
      · refine ⟨0, o, by simp, he, ?_, ?_, ?_⟩
        · simpa [hsnoc] using hp
        · intro j o' hj
          omega
        · simp [sampleLightLoop, he, hp]
      · have hex' : ∃ k o', rest[k]? = some o' ∧ o'.hasEmit = true ∧
            p ≤ emitAreaSum ((pre ++ [o]) ++ rest.take (k + 1)) := by
          obtain ⟨k, o', hk, ho', hle⟩ := hex
          cases k with
          | zero =>
            simp only [List.getElem?_cons_zero, Option.some.injEq] at hk
            subst hk
            simp only [zero_add, List.take_succ_cons, List.take_zero] at hle
            rw [hsnoc] at hle
            exact absurd hle hp
          | succ k =>
            refine ⟨k, o', by simpa using hk, ho', ?_⟩
            simpa [List.take_succ_cons] using hle
        obtain ⟨k, o', hk, ho', hle, hmin, hres⟩ := ih (pre ++ [o]) p pos pdf s hex'
        refine ⟨k + 1, o', by simpa using hk, ho', ?_, ?_, ?_⟩
        · simpa [List.take_succ_cons] using hle
        · intro j o'' hj hj' ho''
          cases j with
          | zero =>
            simp only [zero_add, List.take_succ_cons, List.take_zero]
            rw [hsnoc]
            exact lt_of_not_le hp
          | succ j =>
            have := hmin j o'' (by omega) (by simpa using hj') ho''
            simpa [List.take_succ_cons] using this
        · rw [hsnoc] at hres
          simp only [sampleLightLoop, he, if_true, hp, if_false]
          exact hres
    · have he' : o.hasEmit = false := by simpa using he
      rw [if_neg he] at hsnoc
      have hex' : ∃ k o', rest[k]? = some o' ∧ o'.hasEmit = true ∧
          p ≤ emitAreaSum ((pre ++ [o]) ++ rest.take (k + 1)) := by
        obtain ⟨k, o', hk, ho', hle⟩ := hex
        cases k with
        | zero =>
          simp only [List.getElem?_cons_zero, Option.some.injEq] at hk
          subst hk
          exact absurd ho' he
        | succ k =>
          refine ⟨k, o', by simpa using hk, ho', ?_⟩
          simpa [List.take_succ_cons] using hle
      obtain ⟨k, o', hk, ho', hle, hmin, hres⟩ := ih (pre ++ [o]) p pos pdf s hex'
      refine ⟨k + 1, o', by simpa using hk, ho', ?_, ?_, ?_⟩
      · simpa [List.take_succ_cons] using hle
      · intro j o'' hj hj' ho''
        cases j with
        | zero =>
          simp only [List.getElem?_cons_zero, Option.some.injEq] at hj'
          subst hj'
          exact absurd ho'' he
        | succ j =>
          have := hmin j o'' (by omega) (by simpa using hj') ho''
          simpa [List.take_succ_cons] using this
      · rw [hsnoc] at hres
        simp only [sampleLightLoop, he', Bool.false_eq_true, if_false]
        exact hres

theorem emitAreaSum_last (objs : List (Object α)) (h : emitAreaSum objs ≠ 0) :
    ∃ k o, objs[k]? = some o ∧ o.hasEmit = true ∧
      emitAreaSum (objs.take (k + 1)) = emitAreaSum objs := by
  induction objs using List.reverseRecOn with
  | nil => exact absurd rfl h
  | append_singleton init o ih =>
    by_cases he : o.hasEmit = true
    · refine ⟨init.length, o, by simp, he, ?_⟩
      rw [List.take_of_length_le (by simp)]
    · rw [emitAreaSum_append_singleton, if_neg he] at h ⊢
      obtain ⟨k, o', hk, ho', hsum⟩ := ih h
      have hlt : k < init.length := by
        by_contra hcon
        rw [List.getElem?_eq_none (by omega)] at hk
        cases hk
      refine ⟨k, o', ?_, ho', ?_⟩
      · rw [List.getElem?_append_left hlt]
        exact hk
      · rw [List.take_append_of_le_length (by omega)]
        exact hsum

theorem emitAreaSum_last_emitter (objs : List (Object α))
    (h : ∃ o, o ∈ objs ∧ o.hasEmit = true) :
    ∃ k o, objs[k]? = some o ∧ o.hasEmit = true ∧
      emitAreaSum (objs.take (k + 1)) = emitAreaSum objs := by
  induction objs using List.reverseRecOn with
  | nil =>
    obtain ⟨o, ho, _⟩ := h
    simp at ho
  | append_singleton init o ih =>
    by_cases he : o.hasEmit = true
    · refine ⟨init.length, o, by simp, he, ?_⟩
      rw [List.take_of_length_le (by simp)]
    · have h2 : ∃ o', o' ∈ init ∧ o'.hasEmit = true := by
        obtain ⟨o', ho', he'⟩ := h
        rcases List.mem_append.mp ho' with hm | hm
        · exact ⟨o', hm, he'⟩
        · rw [List.mem_singleton] at hm
          subst hm
          exact absurd he' he
      rw [emitAreaSum_append_singleton, if_neg he]
      obtain ⟨k, o', hk, ho', hsum⟩ := ih h2
      have hlt : k < init.length := by
        by_contra hcon
        rw [List.getElem?_eq_none (by omega)] at hk
        cases hk
      refine ⟨k, o', ?_, ho', ?_⟩
      · rw [List.getElem?_append_left hlt]
        exact hk
      · rw [List.take_append_of_le_length (by omega)]
        exact hsum

theorem sampleLightLoop_one (objs : List (Object α)) (p : α) (pos : Intersection α) (pdf : α)
    (s : State α) (hex : ∃ o, o ∈ objs ∧ o.hasEmit = true) (hp : p ≤ emitAreaSum objs) :
    ∃ o, o ∈ objs ∧ o.hasEmit = true ∧
      sampleLightLoop objs p 0 pos pdf s =
        ((o.Sample pos pdf s.rng).1, (o.Sample pos pdf s.rng).2.1,
          { rng := (o.Sample pos pdf s.rng).2.2, trace := s.trace ++ [.objectSample o] }) := by
  obtain ⟨k, o, hk, ho, hsum⟩ := emitAreaSum_last_emitter objs hex
  have h := sampleLightLoop_spec objs [] p pos pdf s
    ⟨k, o, hk, ho, by rw [List.nil_append, hsum]; exact hp⟩
  obtain ⟨k', o', hk', ho', _, _, hres⟩ := h
  refine ⟨o', List.getElem?_mem hk', ho', ?_⟩
  have h0 : emitAreaSum ([] : List (Object α)) = 0 := rfl
  rw [h0] at hres
  exact hres

theorem sampleLightLoop_none (objs : List (Object α)) (hno : ∀ o, o ∈ objs → o.hasEmit = false) :
    ∀ (p sum : α) (pos : Intersection α) (pdf : α) (s : State α),
      sampleLightLoop objs p sum pos pdf s = (pos, pdf, s) := by
  induction objs with
  | nil => intro p sum pos pdf s; rfl
  | cons o rest ih =>
    intro p sum pos pdf s
    have ho : o.hasEmit = false := hno o (by simp)
    simp only [sampleLightLoop, ho, Bool.false_eq_true, if_false]
    exact ih (fun o' ho' => hno o' (by simp [ho'])) p sum pos pdf s

end LightLemmas

/-! ## The record of divisions in `castRay` -/

section TraceLemmas

variable {α : Type} [LinearOrderedField α]

theorem bounceDivisors_append {β : Type} (l1 l2 : List (Event β)) :
    bounceDivisors (l1 ++ l2) = bounceDivisors l1 ++ bounceDivisors l2 := by
  induction l1 with
  | nil => rfl
  | cons e l ih =>
    cases e <;> simp [bounceDivisors, ih]

theorem sampleLightLoop_trace (objs : List (Object α)) :
    ∀ (p sum : α) (pos : Intersection α) (pdf : α) (s : State α),
      (sampleLightLoop objs p sum pos pdf s).2.2.trace = s.trace ∨
      ∃ o, o ∈ objs ∧ o.hasEmit = true ∧
        (sampleLightLoop objs p sum pos pdf s).2.2.trace = s.trace ++ [.objectSample o] := by
  induction objs with
  | nil => intro p sum pos pdf s; exact Or.inl rfl
  | cons o rest ih =>
    intro p sum pos pdf s
    simp only [sampleLightLoop]
    split
    · rename_i he
      split
      · exact Or.inr ⟨o, by simp, he, rfl⟩
      · rcases ih p (sum + o.getArea) pos pdf s with h | ⟨o', ho', he', h⟩
        · exact Or.inl h
        · exact Or.inr ⟨o', by simp [ho'], he', h⟩
    · rcases ih p sum pos pdf s with h | ⟨o', ho', he', h⟩
      · exact Or.inl h
      · exact Or.inr ⟨o', by simp [ho'], he', h⟩

theorem sampleLight_trace (scene : Scene α) (pos : Intersection α) (pdf : α) (s : State α) :
    (scene.sampleLight pos pdf s).2.2.trace = s.trace ∨
    ∃ o, o ∈ scene.objects ∧ o.hasEmit = true ∧
      (scene.sampleLight pos pdf s).2.2.trace = s.trace ++ [.objectSample o] := by
  simp only [Scene.sampleLight]
  exact sampleLightLoop_trace scene.objects _ 0 pos pdf _

theorem sampleLight_bounceDivisors (scene : Scene α) (pos : Intersection α) (pdf : α)
    (s : State α) :
    bounceDivisors (scene.sampleLight pos pdf s).2.2.trace = bounceDivisors s.trace := by
  rcases sampleLight_trace scene pos pdf s with h | ⟨o, _, _, h⟩
  · rw [h]
  · rw [h, bounceDivisors_append]
    simp [bounceDivisors]


theorem guarded_of_eq (R : Runtime α) {s t : State α}
    (h : bounceDivisors t.trace = bounceDivisors s.trace) : Guarded R s t :=
  ⟨[], by simp [h], by simp⟩

theorem guarded_trans (R : Runtime α) {s t u : State α} (h1 : Guarded R s t)
    (h2 : Guarded R t u) : Guarded R s u := by
  obtain ⟨e1, h1, g1⟩ := h1
  obtain ⟨e2, h2, g2⟩ := h2
  refine ⟨e1 ++ e2, by rw [h2, h1, List.append_assoc], ?_⟩
  intro v hv
  rcases List.mem_append.mp hv with h | h
  · exact g1 v h
  · exact g2 v h

theorem directLight_bounceDivisors (R : Runtime α) (scene : Scene α) (ray : Ray α)
    (inter : Intersection α) (m : Material α) (s : State α) :
    bounceDivisors (directLight R scene ray inter m s).state.trace = bounceDivisors s.trace := by
  have h := sampleLight_bounceDivisors scene (Intersection.default R.maxDouble) R.pdfInit
    (s.log .sampleLight)
  have h0 : bounceDivisors (s.log Event.sampleLight).trace = bounceDivisors s.trace := by
    simp [State.log, bounceDivisors_append, bounceDivisors]
  rw [h0] at h
  unfold directLight
  dsimp only
  split
  · exact h
  · split
    · simp only [Res.state, State.log, bounceDivisors_append, bounceDivisors,
        List.append_nil]
      exact h
    · exact h

theorem castRay_guarded (R : Runtime α) (scene : Scene α) :
    ∀ (fuel : Nat) (ray : Ray α) (depth : Int) (s : State α),
      Guarded R s (castRay R scene fuel ray depth s).state := by
  intro fuel
  induction fuel with
  | zero =>
    intro ray depth s
    exact guarded_of_eq R rfl
  | succ fuel ih =>
    intro ray depth s
    unfold castRay
    cases hi : scene.intersect R ray with
    | error f => exact guarded_of_eq R rfl
    | ok inter =>
      dsimp only
      by_cases hh : inter.happened = true
      · rw [if_neg (by simp [hh])]
        cases hm : inter.m with
        | none => exact guarded_of_eq R rfl
        | some m =>
          dsimp only
          have hs2 : bounceDivisors
              (if m.hasEmission = true then
                (s.log (.material .hasEmission)).log (.material .getEmission)
              else s.log (.material .hasEmission)).trace = bounceDivisors s.trace := by
            split <;> simp [State.log, bounceDivisors_append, bounceDivisors]
          generalize (if m.hasEmission = true then
              (s.log (Event.material MaterialRoutine.hasEmission)).log
                (Event.material MaterialRoutine.getEmission)
            else s.log (Event.material MaterialRoutine.hasEmission)) = s2 at hs2 ⊢
          have hd := directLight_bounceDivisors R scene ray inter m s2
          rw [hs2] at hd
          cases hdl : directLight R scene ray inter m s2 with
          | fault f s3 =>
            rw [hdl] at hd
            exact guarded_of_eq R hd
          | ok l_dir s3 =>
            rw [hdl] at hd
            simp only [Res.state] at hd
            dsimp only
            generalize m.sample ray.direction inter.normal (get_random_float s3.rng).2 = ws
            have hlog : ∀ (t : State α) (e : MaterialRoutine),
                bounceDivisors (t.log (.material e)).trace = bounceDivisors t.trace := by
              intro t e
              simp [State.log, bounceDivisors_append, bounceDivisors]
            have hs5 : bounceDivisors
                ({ rng := ws.2, trace := s3.trace ++ [Event.material MaterialRoutine.sample] }
                  : State α).trace = bounceDivisors s.trace := by
              simp [bounceDivisors_append, bounceDivisors, hd]
            generalize (State.mk ws.2 (s3.trace ++ [Event.material MaterialRoutine.sample])) = s5
              at hs5 ⊢
            split
            · exact guarded_of_eq R hd
            · split
              · exact guarded_of_eq R hs5
              · split
                · split
                  · exact guarded_of_eq R hs5
                  · split
                    · split
                      · rename_i hpdf
                        have hs7 : bounceDivisors
                            (((s5.log (.material .hasEmission)).log (.material .pdf)).log
                              (.recurse (depth + 1))).trace = bounceDivisors s.trace := by
                          simp [State.log, bounceDivisors_append, bounceDivisors, hs5]
                        generalize (((s5.log (Event.material MaterialRoutine.hasEmission)).log
                            (Event.material MaterialRoutine.pdf)).log
                              (Event.recurse (depth + 1))) = s7 at hs7 ⊢
                        have hrec := ih (Ray.new inter.coords ws.1) (depth + 1) s7
                        cases hc : castRay R scene fuel (Ray.new inter.coords ws.1) (depth + 1) s7
                          with
                        | fault f s8 =>
                          rw [hc] at hrec
                          exact guarded_trans R (guarded_of_eq R hs7) hrec
                        | ok radiance s8 =>
                          rw [hc] at hrec
                          refine guarded_trans R (guarded_trans R (guarded_of_eq R hs7) hrec) ?_
                          refine ⟨[m.pdf ray.direction ws.1 inter.normal], ?_, ?_⟩
                          · simp [Res.state, State.log, bounceDivisors_append, bounceDivisors]
                          · intro v hv
                            simp only [List.mem_singleton] at hv
                            rw [hv]
                            exact hpdf
                      · exact guarded_of_eq R (by rw [Res.state, hlog, hlog, hs5])
                    · exact guarded_of_eq R (by rw [Res.state, hlog, hs5])
                · exact guarded_of_eq R hs5
      · rw [if_pos (by simpa using hh)]
        exact guarded_of_eq R rfl

theorem recursions_append {β : Type} (l1 l2 : List (Event β)) :
    recursions (l1 ++ l2) = recursions l1 + recursions l2 := by
  induction l1 with
  | nil => simp [recursions]
  | cons e l ih =>
    cases e <;> simp [recursions, ih]
    omega

theorem materialCalls_append {β : Type} (r : MaterialRoutine) (l1 l2 : List (Event β)) :
    materialCalls r (l1 ++ l2) = materialCalls r l1 + materialCalls r l2 := by
  induction l1 with
  | nil => simp [materialCalls]
  | cons e l ih =>
    cases e <;> simp [materialCalls, ih]
    omega

theorem sampleLight_counts (scene : Scene α) (pos : Intersection α) (pdf : α) (s : State α)
    (r : MaterialRoutine) :
    recursions (scene.sampleLight pos pdf s).2.2.trace = recursions s.trace ∧
    materialCalls r (scene.sampleLight pos pdf s).2.2.trace = materialCalls r s.trace := by
  rcases sampleLight_trace scene pos pdf s with h | ⟨o, _, _, h⟩
  · rw [h]
    exact ⟨rfl, rfl⟩
  · rw [h, recursions_append, materialCalls_append]
    simp [recursions, materialCalls]

theorem directLight_counts (R : Runtime α) (scene : Scene α) (ray : Ray α)
    (inter : Intersection α) (m : Material α) (s : State α) :
    recursions (directLight R scene ray inter m s).state.trace = recursions s.trace ∧
    materialCalls .sample (directLight R scene ray inter m s).state.trace
      = materialCalls .sample s.trace := by
  have h := sampleLight_counts scene (Intersection.default R.maxDouble) R.pdfInit
    (s.log .sampleLight) .sample
  have h0 : recursions (s.log Event.sampleLight).trace = recursions s.trace ∧
      materialCalls .sample (s.log Event.sampleLight).trace = materialCalls .sample s.trace := by
    simp [State.log, recursions_append, materialCalls_append, recursions, materialCalls]
  rw [h0.1, h0.2] at h
  unfold directLight
  dsimp only
  split
  · exact h
  · split
    · simp only [Res.state, State.log, recursions_append, materialCalls_append, recursions,
        materialCalls]
      simpa using h
    · exact h

theorem afterEmit_counts {β : Type} (m : Material β) (s : State β) :
    recursions (afterEmit m s).trace = recursions s.trace ∧
    materialCalls .sample (afterEmit m s).trace = materialCalls .sample s.trace := by
  unfold afterEmit
  split <;>
    simp [State.log, recursions_append, materialCalls_append, recursions, materialCalls]

end TraceLemmas

/-! ## Scenes with a single primitive -/

section SingleLemmas

variable {α : Type} [LinearOrderedField α]

theorem Vector3f.add_zero_right (v : Vector3f α) : Vector3f.add v Vector3f.zero = v := by
  cases v
  simp [Vector3f.add, Vector3f.zero]

theorem buildBVH_single (R : Runtime α) (o : Object α) (bg : Vector3f α)
    (bvh0 : Option (BVHAccel α)) :
    Scene.buildBVH R ⟨[o], bvh0, bg⟩ = .ok ⟨[o], some ⟨leafNode o, 1, .NAIVE, [o]⟩, bg⟩ := by
  simp [Scene.buildBVH, BVHAccel.new, recursiveBuild]

theorem buildSAH_single (R : Runtime α) (o : Object α) (bg : Vector3f α)
    (bvh0 : Option (BVHAccel α)) :
    Scene.buildSAH R ⟨[o], bvh0, bg⟩ = .ok ⟨[o], some ⟨leafNode o, 1, .SAH, [o]⟩, bg⟩ := by
  simp [Scene.buildSAH, BVHAccel.new, recursiveBuildSAH, recursiveBuild]

theorem intersect_single (R : Runtime α) (scene : Scene α) (o : Object α) (mp : Int)
    (sm : SplitMethod) (prims : List (Object α))
    (hb : scene.bvh = some ⟨leafNode o, mp, sm, prims⟩) (r : Ray α) :
    scene.intersect R r = .ok (Intersection.default R.maxDouble) ∨
    scene.intersect R r = .ok (o.getIntersection r) := by
  simp only [Scene.intersect, hb, BVHAccel.Intersect, leafNode, BVHBuildNode.isNull,
    getIntersection]
  simp only [Bool.false_eq_true, if_false, Bool.and_self, if_true]
  split
  · exact Or.inl rfl
  · exact Or.inr rfl

theorem Vector3f.zero_add_left (v : Vector3f α) : Vector3f.add Vector3f.zero v = v := by
  cases v
  simp [Vector3f.add, Vector3f.zero]

theorem directLight_single (R : Runtime α) (scene : Scene α) (o : Object α) (mp : Int)
    (sm : SplitMethod) (prims : List (Object α))
    (hb : scene.bvh = some ⟨leafNode o, mp, sm, prims⟩) (ray : Ray α) (inter : Intersection α)
    (m : Material α) (s : State α) :
    ∃ l_dir s3, directLight R scene ray inter m s = .ok l_dir s3 := by
  unfold directLight
  dsimp only
  rcases intersect_single R scene o mp sm prims hb
    (Ray.new inter.coords (Vector3f.normalized R.sqrt
      (Vector3f.sub (scene.sampleLight (Intersection.default R.maxDouble) R.pdfInit
        (s.log .sampleLight)).1.coords inter.coords))) with h | h
  · rw [h]
    dsimp only
    split
    · exact ⟨_, _, rfl⟩
    · exact ⟨_, _, rfl⟩
  · rw [h]
    dsimp only
    split
    · exact ⟨_, _, rfl⟩
    · exact ⟨_, _, rfl⟩

theorem castRay_on_lone_emitter (R : Runtime α) (scene : Scene α) (o : Object α) (mp : Int)
    (sm : SplitMethod) (prims : List (Object α))
    (hb : scene.bvh = some ⟨leafNode o, mp, sm, prims⟩)
    (hemit : ∀ r, (o.getIntersection r).happened = true →
      ∃ m, (o.getIntersection r).m = some m ∧ m.hasEmission = true)
    (ray : Ray α) (inter : Intersection α) (m : Material α)
    (hinter : scene.intersect R ray = .ok inter) (hhit : inter.happened = true)
    (hm : inter.m = some m) (fuel : Nat) (depth : Int) (s : State α) :
    ∃ l_dir s3 s', directLight R scene ray inter m
        ((s.log (.material .hasEmission)).log (.material .getEmission)) = .ok l_dir s3 ∧
      castRay R scene (fuel + 1) ray depth s = .ok (Vector3f.add l_dir m.getEmission) s' := by
  have hme : m.hasEmission = true := by
    rcases intersect_single R scene o mp sm prims hb ray with h | h
    · rw [h] at hinter
      cases hinter
      simp [Intersection.default] at hhit
    · rw [h] at hinter
      cases hinter
      obtain ⟨m', hm', he⟩ := hemit ray hhit
      rw [hm] at hm'
      cases hm'
      exact he
  obtain ⟨l_dir, s3, hd⟩ := directLight_single R scene o mp sm prims hb ray inter m
    ((s.log (.material .hasEmission)).log (.material .getEmission))
  suffices hcast : ∃ s', castRay R scene (fuel + 1) ray depth s
      = .ok (Vector3f.add l_dir m.getEmission) s' by
    obtain ⟨s', hs'⟩ := hcast
    exact ⟨l_dir, s3, s', hd, hs'⟩
  unfold castRay
  rw [hinter]
  dsimp only
  rw [if_neg (by simp [hhit]), hm]
  dsimp only
  rw [if_pos hme, if_pos hme, hd]
  dsimp only
  split
  · exact ⟨_, rfl⟩
  · rcases intersect_single R scene o mp sm prims hb
      (Ray.new inter.coords
        (m.sample ray.direction inter.normal (get_random_float s3.rng).2).1) with h | h
    · rw [h]
      dsimp only
      rw [if_neg (by simp [Intersection.default]), Vector3f.add_zero_right]
      exact ⟨_, rfl⟩
    · rw [h]
      dsimp only
      split
      · rename_i hh2
        obtain ⟨m2, hm2, he2⟩ := hemit _ hh2
        rw [hm2]
        dsimp only
        rw [if_neg (by simp [he2]), Vector3f.add_zero_right]
        exact ⟨_, rfl⟩
      · rw [Vector3f.add_zero_right]
        exact ⟨_, rfl⟩

end SingleLemmas

/-! ## The nearest-hit traversal -/

section TraversalLemmas

variable {α : Type} [LinearOrderedField α]

theorem isNull_eq_true {β : Type} (t : BVHBuildNode β) (h : t.isNull = true) :
    t = .nullptr := by
  cases t with
  | nullptr => rfl
  | node b l r o a => simp [BVHBuildNode.isNull] at h

theorem getIntersection_nearest (R : Runtime α) (all : List (Object α)) (ray : Ray α)
    (hbox : ∀ o ∈ all, Hits o ray → ∀ b : Bounds3 α, b.Encloses o.getBounds →
      R.IntersectP b ray ray.direction_inv (dirIsNeg ray) = true)
    (hfar : ∀ o ∈ all, Hits o ray → (o.getIntersection ray).distance < R.maxDouble ∧
      ∀ o' ∈ all, ¬ Hits o' ray →
        (o.getIntersection ray).distance < (o'.getIntersection ray).distance) :
    ∀ t : BVHBuildNode α, t.isNull = false → t.proper = true → t.contained = true →
      (∀ o ∈ t.heldObjects, o ∈ all) →
      ∃ r, getIntersection R t ray = .ok r ∧ Nearest all t.heldObjects ray r := by
  have hdefault : Beyond all ray (Intersection.default R.maxDouble) :=
    fun o ho hh => (hfar o ho hh).1
  intro t
  induction t with
  | nullptr => intro h; simp [BVHBuildNode.isNull] at h
  | node b l r o a ihl ihr =>
    intro _ hproper hcont hsub
    have hroot := contained_root (.node b l r o a) b hcont rfl
    simp only [BVHBuildNode.proper, Bool.and_eq_true, Bool.or_eq_true, Bool.not_eq_true',
      Option.isNone_iff_eq_none] at hproper
    simp only [BVHBuildNode.contained, Bool.and_eq_true] at hcont
    obtain ⟨⟨hshape, hpl⟩, hpr⟩ := hproper
    obtain ⟨⟨_, hcl⟩, hcr⟩ := hcont
    unfold getIntersection
    by_cases hP : R.IntersectP b ray ray.direction_inv (dirIsNeg ray) = true
    · rw [if_neg (by simp [hP])]
      rcases hshape with ⟨⟨hln, hrn⟩, hos⟩ | ⟨⟨hln, hrn⟩, hon⟩
      · -- a leaf
        rw [if_pos (by simp [hln, hrn])]
        obtain ⟨p, hp⟩ := Option.isSome_iff_exists.mp hos
        subst hp
        have hheld : (BVHBuildNode.node b l r (some p) a).heldObjects = [p] := by
          rw [isNull_eq_true l hln, isNull_eq_true r hrn]
          simp [BVHBuildNode.heldObjects, BVHBuildNode.isNull]
        refine ⟨p.getIntersection ray, rfl, ?_⟩
        rw [hheld]
        constructor
        · rintro ⟨q, hq, hhit⟩
          simp only [List.mem_singleton] at hq
          subst hq
          refine ⟨hhit, ⟨q, by simp, hhit, rfl⟩, ?_⟩
          intro q' hq' _
          simp only [List.mem_singleton] at hq'
          subst hq'
          exact le_rfl
        · intro hno
          have hp : ¬ Hits p ray := fun h => hno ⟨p, by simp, h⟩
          refine ⟨by simpa [Hits] using hp, ?_⟩
          intro q hq hhit
          exact (hfar q hq hhit).2 p (hsub p (by rw [hheld]; simp)) hp
      · -- an interior node
        rw [if_neg (by simp [hln])]
        subst hon
        have hheld : (BVHBuildNode.node b l r none a).heldObjects
            = l.heldObjects ++ r.heldObjects := by
          simp [BVHBuildNode.heldObjects, hln]
        rw [hheld] at hsub ⊢
        obtain ⟨rl, hrl, hnl⟩ := ihl hln hpl hcl
          (fun q hq => hsub q (List.mem_append.mpr (Or.inl hq)))
        obtain ⟨rr, hrr, hnr⟩ := ihr hrn hpr hcr
          (fun q hq => hsub q (List.mem_append.mpr (Or.inr hq)))
        rw [hrl, hrr]
        dsimp only
        by_cases hL : ∃ q ∈ l.heldObjects, Hits q ray
        · obtain ⟨hlh, ⟨ql, hql, hqlh, hqle⟩, hlmin⟩ := hnl.1 hL
          by_cases hR : ∃ q ∈ r.heldObjects, Hits q ray
          · obtain ⟨hrh, ⟨qr, hqr, hqrh, hqre⟩, hrmin⟩ := hnr.1 hR
            rw [if_neg (by simp [hlh])]
            by_cases hlt : rl.distance < rr.distance
            · rw [if_pos hlt]
              refine ⟨rl, rfl, ?_, ?_⟩
              · intro _
                refine ⟨hlh, ⟨ql, List.mem_append.mpr (Or.inl hql), hqlh, hqle⟩, ?_⟩
                intro q hq hhit
                rcases List.mem_append.mp hq with h | h
                · exact hlmin q h hhit
                · exact le_trans (le_of_lt hlt) (hrmin q h hhit)
              · intro hno
                exact absurd ⟨ql, List.mem_append.mpr (Or.inl hql), hqlh⟩ hno
            · rw [if_neg hlt]
              refine ⟨rr, rfl, ?_, ?_⟩
              · intro _
                refine ⟨hrh, ⟨qr, List.mem_append.mpr (Or.inr hqr), hqrh, hqre⟩, ?_⟩
                intro q hq hhit
                rcases List.mem_append.mp hq with h | h
                · exact le_trans (not_lt.mp hlt) (hlmin q h hhit)
                · exact hrmin q h hhit
              · intro hno
                exact absurd ⟨ql, List.mem_append.mpr (Or.inl hql), hqlh⟩ hno
          · obtain ⟨hrh, hrfar⟩ := hnr.2 hR
            rw [if_neg (by simp [hlh])]
            have hlt : rl.distance < rr.distance := by
              rw [hqle]
              exact hrfar ql (hsub ql (List.mem_append.mpr (Or.inl hql))) hqlh
            rw [if_pos hlt]
            refine ⟨rl, rfl, ?_, ?_⟩
            · intro _
              refine ⟨hlh, ⟨ql, List.mem_append.mpr (Or.inl hql), hqlh, hqle⟩, ?_⟩
              intro q hq hhit
              rcases List.mem_append.mp hq with h | h
              · exact hlmin q h hhit
              · exact absurd ⟨q, h, hhit⟩ hR
            · intro hno
              exact absurd ⟨ql, List.mem_append.mpr (Or.inl hql), hqlh⟩ hno
        · obtain ⟨hlh, hlfar⟩ := hnl.2 hL
          by_cases hR : ∃ q ∈ r.heldObjects, Hits q ray
          · obtain ⟨hrh, ⟨qr, hqr, hqrh, hqre⟩, hrmin⟩ := hnr.1 hR
            rw [if_neg (by simp [hrh])]
            have hlt : ¬ rl.distance < rr.distance := by
              rw [hqre]
              exact not_lt.mpr
                (le_of_lt (hlfar qr (hsub qr (List.mem_append.mpr (Or.inr hqr))) hqrh))
            rw [if_neg hlt]
            refine ⟨rr, rfl, ?_, ?_⟩
            · intro _
              refine ⟨hrh, ⟨qr, List.mem_append.mpr (Or.inr hqr), hqrh, hqre⟩, ?_⟩
              intro q hq hhit
              rcases List.mem_append.mp hq with h | h
              · exact absurd ⟨q, h, hhit⟩ hL
              · exact hrmin q h hhit
            · intro hno
              exact absurd ⟨qr, List.mem_append.mpr (Or.inr hqr), hqrh⟩ hno
          · obtain ⟨hrh, _⟩ := hnr.2 hR
            rw [if_pos (by simp [hlh, hrh])]
            refine ⟨_, rfl, ?_, ?_⟩
            · rintro ⟨q, hq, hhit⟩
              rcases List.mem_append.mp hq with h | h
              · exact absurd ⟨q, h, hhit⟩ hL
              · exact absurd ⟨q, h, hhit⟩ hR
            · intro _
              exact ⟨rfl, hdefault⟩
    · rw [if_pos (by simpa using hP)]
      refine ⟨_, rfl, ?_, ?_⟩
      · rintro ⟨q, hq, hhit⟩
        exact absurd (hbox q (hsub q hq) hhit b (hroot q hq)) hP
      · intro _
        exact ⟨rfl, hdefault⟩

/-- One step of the linear scan. -/
theorem bruteForce_step (ray : Ray α) (pre : List (Object α)) (best : Intersection α)
    (o : Object α)
    (h1 : best.happened = true → (∃ q ∈ pre, Hits q ray ∧ best = q.getIntersection ray) ∧
      ∀ q ∈ pre, Hits q ray → best.distance ≤ (q.getIntersection ray).distance)
    (h2 : best.happened = false → ¬ ∃ q ∈ pre, Hits q ray) :
    let best' := if (o.getIntersection ray).happened
        && (!best.happened || decide ((o.getIntersection ray).distance < best.distance))
      then o.getIntersection ray else best
    (best'.happened = true →
      (∃ q ∈ pre ++ [o], Hits q ray ∧ best' = q.getIntersection ray) ∧
      ∀ q ∈ pre ++ [o], Hits q ray → best'.distance ≤ (q.getIntersection ray).distance) ∧
    (best'.happened = false → ¬ ∃ q ∈ pre ++ [o], Hits q ray) := by
  intro best'
  by_cases ho : (o.getIntersection ray).happened = true
  · by_cases hb : best.happened = true
    · obtain ⟨⟨q0, hq0, hq0h, hq0e⟩, hmin⟩ := h1 hb
      by_cases hlt : (o.getIntersection ray).distance < best.distance
      · have hb' : best' = o.getIntersection ray := by
          simp [best', ho, hlt]
        rw [hb']
        refine ⟨fun _ => ⟨⟨o, by simp, ho, rfl⟩, ?_⟩, fun h => ?_⟩
        · intro q hq hqh
          rcases List.mem_append.mp hq with h | h
          · exact le_trans (le_of_lt hlt) (hmin q h hqh)
          · simp only [List.mem_singleton] at h
            subst h
            exact le_rfl
        · rw [ho] at h
          cases h
      · have hb' : best' = best := by
          simp [best', ho, hb, hlt]
        rw [hb']
        refine ⟨fun _ => ⟨⟨q0, List.mem_append.mpr (Or.inl hq0), hq0h, hq0e⟩, ?_⟩, fun h => ?_⟩
        · intro q hq hqh
          rcases List.mem_append.mp hq with h | h
          · exact hmin q h hqh
          · simp only [List.mem_singleton] at h
            subst h
            exact not_lt.mp hlt
        · rw [hb] at h
          cases h
    · have hbf : best.happened = false := by simpa using hb
      have hb' : best' = o.getIntersection ray := by
        simp [best', ho, hbf]
      rw [hb']
      refine ⟨fun _ => ⟨⟨o, by simp, ho, rfl⟩, ?_⟩, fun h => ?_⟩
      · intro q hq hqh
        rcases List.mem_append.mp hq with h | h
        · exact absurd ⟨q, h, hqh⟩ (h2 hbf)
        · simp only [List.mem_singleton] at h
          subst h
          exact le_rfl
      · rw [ho] at h
        cases h
  · have hb' : best' = best := by
      simp [best', ho]
    rw [hb']
    refine ⟨fun hb => ?_, fun hb => ?_⟩
    · obtain ⟨⟨q0, hq0, hq0h, hq0e⟩, hmin⟩ := h1 hb
      refine ⟨⟨q0, List.mem_append.mpr (Or.inl hq0), hq0h, hq0e⟩, ?_⟩
      intro q hq hqh
      rcases List.mem_append.mp hq with h | h
      · exact hmin q h hqh
      · simp only [List.mem_singleton] at h
        subst h
        exact absurd hqh ho
    · rintro ⟨q, hq, hqh⟩
      rcases List.mem_append.mp hq with h | h
      · exact h2 hb ⟨q, h, hqh⟩
      · simp only [List.mem_singleton] at h
        subst h
        exact ho hqh

theorem bruteForce_fold (ray : Ray α) (rest : List (Object α)) :
    ∀ (pre : List (Object α)) (best : Intersection α),
      (best.happened = true → (∃ q ∈ pre, Hits q ray ∧ best = q.getIntersection ray) ∧
        ∀ q ∈ pre, Hits q ray → best.distance ≤ (q.getIntersection ray).distance) →
      (best.happened = false → ¬ ∃ q ∈ pre, Hits q ray) →
      ((rest.foldl
          (fun best o =>
            if (o.getIntersection ray).happened
                && (!best.happened || decide ((o.getIntersection ray).distance < best.distance))
            then o.getIntersection ray else best) best).happened = true →
        (∃ q ∈ pre ++ rest, Hits q ray ∧
          rest.foldl
            (fun best o =>
              if (o.getIntersection ray).happened
                  && (!best.happened
                    || decide ((o.getIntersection ray).distance < best.distance))
              then o.getIntersection ray else best) best = q.getIntersection ray) ∧
        ∀ q ∈ pre ++ rest, Hits q ray →
          (rest.foldl
            (fun best o =>
              if (o.getIntersection ray).happened
                  && (!best.happened
                    || decide ((o.getIntersection ray).distance < best.distance))
              then o.getIntersection ray else best) best).distance
            ≤ (q.getIntersection ray).distance) ∧
      ((rest.foldl
          (fun best o =>
            if (o.getIntersection ray).happened
                && (!best.happened || decide ((o.getIntersection ray).distance < best.distance))
            then o.getIntersection ray else best) best).happened = false →
        ¬ ∃ q ∈ pre ++ rest, Hits q ray) := by
  induction rest with
  | nil =>
    intro pre best h1 h2
    simp only [List.foldl_nil, List.append_nil]
    exact ⟨h1, h2⟩
  | cons o rest ih =>
    intro pre best h1 h2
    have hstep := bruteForce_step ray pre best o h1 h2
    have := ih (pre ++ [o]) _ hstep.1 hstep.2
    simpa [List.foldl_cons, List.append_assoc] using this

theorem bruteForce_nearest (R : Runtime α) (objs : List (Object α)) (ray : Ray α) :
    ((bruteForce R objs ray).happened = true →
      (∃ q ∈ objs, Hits q ray ∧ bruteForce R objs ray = q.getIntersection ray) ∧
      ∀ q ∈ objs, Hits q ray →
        (bruteForce R objs ray).distance ≤ (q.getIntersection ray).distance) ∧
    ((bruteForce R objs ray).happened = false → ¬ ∃ q ∈ objs, Hits q ray) := by
  have h := bruteForce_fold ray objs [] (Intersection.default R.maxDouble)
    (by intro h; simp [Intersection.default] at h) (by intro _; simp)
  simpa [bruteForce] using h

theorem intersect_wellBuilt (R : Runtime α) (objs : List (Object α)) (ray : Ray α)
    (hbox : ∀ o ∈ objs, Hits o ray → ∀ b : Bounds3 α, b.Encloses o.getBounds →
      R.IntersectP b ray ray.direction_inv (dirIsNeg ray) = true)
    (hfar : ∀ o ∈ objs, Hits o ray → (o.getIntersection ray).distance < R.maxDouble ∧
      ∀ o' ∈ objs, ¬ Hits o' ray →
        (o.getIntersection ray).distance < (o'.getIntersection ray).distance)
    (bvh : BVHAccel α) (hn : bvh.root.isNull = false) (hw : WellBuilt objs bvh.root) :
    ∃ r, bvh.Intersect R ray = .ok r ∧
      (r.happened = true ↔ ∃ o ∈ objs, Hits o ray) ∧
      (r.happened = true →
        (∃ o ∈ objs, Hits o ray ∧ (o.getIntersection ray).distance = r.distance) ∧
        ∀ o ∈ objs, Hits o ray → r.distance ≤ (o.getIntersection ray).distance) ∧
      r.happened = (bruteForce R objs ray).happened ∧
      (r.happened = true → r.distance = (bruteForce R objs ray).distance) := by
  obtain ⟨hp, hc, hperm⟩ := hw
  have hmem : ∀ o, o ∈ bvh.root.heldObjects ↔ o ∈ objs := fun o => hperm.mem_iff
  obtain ⟨r, hr, hnear⟩ := getIntersection_nearest R objs ray hbox hfar bvh.root hn hp hc
    (fun o ho => (hmem o).mp ho)
  have hex : (∃ o ∈ bvh.root.heldObjects, Hits o ray) ↔ ∃ o ∈ objs, Hits o ray :=
    ⟨fun ⟨o, ho, hh⟩ => ⟨o, (hmem o).mp ho, hh⟩, fun ⟨o, ho, hh⟩ => ⟨o, (hmem o).mpr ho, hh⟩⟩
  have hiff : r.happened = true ↔ ∃ o ∈ objs, Hits o ray := by
    constructor
    · intro hh
      by_contra hno
      have := (hnear.2 (fun h => hno (hex.mp h))).1
      rw [hh] at this
      cases this
    · intro h
      exact (hnear.1 (hex.mpr h)).1
  have hmin : r.happened = true →
      (∃ o ∈ objs, Hits o ray ∧ (o.getIntersection ray).distance = r.distance) ∧
      ∀ o ∈ objs, Hits o ray → r.distance ≤ (o.getIntersection ray).distance := by
    intro hh
    obtain ⟨_, ⟨o, ho, hoh, hoe⟩, hle⟩ := hnear.1 (hex.mpr (hiff.mp hh))
    exact ⟨⟨o, (hmem o).mp ho, hoh, by rw [hoe]⟩, fun q hq hqh => hle q ((hmem q).mpr hq) hqh⟩
  have hbf := bruteForce_nearest R objs ray
  have hbiff : (bruteForce R objs ray).happened = true ↔ ∃ o ∈ objs, Hits o ray := by
    constructor
    · intro hh
      obtain ⟨⟨o, ho, hoh, _⟩, _⟩ := hbf.1 hh
      exact ⟨o, ho, hoh⟩
    · intro h
      by_contra hno
      exact hbf.2 (by simpa using hno) h
  refine ⟨r, ?_, hiff, hmin, ?_, ?_⟩
  · simp only [BVHAccel.Intersect, hn, Bool.false_eq_true, if_false]
    exact hr
  · by_cases hh : r.happened = true
    · rw [hh, hbiff.mpr (hiff.mp hh)]
    · have h1 : r.happened = false := by simpa using hh
      have h2 : ¬ (bruteForce R objs ray).happened = true := fun h => hh (hiff.mpr (hbiff.mp h))
      have h3 : (bruteForce R objs ray).happened = false := by simpa using h2
      rw [h1, h3]
  · intro hh
    obtain ⟨⟨o, ho, hoh, hoe⟩, hle⟩ := hmin hh
    obtain ⟨⟨q, hq, hqh, hqe⟩, hble⟩ := hbf.1 (hbiff.mpr (hiff.mp hh))
    apply le_antisymm
    · rw [hqe]
      exact hle q hq hqh
    · rw [← hoe]
      exact hble o ho hoh

end TraversalLemmas

/-! ## Leaf selection by `getSample` -/

section SampleLemmas

variable {α : Type} [LinearOrderedField α]

theorem take_sum_mono (l : List α) (hl : ∀ a ∈ l, 0 ≤ a) :
    ∀ i j : Nat, i ≤ j → (l.take i).sum ≤ (l.take j).sum := by
  induction l with
  | nil => intro i j _; simp
  | cons a l ih =>
    intro i j hij
    cases i with
    | zero =>
      simp only [List.take_zero, List.sum_nil]
      exact List.sum_nonneg (fun x hx => hl x (List.mem_of_mem_take hx))
    | succ i =>
      cases j with
      | zero => omega
      | succ j =>
        simp only [List.take_succ_cons, List.sum_cons]
        have := ih (fun x hx => hl x (List.mem_cons_of_mem _ hx)) i j (by omega)
        linarith

theorem take_sum_succ (l : List α) (i : Nat) (a : α) (h : l[i]? = some a) :
    (l.take (i + 1)).sum = (l.take i).sum + a := by
  induction l generalizing i with
  | nil => simp at h
  | cons b l ih =>
    cases i with
    | zero =>
      simp only [List.getElem?_cons_zero, Option.some.injEq] at h
      simp [h]
    | succ i =>
      simp only [List.getElem?_cons_succ] at h
      simp only [List.take_succ_cons, List.sum_cons, ih i h]
      ring

theorem leafAreas_node_leaf (b : Bounds3 α) (l r : BVHBuildNode α) (o : Option (Object α))
    (a : α) (h : (l.isNull || r.isNull) = true) :
    (BVHBuildNode.node b l r o a).leafAreas = [a] := by
  simp [BVHBuildNode.leafAreas, BVHBuildNode.sampleLeaves, h, BVHBuildNode.storedArea]

theorem leafAreas_node_inner (b : Bounds3 α) (l r : BVHBuildNode α) (o : Option (Object α))
    (a : α) (h : (l.isNull || r.isNull) = false) :
    (BVHBuildNode.node b l r o a).leafAreas = l.leafAreas ++ r.leafAreas := by
  simp [BVHBuildNode.leafAreas, BVHBuildNode.sampleLeaves, h]

theorem area_eq_storedArea (t : BVHBuildNode α) (a : α) (h : t.area = .ok a) :
    t.storedArea = a ∧ t.isNull = false := by
  cases t with
  | nullptr => simp [BVHBuildNode.area] at h
  | node b l r o a' =>
    simp only [BVHBuildNode.area, Except.ok.injEq] at h
    exact ⟨h, rfl⟩

theorem leafIndex_spec (t : BVHBuildNode α) :
    t.isNull = false → t.areaAdditive = true → (∀ a ∈ t.leafAreas, 0 < a) →
    t.storedArea = t.leafAreas.sum ∧
    ∀ p, 0 ≤ p → p < t.storedArea →
      t.leafIndex p < t.leafAreas.length ∧ t.areaBefore (t.leafIndex p) ≤ p ∧
        p < t.areaBefore (t.leafIndex p + 1) := by
  induction t with
  | nullptr => intro h; simp [BVHBuildNode.isNull] at h
  | node b l r o a ihl ihr =>
    intro _ hadd hpos
    simp only [BVHBuildNode.areaAdditive, Bool.and_eq_true] at hadd
    obtain ⟨⟨hshape, hal⟩, har⟩ := hadd
    by_cases hleaf : (l.isNull && r.isNull) = true
    · have hor : (l.isNull || r.isNull) = true := by
        simp only [Bool.and_eq_true] at hleaf
        simp [hleaf.1]
      have hLA := leafAreas_node_leaf b l r o a hor
      refine ⟨by simp [hLA, BVHBuildNode.storedArea], ?_⟩
      intro p hp0 hp1
      have hidx : (BVHBuildNode.node b l r o a).leafIndex p = 0 := by
        simp [BVHBuildNode.leafIndex, hor]
      rw [hidx]
      simp only [BVHBuildNode.areaBefore, hLA]
      simpa [BVHBuildNode.storedArea] using ⟨hp0, hp1⟩
    · rw [if_neg (fun h => hleaf (by simp [h.1, h.2]))] at hshape
      split at hshape
      · rename_i al ar hla hra
        simp only [decide_eq_true_eq] at hshape
        obtain ⟨hsl, hln⟩ := area_eq_storedArea l al hla
        obtain ⟨hsr, hrn⟩ := area_eq_storedArea r ar hra
        have hor : (l.isNull || r.isNull) = false := by simp [hln, hrn]
        have hLA := leafAreas_node_inner b l r o a hor
        rw [hLA] at hpos
        obtain ⟨hlsum, hlp⟩ := ihl hln hal (fun x hx => hpos x (List.mem_append.mpr (Or.inl hx)))
        obtain ⟨hrsum, hrp⟩ := ihr hrn har (fun x hx => hpos x (List.mem_append.mpr (Or.inr hx)))
        rw [hsl] at hlsum hlp
        rw [hsr] at hrsum hrp
        have hlen : l.sampleLeaves.length = l.leafAreas.length := by
          simp [BVHBuildNode.leafAreas]
        refine ⟨by rw [hLA, List.sum_append, ← hlsum, ← hrsum]; exact hshape, ?_⟩
        intro p hp0 hp1
        simp only [BVHBuildNode.storedArea] at hp1
        by_cases hlt : p < al
        · have hidx : (BVHBuildNode.node b l r o a).leafIndex p = l.leafIndex p := by
            simp [BVHBuildNode.leafIndex, hor, hla, hlt]
          obtain ⟨h1, h2, h3⟩ := hlp p hp0 hlt
          rw [hidx]
          simp only [BVHBuildNode.areaBefore, hLA] at h2 h3 ⊢
          rw [List.take_append_of_le_length (by omega),
            List.take_append_of_le_length (by omega)]
          exact ⟨by simp only [List.length_append]; omega, h2, h3⟩
        · have hidx : (BVHBuildNode.node b l r o a).leafIndex p
              = l.leafAreas.length + r.leafIndex (p - al) := by
            simp [BVHBuildNode.leafIndex, hor, hla, hlt, hlen]
          obtain ⟨h1, h2, h3⟩ := hrp (p - al) (by linarith [not_lt.mp hlt]) (by linarith)
          rw [hidx]
          simp only [BVHBuildNode.areaBefore, hLA] at h2 h3 ⊢
          rw [List.take_append, Nat.add_assoc, List.take_append]
          simp only [List.sum_append, ← hlsum]
          exact ⟨by simp only [List.length_append]; omega, by linarith, by linarith⟩
      · cases hshape

theorem areaBefore_mono (t : BVHBuildNode α) (hpos : ∀ a ∈ t.leafAreas, 0 < a) (i j : Nat)
    (hij : i ≤ j) : t.areaBefore i ≤ t.areaBefore j :=
  take_sum_mono t.leafAreas (fun a ha => le_of_lt (hpos a ha)) i j hij

theorem areaBefore_le_total (t : BVHBuildNode α) (hpos : ∀ a ∈ t.leafAreas, 0 < a) (i : Nat) :
    t.areaBefore i ≤ t.leafAreas.sum := by
  by_cases h : i ≤ t.leafAreas.length
  · have := areaBefore_mono t hpos i t.leafAreas.length h
    simpa [BVHBuildNode.areaBefore] using this
  · simp only [BVHBuildNode.areaBefore]
    rw [List.take_of_length_le (by omega)]

theorem leafIndex_eq_iff (t : BVHBuildNode α) (hn : t.isNull = false)
    (hadd : t.areaAdditive = true) (hpos : ∀ a ∈ t.leafAreas, 0 < a) (p : α) (hp0 : 0 ≤ p)
    (hp1 : p < t.storedArea) (i : Nat) :
    t.leafIndex p = i ↔
      i < t.leafAreas.length ∧ t.areaBefore i ≤ p ∧ p < t.areaBefore (i + 1) := by
  obtain ⟨_, hspec⟩ := leafIndex_spec t hn hadd hpos
  obtain ⟨h1, h2, h3⟩ := hspec p hp0 hp1
  constructor
  · intro h
    subst h
    exact ⟨h1, h2, h3⟩
  · rintro ⟨_, g2, g3⟩
    rcases Nat.lt_trichotomy (t.leafIndex p) i with h | h | h
    · have := areaBefore_mono t hpos (t.leafIndex p + 1) i (by omega)
      exact absurd (lt_of_lt_of_le h3 this) (not_lt.mpr g2)
    · exact h
    · have := areaBefore_mono t hpos (i + 1) (t.leafIndex p) (by omega)
      exact absurd (lt_of_lt_of_le g3 this) (not_lt.mpr h2)

theorem pairTree_built (R : Runtime α) (a b : α) (fuel : Nat) :
    recursiveBuild R (fuel + 2) [squareOfArea a, squareOfArea b] = .ok (pairTree a b) := by
  simp [recursiveBuild, linkChildren, leafNode, BVHBuildNode.bounds, BVHBuildNode.area,
    pairTree, squareOfArea]

theorem pairTree_facts (a b : α) :
    (pairTree a b).isNull = false ∧ (pairTree a b).areaAdditive = true ∧
    (pairTree a b).leafAreas = [a, b] ∧ (pairTree a b).storedArea = a + b := by
  refine ⟨rfl, ?_, ?_, rfl⟩
  · simp [pairTree, BVHBuildNode.areaAdditive, leafNode, BVHBuildNode.isNull,
      BVHBuildNode.area, squareOfArea]
  · simp [pairTree, BVHBuildNode.leafAreas, BVHBuildNode.sampleLeaves, leafNode,
      BVHBuildNode.isNull, BVHBuildNode.storedArea, squareOfArea]

theorem getSample_stops_at_leafIndex (t : BVHBuildNode α) :
    t.isNull = false → t.proper = true →
    ∀ (p : α) (pos : Intersection α) (pdf : α) (s : State α),
      ∃ b o a, t.sampleLeaves[t.leafIndex p]? = some (.node b .nullptr .nullptr (some o) a) ∧
        getSample t p pos pdf s =
          .ok ((o.Sample pos pdf s.rng).1, (o.Sample pos pdf s.rng).2.1 * a)
            { rng := (o.Sample pos pdf s.rng).2.2, trace := s.trace ++ [.objectSample o] } := by
  induction t with
  | nullptr => intro h; simp [BVHBuildNode.isNull] at h
  | node b l r o a ihl ihr =>
    intro _ hproper p pos pdf s
    simp only [BVHBuildNode.proper, Bool.and_eq_true, Bool.or_eq_true, Bool.not_eq_true',
      Option.isNone_iff_eq_none] at hproper
    obtain ⟨⟨hshape, hpl⟩, hpr⟩ := hproper
    rcases hshape with ⟨⟨hln, hrn⟩, hos⟩ | ⟨⟨hln, hrn⟩, _⟩
    · obtain ⟨q, hq⟩ := Option.isSome_iff_exists.mp hos
      subst hq
      have hl := isNull_eq_true l hln
      have hr := isNull_eq_true r hrn
      subst hl hr
      exact ⟨b, q, a, by simp [BVHBuildNode.sampleLeaves, BVHBuildNode.leafIndex,
        BVHBuildNode.isNull], by simp [getSample, BVHBuildNode.isNull]⟩
    · have hor : (l.isNull || r.isNull) = false := by simp [hln, hrn]
      obtain ⟨la, hla⟩ : ∃ la, l.area = .ok la := by
        cases l with
        | nullptr => simp [BVHBuildNode.isNull] at hln
        | node bl ll lr lo la => exact ⟨la, rfl⟩
      have hleaves : (BVHBuildNode.node b l r o a).sampleLeaves
          = l.sampleLeaves ++ r.sampleLeaves := by
        simp [BVHBuildNode.sampleLeaves, hor]
      have hlen : ∀ q, l.leafIndex q < l.sampleLeaves.length := by
        intro q
        obtain ⟨_, _, _, h, _⟩ := ihl hln hpl q pos pdf s
        by_contra hcon
        rw [List.getElem?_eq_none (by omega)] at h
        cases h
      by_cases hlt : p < la
      · obtain ⟨b', o', a', h1, h2⟩ := ihl hln hpl p pos pdf s
        have hidx : (BVHBuildNode.node b l r o a).leafIndex p = l.leafIndex p := by
          simp [BVHBuildNode.leafIndex, hor, hla, hlt]
        refine ⟨b', o', a', ?_, ?_⟩
        · rw [hidx, hleaves, List.getElem?_append_left (hlen p)]
          exact h1
        · simp only [getSample, hor, Bool.false_eq_true, if_false, hla, hlt, if_true]
          exact h2
      · obtain ⟨b', o', a', h1, h2⟩ := ihr hrn hpr (p - la) pos pdf s
        have hidx : (BVHBuildNode.node b l r o a).leafIndex p
            = l.sampleLeaves.length + r.leafIndex (p - la) := by
          simp [BVHBuildNode.leafIndex, hor, hla, hlt]
        refine ⟨b', o', a', ?_, ?_⟩
        · rw [hidx, hleaves, List.getElem?_append_right (by omega)]
          simpa using h1
        · simp only [getSample, hor, Bool.false_eq_true, if_false, hla, hlt]
          exact h2

theorem Sample_pdf (R : Runtime α) (bvh : BVHAccel α) (hn : bvh.root.isNull = false)
    (hp : bvh.root.proper = true) (pos : Intersection α) (pdf : α) (s : State α) :
    ∃ b o a, bvh.root.sampleLeaves[bvh.root.leafIndex
          (R.sqrt (get_random_float s.rng).1 * bvh.root.storedArea)]?
        = some (.node b .nullptr .nullptr (some o) a) ∧
      bvh.Sample R pos pdf s =
        .ok ((o.Sample pos pdf (get_random_float s.rng).2).1,
            (o.Sample pos pdf (get_random_float s.rng).2).2.1 * a / bvh.root.storedArea)
          { rng := (o.Sample pos pdf (get_random_float s.rng).2).2.2,
            trace := s.trace ++ [.objectSample o] } := by
  obtain ⟨b, o, a, h1, h2⟩ := getSample_stops_at_leafIndex bvh.root hn hp
    (R.sqrt (get_random_float s.rng).1 * bvh.root.storedArea) pos pdf
    { s with rng := (get_random_float s.rng).2 }
  refine ⟨b, o, a, h1, ?_⟩
  cases hroot : bvh.root with
  | nullptr => rw [hroot] at hn; simp [BVHBuildNode.isNull] at hn
  | node rb rl rr ro ra =>
    rw [hroot] at h2
    simp only [BVHBuildNode.storedArea] at h2
    simp only [BVHAccel.Sample, hroot, BVHBuildNode.area, h2, BVHBuildNode.storedArea]

theorem leafIndex_interval (t : BVHBuildNode α) :
    t.isNull = false → t.areaAdditive = true →
    t.storedArea = t.leafAreas.sum ∧
    ∀ p, 0 ≤ p → p < t.storedArea →
      t.leafIndex p < t.leafAreas.length ∧ t.areaBefore (t.leafIndex p) ≤ p ∧
        p < t.areaBefore (t.leafIndex p + 1) := by
  induction t with
  | nullptr => intro h; simp [BVHBuildNode.isNull] at h
  | node b l r o a ihl ihr =>
    intro _ hadd
    simp only [BVHBuildNode.areaAdditive, Bool.and_eq_true] at hadd
    obtain ⟨⟨hshape, hal⟩, har⟩ := hadd
    by_cases hleaf : (l.isNull && r.isNull) = true
    · have hor : (l.isNull || r.isNull) = true := by
        simp only [Bool.and_eq_true] at hleaf
        simp [hleaf.1]
      have hLA := leafAreas_node_leaf b l r o a hor
      refine ⟨by simp [hLA, BVHBuildNode.storedArea], ?_⟩
      intro p hp0 hp1
      have hidx : (BVHBuildNode.node b l r o a).leafIndex p = 0 := by
        simp [BVHBuildNode.leafIndex, hor]
      rw [hidx]
      simp only [BVHBuildNode.areaBefore, hLA]
      simpa [BVHBuildNode.storedArea] using ⟨hp0, hp1⟩
    · rw [if_neg (fun h => hleaf (by simp [h.1, h.2]))] at hshape
      split at hshape
      · rename_i al ar hla hra
        simp only [decide_eq_true_eq] at hshape
        obtain ⟨hsl, hln⟩ := area_eq_storedArea l al hla
        obtain ⟨hsr, hrn⟩ := area_eq_storedArea r ar hra
        have hor : (l.isNull || r.isNull) = false := by simp [hln, hrn]
        have hLA := leafAreas_node_inner b l r o a hor
        obtain ⟨hlsum, hlp⟩ := ihl hln hal
        obtain ⟨hrsum, hrp⟩ := ihr hrn har
        rw [hsl] at hlsum hlp
        rw [hsr] at hrsum hrp
        have hlen : l.sampleLeaves.length = l.leafAreas.length := by
          simp [BVHBuildNode.leafAreas]
        refine ⟨by rw [hLA, List.sum_append, ← hlsum, ← hrsum]; exact hshape, ?_⟩
        intro p hp0 hp1
        simp only [BVHBuildNode.storedArea] at hp1
        by_cases hlt : p < al
        · have hidx : (BVHBuildNode.node b l r o a).leafIndex p = l.leafIndex p := by
            simp [BVHBuildNode.leafIndex, hor, hla, hlt]
          obtain ⟨h1, h2, h3⟩ := hlp p hp0 hlt
          rw [hidx]
          simp only [BVHBuildNode.areaBefore, hLA] at h2 h3 ⊢
          rw [List.take_append_of_le_length (by omega),
            List.take_append_of_le_length (by omega)]
          exact ⟨by simp only [List.length_append]; omega, h2, h3⟩
        · have hidx : (BVHBuildNode.node b l r o a).leafIndex p
              = l.leafAreas.length + r.leafIndex (p - al) := by
            simp [BVHBuildNode.leafIndex, hor, hla, hlt, hlen]
          obtain ⟨h1, h2, h3⟩ := hrp (p - al) (by linarith [not_lt.mp hlt]) (by linarith)
          rw [hidx]
          simp only [BVHBuildNode.areaBefore, hLA] at h2 h3 ⊢
          rw [List.take_append, Nat.add_assoc, List.take_append]
          simp only [List.sum_append, ← hlsum]
          exact ⟨by simp only [List.length_append]; omega, by linarith, by linarith⟩
      · cases hshape

theorem getSample_additive (t : BVHBuildNode α) :
    t.isNull = false → t.areaAdditive = true →
    ∀ (p : α) (pos : Intersection α) (pdf : α) (s : State α),
      ∃ b o, t.sampleLeaves[t.leafIndex p]?
          = some (.node b .nullptr .nullptr (some o) o.getArea) ∧
        getSample t p pos pdf s =
          .ok ((o.Sample pos pdf s.rng).1, (o.Sample pos pdf s.rng).2.1 * o.getArea)
            { rng := (o.Sample pos pdf s.rng).2.2, trace := s.trace ++ [.objectSample o] } := by
  induction t with
  | nullptr => intro h; simp [BVHBuildNode.isNull] at h
  | node b l r o a ihl ihr =>
    intro _ hadd p pos pdf s
    simp only [BVHBuildNode.areaAdditive, Bool.and_eq_true] at hadd
    obtain ⟨⟨hshape, hal⟩, har⟩ := hadd
    by_cases hleaf : (l.isNull && r.isNull) = true
    · rw [if_pos (by simpa using hleaf)] at hshape
      simp only [Bool.and_eq_true] at hleaf
      have hl := isNull_eq_true l hleaf.1
      have hr := isNull_eq_true r hleaf.2
      subst hl hr
      cases o with
      | none => simp at hshape
      | some q =>
        simp only [decide_eq_true_eq] at hshape
        subst hshape
        exact ⟨b, q, by simp [BVHBuildNode.sampleLeaves, BVHBuildNode.leafIndex,
          BVHBuildNode.isNull], by simp [getSample, BVHBuildNode.isNull]⟩
    · rw [if_neg (fun h => hleaf (by simp [h.1, h.2]))] at hshape
      split at hshape
      · rename_i la ra hla hra
        obtain ⟨_, hln⟩ := area_eq_storedArea l la hla
        obtain ⟨_, hrn⟩ := area_eq_storedArea r ra hra
        have hor : (l.isNull || r.isNull) = false := by simp [hln, hrn]
        have hleaves : (BVHBuildNode.node b l r o a).sampleLeaves
            = l.sampleLeaves ++ r.sampleLeaves := by
          simp [BVHBuildNode.sampleLeaves, hor]
        have hlen : ∀ q, l.leafIndex q < l.sampleLeaves.length := by
          intro q
          obtain ⟨_, _, h, _⟩ := ihl hln hal q pos pdf s
          by_contra hcon
          rw [List.getElem?_eq_none (by omega)] at h
          cases h
        by_cases hlt : p < la
        · obtain ⟨b', o', h1, h2⟩ := ihl hln hal p pos pdf s
          have hidx : (BVHBuildNode.node b l r o a).leafIndex p = l.leafIndex p := by
            simp [BVHBuildNode.leafIndex, hor, hla, hlt]
          refine ⟨b', o', ?_, ?_⟩
          · rw [hidx, hleaves, List.getElem?_append_left (hlen p)]
            exact h1
          · simp only [getSample, hor, Bool.false_eq_true, if_false, hla, hlt, if_true]
            exact h2
        · obtain ⟨b', o', h1, h2⟩ := ihr hrn har (p - la) pos pdf s
          have hidx : (BVHBuildNode.node b l r o a).leafIndex p
              = l.sampleLeaves.length + r.leafIndex (p - la) := by
            simp [BVHBuildNode.leafIndex, hor, hla, hlt]
          refine ⟨b', o', ?_, ?_⟩
          · rw [hidx, hleaves, List.getElem?_append_right (by omega)]
            simpa using h1
          · simp only [getSample, hor, Bool.false_eq_true, if_false, hla, hlt]
            exact h2
      · cases hshape

end SampleLemmas

section MeasureLemmas

open MeasureTheory

theorem selectionSet_eq_Ico (t : BVHBuildNode ℝ) (hn : t.isNull = false)
    (hadd : t.areaAdditive = true) (hpos : ∀ a ∈ t.leafAreas, 0 < a) (i : Nat)
    (hi : i < t.leafAreas.length) :
    selectionSet t i = Set.Ico ((t.areaBefore i / t.storedArea) ^ 2)
      ((t.areaBefore (i + 1) / t.storedArea) ^ 2) := by
  obtain ⟨hsum, _⟩ := leafIndex_spec t hn hadd hpos
  have hc0 : 0 ≤ t.areaBefore i := by
    have := areaBefore_mono t hpos 0 i (by omega)
    simpa [BVHBuildNode.areaBefore] using this
  have hai : t.leafAreas[i]? = some (t.leafAreas[i]) := List.getElem?_eq_getElem hi
  have hstep : t.areaBefore (i + 1) = t.areaBefore i + t.leafAreas[i] :=
    take_sum_succ t.leafAreas i _ hai
  have hapos : 0 < t.leafAreas[i] := hpos _ (List.getElem_mem hi)
  have hc1 : t.areaBefore (i + 1) ≤ t.storedArea := by
    rw [hsum]
    exact areaBefore_le_total t hpos (i + 1)
  have hA : 0 < t.storedArea := by linarith
  ext u
  simp only [selectionSet, Set.mem_setOf_eq, Set.mem_Ico]
  constructor
  · rintro ⟨hu0, hu1, hidx⟩
    have hs0 : 0 ≤ Real.sqrt u := Real.sqrt_nonneg u
    have hs1 : Real.sqrt u < 1 := by
      rw [Real.sqrt_lt' one_pos]
      simpa using hu1
    have hp0 : 0 ≤ Real.sqrt u * t.storedArea := mul_nonneg hs0 (le_of_lt hA)
    have hp1 : Real.sqrt u * t.storedArea < t.storedArea := by nlinarith
    obtain ⟨_, g2, g3⟩ := (leafIndex_eq_iff t hn hadd hpos _ hp0 hp1 i).mp hidx
    constructor
    · rw [← Real.le_sqrt (div_nonneg hc0 (le_of_lt hA)) hu0, div_le_iff₀ hA]
      exact g2
    · have hpos' : 0 < t.areaBefore (i + 1) / t.storedArea :=
        div_pos (lt_of_le_of_lt hp0 g3) hA
      rw [← Real.sqrt_lt' hpos', lt_div_iff₀ hA]
      exact g3
  · rintro ⟨g2, g3⟩
    have hq0 : 0 ≤ t.areaBefore i / t.storedArea := div_nonneg hc0 (le_of_lt hA)
    have hu0 : 0 ≤ u := le_trans (sq_nonneg _) g2
    have hq1 : 0 < t.areaBefore (i + 1) / t.storedArea := div_pos (by linarith) hA
    have hq1' : t.areaBefore (i + 1) / t.storedArea ≤ 1 := (div_le_one hA).mpr hc1
    have hu1 : u < 1 := by
      have : (t.areaBefore (i + 1) / t.storedArea) ^ 2 ≤ 1 := by nlinarith
      linarith
    have hs0 : 0 ≤ Real.sqrt u := Real.sqrt_nonneg u
    have hs1 : Real.sqrt u < 1 := by
      rw [Real.sqrt_lt' one_pos]
      simpa using hu1
    have hp0 : 0 ≤ Real.sqrt u * t.storedArea := mul_nonneg hs0 (le_of_lt hA)
    have hp1 : Real.sqrt u * t.storedArea < t.storedArea := by nlinarith
    refine ⟨hu0, hu1, (leafIndex_eq_iff t hn hadd hpos _ hp0 hp1 i).mpr ⟨hi, ?_, ?_⟩⟩
    · rw [← div_le_iff₀ hA, Real.le_sqrt hq0 hu0]
      exact g2
    · rw [← lt_div_iff₀ hA, Real.sqrt_lt' hq1]
      exact g3

theorem selectionSet_volume (t : BVHBuildNode ℝ) (hn : t.isNull = false)
    (hadd : t.areaAdditive = true) (hpos : ∀ a ∈ t.leafAreas, 0 < a) (i : Nat)
    (hi : i < t.leafAreas.length) :
    volume (selectionSet t i) = ENNReal.ofReal
      ((t.areaBefore (i + 1) / t.storedArea) ^ 2 - (t.areaBefore i / t.storedArea) ^ 2) := by
  rw [selectionSet_eq_Ico t hn hadd hpos i hi, Real.volume_Ico]

end MeasureLemmas

/-! ## The shape of the trees built -/

section ShapeLemmas

variable {α : Type} [LinearOrderedField α]

theorem proper_leafTestsAgree {β : Type} (t : BVHBuildNode β) (h : t.proper = true) :
    t.leafTestsAgree = true := by
  induction t with
  | nullptr => rfl
  | node b l r o a ihl ihr =>
    simp only [BVHBuildNode.proper, Bool.and_eq_true, Bool.or_eq_true, Bool.not_eq_true',
      Option.isNone_iff_eq_none] at h
    obtain ⟨⟨hshape, hpl⟩, hpr⟩ := h
    simp only [BVHBuildNode.leafTestsAgree, Bool.and_eq_true, ihl hpl, ihr hpr, and_true]
    rcases hshape with ⟨⟨hln, hrn⟩, _⟩ | ⟨⟨hln, hrn⟩, _⟩
    · simp [hln, hrn]
    · simp [hln, hrn]

theorem proper_size {β : Type} (t : BVHBuildNode β) (hn : t.isNull = false) (h : t.proper = true) :
    t.size + 1 = 2 * t.heldObjects.length := by
  induction t with
  | nullptr => simp [BVHBuildNode.isNull] at hn
  | node b l r o a ihl ihr =>
    simp only [BVHBuildNode.proper, Bool.and_eq_true, Bool.or_eq_true, Bool.not_eq_true',
      Option.isNone_iff_eq_none] at h
    obtain ⟨⟨hshape, hpl⟩, hpr⟩ := h
    rcases hshape with ⟨⟨hln, hrn⟩, hos⟩ | ⟨⟨hln, hrn⟩, _⟩
    · obtain ⟨q, hq⟩ := Option.isSome_iff_exists.mp hos
      subst hq
      rw [isNull_eq_true l hln, isNull_eq_true r hrn]
      simp [BVHBuildNode.size, BVHBuildNode.heldObjects, BVHBuildNode.isNull]
    · have h1 := ihl hln hpl
      have h2 := ihr hrn hpr
      simp only [BVHBuildNode.size, BVHBuildNode.heldObjects, hln, Bool.false_and,
        Bool.false_eq_true, if_false, List.nil_append, List.length_append]
      omega

theorem proper_sampleLeaves_length {β : Type} (t : BVHBuildNode β) (h : t.proper = true) :
    t.sampleLeaves.length = t.heldObjects.length := by
  induction t with
  | nullptr => rfl
  | node b l r o a ihl ihr =>
    simp only [BVHBuildNode.proper, Bool.and_eq_true, Bool.or_eq_true, Bool.not_eq_true',
      Option.isNone_iff_eq_none] at h
    obtain ⟨⟨hshape, hpl⟩, hpr⟩ := h
    rcases hshape with ⟨⟨hln, hrn⟩, hos⟩ | ⟨⟨hln, hrn⟩, _⟩
    · obtain ⟨q, hq⟩ := Option.isSome_iff_exists.mp hos
      subst hq
      rw [isNull_eq_true l hln, isNull_eq_true r hrn]
      simp [BVHBuildNode.sampleLeaves, BVHBuildNode.heldObjects, BVHBuildNode.isNull]
    · simp only [BVHBuildNode.sampleLeaves, BVHBuildNode.heldObjects, hln, hrn, Bool.false_and,
        Bool.or_self, Bool.false_eq_true, if_false, List.nil_append, List.length_append,
        ihl hpl, ihr hpr]

theorem clog_halves (n : Nat) (hn : 2 ≤ n) :
    1 + max (Nat.clog 2 (n / 2)) (Nat.clog 2 (n - n / 2)) = Nat.clog 2 n := by
  have h1 : Nat.clog 2 (n / 2) ≤ Nat.clog 2 (n - n / 2) :=
    Nat.clog_mono_right 2 (by omega)
  rw [max_eq_right h1, Nat.clog_of_two_le (by omega) hn]
  have h2 : (n + 2 - 1) / 2 = n - n / 2 := by omega
  rw [h2]
  omega

theorem height_link (l r t : BVHBuildNode α) (hln : l.isNull = false)
    (ht : linkChildren l r = .ok t) : t.height = 1 + max l.height r.height := by
  unfold linkChildren at ht
  split at ht
  · cases ht
    simp [BVHBuildNode.height, hln]
  · cases ht

theorem recursiveBuild_height (R : Runtime α) (hperm : ∀ lt l, (R.sort lt l).Perm l)
    (fuel : Nat) (objs : List (Object α)) (hne : objs ≠ []) (hlen : objs.length ≤ fuel) :
    ∃ t, recursiveBuild R fuel objs = .ok t ∧ t.isNull = false ∧
      t.height = Nat.clog 2 objs.length :=
  recursiveBuild_rec R hperm (fun o t => t.height = Nat.clog 2 o.length)
    (fun o => by simp [leafNode, BVHBuildNode.height, BVHBuildNode.isNull])
    (fun objs ls rs l r t hl hr h2 _ hlq hrq hln _ ht => by
      show t.height = Nat.clog 2 objs.length
      have hlq2 : l.height = Nat.clog 2 ls.length := hlq
      have hrq2 : r.height = Nat.clog 2 rs.length := hrq
      rw [height_link l r t hln ht, hlq2, hrq2, hl, hr]
      exact clog_halves objs.length h2)
    fuel objs hne hlen

theorem sortSwitch_nil (R : Runtime α) (hperm : ∀ lt l, (R.sort lt l).Perm l) (dim : Nat) :
    sortSwitch R dim [] = [] :=
  List.Perm.eq_nil (sortSwitch_perm R hperm dim [])

theorem recursiveBuild_nil (R : Runtime α) (hperm : ∀ lt l, (R.sort lt l).Perm l)
    (fuel : Nat) : recursiveBuild R fuel [] = .error .outOfFuel := by
  induction fuel with
  | zero => rfl
  | succ fuel ih =>
    simp only [recursiveBuild, sortSwitch_nil R hperm, List.take_nil, List.drop_nil, ih]

theorem proper_leafCount {β : Type} (t : BVHBuildNode β) (h : t.proper = true) :
    t.leafCount = t.heldObjects.length := by
  induction t with
  | nullptr => rfl
  | node b l r o a ihl ihr =>
    simp only [BVHBuildNode.proper, Bool.and_eq_true, Bool.or_eq_true, Bool.not_eq_true',
      Option.isNone_iff_eq_none] at h
    obtain ⟨⟨hshape, hpl⟩, hpr⟩ := h
    rcases hshape with ⟨⟨hln, hrn⟩, hos⟩ | ⟨⟨hln, hrn⟩, _⟩
    · obtain ⟨q, hq⟩ := Option.isSome_iff_exists.mp hos
      subst hq
      rw [isNull_eq_true l hln, isNull_eq_true r hrn]
      simp [BVHBuildNode.leafCount, BVHBuildNode.heldObjects, BVHBuildNode.isNull]
    · simp only [BVHBuildNode.leafCount, BVHBuildNode.heldObjects, hln, hrn, Bool.false_and,
        Bool.false_eq_true, if_false, List.nil_append, List.length_append, ihl hpl, ihr hpr]
      omega

theorem recursiveBuild_halves (R : Runtime α) (hperm : ∀ lt l, (R.sort lt l).Perm l)
    (dim : Nat) (objs : List (Object α)) (h : 3 ≤ objs.length) :
    ((sortSwitch R dim objs).take ((sortSwitch R dim objs).length / 2)).length
        = objs.length / 2 ∧
      ((sortSwitch R dim objs).drop ((sortSwitch R dim objs).length / 2)).length
        = objs.length - objs.length / 2 ∧
      1 ≤ objs.length / 2 ∧ objs.length / 2 < objs.length ∧
      1 ≤ objs.length - objs.length / 2 ∧ objs.length - objs.length / 2 < objs.length := by
  have hl : (sortSwitch R dim objs).length = objs.length :=
    (sortSwitch_perm R hperm dim objs).length_eq
  rw [List.length_take, List.length_drop, hl]
  omega

end ShapeLemmas

/-! ## The search for the SAH split -/

section SearchLemmas

variable {α : Type} [LinearOrderedField α]

end SearchLemmas

/-! ## The claims -/

section Claims

open MeasureTheory

variable {α : Type} [LinearOrderedField α]

/-- C1 (evaluated at the failing input): built with the SAH strategy from
twelve unit squares, the tree has a root whose stored area is the value the
node was constructed with (zero here) although the twelve areas sum to twelve,
so the tree is not area-additive. -/
theorem sah_twelve_squares_not_area_additive :
    ∃ bvh, BVHAccel.new demoRuntime twelveSquares 1 .SAH = .ok bvh ∧
      bvh.root.area = .ok demoRuntime.areaInit ∧ totalArea twelveSquares = 12 ∧
      bvh.root.areaAdditive = false := by
  have h : (BVHAccel.new demoRuntime twelveSquares 1 .SAH).toOption.map
      (fun b => (b.root.area.toOption, b.root.areaAdditive)) = some (some 0, false) := by
    decide!
  cases hb : BVHAccel.new demoRuntime twelveSquares 1 .SAH with
  | error e =>
    rw [hb] at h
    simp [Except.toOption] at h
  | ok bvh =>
    rw [hb] at h
    simp only [Except.toOption, Option.map_some', Option.some.injEq, Prod.mk.injEq] at h
    refine ⟨bvh, rfl, ?_, by decide!, h.2⟩
    cases ha : bvh.root.area with
    | error e =>
      rw [ha] at h
      simp [Except.toOption] at h
    | ok a =>
      rw [ha] at h
      simp only [Except.toOption, Option.some.injEq] at h
      rw [h.1]
      rfl

/-- C2: for every non-empty primitive list, the naive strategy returns a tree,
and the SAH strategy returns a tree unless it reads its unassigned split
choice; in every tree returned, the box of every node encloses the bounds of
every primitive held by a leaf below it, and the leaves hold the primitives of
the list. -/
theorem built_tree_boxes_contain_primitives (R : Runtime α)
    (hsort : ∀ lt l, (R.sort lt l).Perm l) (objs : List (Object α)) (hne : objs ≠ [])
    (maxPrims : Int) :
    (∃ bvh, BVHAccel.new R objs maxPrims .NAIVE = .ok bvh ∧ bvh.root.isNull = false ∧
      bvh.root.contained = true ∧ bvh.root.heldObjects.Perm objs) ∧
    (BVHAccel.new R objs maxPrims .SAH = .error .indeterminate ∨
      ∃ bvh, BVHAccel.new R objs maxPrims .SAH = .ok bvh ∧ bvh.root.isNull = false ∧
        bvh.root.contained = true ∧ bvh.root.heldObjects.Perm objs) := by
  constructor
  · obtain ⟨t, ht, hn, hw, _⟩ := BVHAccel.new_naive R hsort objs hne maxPrims
    exact ⟨_, ht, hn, hw.2.1, hw.2.2⟩
  · rcases BVHAccel.new_sah R hsort objs hne maxPrims with h | ⟨t, ht, hn, hw⟩
    · exact Or.inl h
    · exact Or.inr ⟨_, ht, hn, hw.2.1, hw.2.2⟩

/-- Witness for C2: on the twelve unit squares both strategies return a tree
with the containment property. -/
theorem built_tree_boxes_contain_primitives_witness :
    twelveSquares ≠ [] ∧
    (∃ bvh, BVHAccel.new demoRuntime twelveSquares 1 .NAIVE = .ok bvh ∧
      bvh.root.contained = true) ∧
    (∃ bvh, BVHAccel.new demoRuntime twelveSquares 1 .SAH = .ok bvh ∧
      bvh.root.contained = true) := by
  have hne : twelveSquares ≠ [] := by simp [twelveSquares]
  have h := built_tree_boxes_contain_primitives demoRuntime demoRuntime_sort_perm
    twelveSquares hne 1
  have hok : (BVHAccel.new demoRuntime twelveSquares 1 .SAH).toOption.isSome = true := by
    decide!
  refine ⟨hne, ?_, ?_⟩
  · obtain ⟨bvh, hb, _, hc, _⟩ := h.1
    exact ⟨bvh, hb, hc⟩
  · rcases h.2 with he | ⟨bvh, hb, _, hc, _⟩
    · rw [he] at hok
      simp [Except.toOption] at hok
    · exact ⟨bvh, hb, hc⟩

/-- C4: constructed from an empty primitive list, with either split method, the
accelerator has a null root (so it owns no node), and `Intersect` returns the
default no-hit record for every ray. -/
theorem empty_accelerator_reports_no_hit (R : Runtime α) (maxPrims : Int)
    (method : SplitMethod) :
    ∃ bvh, BVHAccel.new R [] maxPrims method = .ok bvh ∧ bvh.root = .nullptr ∧
      bvh.root.heldObjects = [] ∧
      ∀ ray, bvh.Intersect R ray = .ok (Intersection.default R.maxDouble) ∧
        (Intersection.default R.maxDouble).happened = false :=
  ⟨⟨.nullptr, min 255 maxPrims, method, []⟩, rfl, rfl, rfl, fun _ => ⟨rfl, rfl⟩⟩

/-- C5: when the scene intersection of the ray reports no hit, `castRay`
returns the background colour of the scene and leaves the state as it was, for
every depth and every random source: no random value is consumed and no call
to `sampleLight` or to a material routine is recorded. -/
theorem castRay_miss_returns_background (R : Runtime α) (scene : Scene α) (fuel : Nat)
    (ray : Ray α) (depth : Int) (s : State α) (inter : Intersection α)
    (hinter : scene.intersect R ray = .ok inter) (hmiss : inter.happened = false) :
    castRay R scene (fuel + 1) ray depth s = .ok scene.backgroundColor s := by
  simp only [castRay, hinter, hmiss, Bool.not_false, if_true]

/-- Witness for C5: a ray against a scene holding one unit square that is never
hit. -/
theorem castRay_miss_returns_background_witness :
    missScene.intersect demoRuntime demoRay = .ok demoMiss ∧ demoMiss.happened = false ∧
    castRay demoRuntime missScene 1 demoRay 0 (demoState 0)
      = .ok missScene.backgroundColor (demoState 0) :=
  ⟨rfl, rfl, castRay_miss_returns_background demoRuntime missScene 0 demoRay 0 (demoState 0)
    demoMiss rfl rfl⟩

/-- C9 (counterexample): with the lights of area 1 and 2 and the draw 1/3 the
threshold is 1, inside [0, 3); the running sum first strictly exceeds it at the
second light (1 is not above 1, 3 is), yet `sampleLight` delegates to the first
light, whose `Sample` reports density 1, and to it alone. -/
theorem sampleLight_strict_counterexample :
    (0 : ℚ) ≤ 1 / 3 * emitAreaSum twoLights.objects ∧
    1 / 3 * emitAreaSum twoLights.objects < emitAreaSum twoLights.objects ∧
    ¬ (1 / 3 * emitAreaSum twoLights.objects < emitAreaSum (twoLights.objects.take 1)) ∧
    1 / 3 * emitAreaSum twoLights.objects < emitAreaSum (twoLights.objects.take 2) ∧
    (twoLights.sampleLight demoMiss 0 (demoState (1 / 3))).2.2.trace = [.objectSample lightA] ∧
    (twoLights.sampleLight demoMiss 0 (demoState (1 / 3))).2.1 = 1 ∧
    (lightB.Sample demoMiss 0 (demoState (1 / 3)).rng).2.1 = 1 / 2 := by
  refine ⟨by decide!, by decide!, by decide!, by decide!, ?_, by decide!, by decide!⟩
  have h : (1 : ℚ) / 3 * emitAreaSum [lightA, lightB] ≤ 0 + lightA.getArea := by decide!
  simp only [Scene.sampleLight, twoLights, sampleLightLoop, get_random_float, demoState]
  have hA : lightA.hasEmit = true := rfl
  rw [if_pos hA, if_pos h]
  rfl

/-- C9 (amended): for a threshold `p = u * total` with `0 ≤ p < total`,
`sampleLight` delegates to the first emissive primitive, in list order, at
which the running sum of emissive areas reaches `p` (`p ≤` running sum), and
to no other: the outputs are those of that primitive's `Sample` and the record
grows by that one call. -/
theorem sampleLight_delegates_to_first_reaching (scene : Scene α) (pos : Intersection α)
    (pdf : α) (s : State α)
    (hp0 : 0 ≤ (get_random_float s.rng).1 * emitAreaSum scene.objects)
    (hp1 : (get_random_float s.rng).1 * emitAreaSum scene.objects < emitAreaSum scene.objects) :
    ∃ (k : Nat) (o : Object α), scene.objects[k]? = some o ∧ o.hasEmit = true ∧
      (get_random_float s.rng).1 * emitAreaSum scene.objects
        ≤ emitAreaSum (scene.objects.take (k + 1)) ∧
      (∀ j o', j < k → scene.objects[j]? = some o' → o'.hasEmit = true →
        emitAreaSum (scene.objects.take (j + 1))
          < (get_random_float s.rng).1 * emitAreaSum scene.objects) ∧
      scene.sampleLight pos pdf s =
        ((o.Sample pos pdf (get_random_float s.rng).2).1,
          (o.Sample pos pdf (get_random_float s.rng).2).2.1,
          { rng := (o.Sample pos pdf (get_random_float s.rng).2).2.2,
            trace := s.trace ++ [.objectSample o] }) := by
  have hpos : emitAreaSum scene.objects ≠ 0 := by
    intro h0
    rw [h0] at hp0 hp1
    exact absurd hp1 (not_lt.mpr hp0)
  obtain ⟨k, o, hk, ho, hsum⟩ := emitAreaSum_last scene.objects hpos
  have hex : ∃ k o, scene.objects[k]? = some o ∧ o.hasEmit = true ∧
      (get_random_float s.rng).1 * emitAreaSum scene.objects
        ≤ emitAreaSum ([] ++ scene.objects.take (k + 1)) :=
    ⟨k, o, hk, ho, by rw [List.nil_append, hsum]; exact le_of_lt hp1⟩
  obtain ⟨k', o', hk', ho', hle, hmin, hres⟩ := sampleLightLoop_spec scene.objects []
    ((get_random_float s.rng).1 * emitAreaSum scene.objects) pos pdf
    { s with rng := (get_random_float s.rng).2 } hex
  refine ⟨k', o', hk', ho', by simpa using hle, ?_, ?_⟩
  · intro j o'' hj hj' ho''
    simpa using hmin j o'' hj hj' ho''
  · simp only [Scene.sampleLight]
    have h0 : emitAreaSum ([] : List (Object α)) = 0 := rfl
    rw [h0] at hres
    exact hres

/-- Witness for C9 (amended): the two lights with the draw 1/3. -/
theorem sampleLight_delegates_to_first_reaching_witness :
    (0 : ℚ) ≤ (get_random_float (demoState (1 / 3)).rng).1 * emitAreaSum twoLights.objects ∧
    (get_random_float (demoState (1 / 3)).rng).1 * emitAreaSum twoLights.objects
      < emitAreaSum twoLights.objects ∧
    ∃ (k : Nat) (o : Object ℚ), twoLights.objects[k]? = some o ∧ o.hasEmit = true ∧
      (twoLights.sampleLight demoMiss 0 (demoState (1 / 3))).2.2.trace = [.objectSample o] := by
  have h0 : (0 : ℚ) ≤ (get_random_float (demoState (1 / 3)).rng).1
      * emitAreaSum twoLights.objects := by decide!
  have h1 : (get_random_float (demoState (1 / 3)).rng).1 * emitAreaSum twoLights.objects
      < emitAreaSum twoLights.objects := by decide!
  obtain ⟨k, o, hk, ho, _, _, hres⟩ :=
    sampleLight_delegates_to_first_reaching twoLights demoMiss 0 (demoState (1 / 3)) h0 h1
  exact ⟨h0, h1, k, o, hk, ho, by rw [hres]; rfl⟩

/-- C10 (counterexample): against an emissive surface of area one million,
whose `Sample` reports the density 1/1000000, `castRay` accumulates a direct
term and divides by that density although it does not exceed `EPSILON`
(1/100000). -/
theorem castRay_divides_by_small_light_pdf :
    lightDivisors (castRay demoRuntime (glowScene 1000000) 1 glowRay 0 (demoState (9 / 10))).state.trace
      = [1 / 1000000] ∧
    (1 / 1000000 : ℚ) ≤ demoRuntime.EPSILON ∧
    (castRay demoRuntime (glowScene 1000000) 1 glowRay 0 (demoState (9 / 10))).value?
      = some ⟨250001, 250001, 250001⟩ := by
  refine ⟨by decide!, by decide!, by decide!⟩

/-- C10 (amended): in every execution of `castRay`, complete or cut short,
every division by the bounce pdf of the material that the execution adds to
the record is a division by a value above `EPSILON`; the indirect contribution
is skipped otherwise. -/
theorem castRay_bounce_division_guarded (R : Runtime α) (scene : Scene α) (fuel : Nat)
    (ray : Ray α) (depth : Int) (s : State α) :
    ∃ extra, bounceDivisors (castRay R scene fuel ray depth s).state.trace
        = bounceDivisors s.trace ++ extra ∧ ∀ v ∈ extra, R.EPSILON < v :=
  castRay_guarded R scene fuel ray depth s

/-- C6 (counterexample): the scene holds a single emissive surface, the inside
of a shell with emission `(1, 1, 1)`; the ray hits it, and `castRay` returns
`(5/4, 5/4, 5/4)`: the light sample drawn on the opposite point of the same
surface is reached by the shadow ray, so the direct term `(1/4, 1/4, 1/4)` is
added to the emission. -/
theorem castRay_single_emissive_counterexample :
    Scene.buildBVH demoRuntime ⟨[glowObject 1], none, ⟨0, 0, 0⟩⟩ = .ok (glowScene 1) ∧
    (glowObject 1).hasEmit = true ∧
    ((glowScene 1).intersect demoRuntime glowRay).toOption.map
        (fun i => (i.happened, i.m.map Material.getEmission))
      = some (true, some ⟨1, 1, 1⟩) ∧
    (castRay demoRuntime (glowScene 1) 1 glowRay 0 (demoState (9 / 10))).value?
      = some ⟨5 / 4, 5 / 4, 5 / 4⟩ ∧
    (castRay demoRuntime (glowScene 1) 1 glowRay 0 (demoState (9 / 10))).value?
      ≠ some ⟨1, 1, 1⟩ := by
  refine ⟨rfl, rfl, by decide!, by decide!, by decide!⟩

/-- C6 (amended): in a scene built, by either strategy, from a single primitive
whose every hit carries an emissive material, for every ray that hits it and
every random source, `castRay` makes no recursive call (one unit of fuel is
enough) and returns the direct term `l_dir`, computed by the light-sampling
block against that same surface, plus the emission of the hit material: the
indirect term is zero, and the result is exactly the emission whenever `l_dir`
is zero. -/
theorem castRay_single_emissive_surface (R : Runtime α) (o : Object α) (bg : Vector3f α)
    (scene : Scene α)
    (hbuilt : Scene.buildBVH R ⟨[o], none, bg⟩ = .ok scene ∨
      Scene.buildSAH R ⟨[o], none, bg⟩ = .ok scene)
    (hemit : ∀ r, (o.getIntersection r).happened = true →
      ∃ m, (o.getIntersection r).m = some m ∧ m.hasEmission = true)
    (ray : Ray α) (inter : Intersection α) (m : Material α)
    (hinter : scene.intersect R ray = .ok inter) (hhit : inter.happened = true)
    (hm : inter.m = some m) (fuel : Nat) (depth : Int) (s : State α) :
    ∃ l_dir s3 s', directLight R scene ray inter m
        ((s.log (.material .hasEmission)).log (.material .getEmission)) = .ok l_dir s3 ∧
      castRay R scene (fuel + 1) ray depth s = .ok (Vector3f.add l_dir m.getEmission) s' ∧
      (l_dir = Vector3f.zero → castRay R scene (fuel + 1) ray depth s = .ok m.getEmission s') := by
  have hb : ∃ sm, scene.bvh = some ⟨leafNode o, 1, sm, [o]⟩ := by
    rcases hbuilt with h | h
    · rw [buildBVH_single] at h
      cases h
      exact ⟨_, rfl⟩
    · rw [buildSAH_single] at h
      cases h
      exact ⟨_, rfl⟩
  obtain ⟨sm, hb⟩ := hb
  obtain ⟨l_dir, s3, s', hd, hc⟩ := castRay_on_lone_emitter R scene o 1 sm [o] hb hemit ray
    inter m hinter hhit hm fuel depth s
  refine ⟨l_dir, s3, s', hd, hc, ?_⟩
  intro hz
  rw [hc, hz, Vector3f.zero_add_left]

/-- Witness for C6 (amended): the scene with the single emissive surface of
area one. -/
theorem castRay_single_emissive_surface_witness :
    Scene.buildBVH demoRuntime ⟨[glowObject 1], none, ⟨0, 0, 0⟩⟩ = .ok (glowScene 1) ∧
    ∃ l_dir s', castRay demoRuntime (glowScene 1) 1 glowRay 0 (demoState (1 / 2))
      = .ok (Vector3f.add l_dir glowMaterial.getEmission) s' := by
  have hemit : ∀ r, ((glowObject 1).getIntersection r).happened = true →
      ∃ m, ((glowObject 1).getIntersection r).m = some m ∧ m.hasEmission = true := by
    intro r _
    refine ⟨glowMaterial, ?_, rfl⟩
    simp only [glowObject]
    split <;> rfl
  obtain ⟨l_dir, _, s', _, hc, _⟩ := castRay_single_emissive_surface demoRuntime (glowObject 1)
    ⟨0, 0, 0⟩ (glowScene 1) (Or.inl rfl) hemit glowRay ((glowObject 1).getIntersection glowRay)
    glowMaterial rfl (by decide!) (by simp only [glowObject]; split <;> rfl) 0 0
    (demoState (1 / 2))
  exact ⟨rfl, l_dir, s', hc⟩

/-- C3: for a non-empty primitive list and either strategy, assuming that the
box test succeeds on every box enclosing the bounds of a primitive that reports
a hit, and that every hit distance is below the distance of every no-hit record
(the default one and those of the primitives), the constructor returns an
accelerator (the SAH strategy unless it reads its unassigned split choice) and
`Intersect` returns a record that reports a hit exactly when some primitive
does, with the least hit distance over the list in that case; it agrees with
the linear scan `bruteForce`. -/
theorem intersect_answers_nearest_hit (R : Runtime α) (hsort : ∀ lt l, (R.sort lt l).Perm l)
    (objs : List (Object α)) (hne : objs ≠ []) (maxPrims : Int) (method : SplitMethod)
    (ray : Ray α)
    (hbox : ∀ o ∈ objs, Hits o ray → ∀ b : Bounds3 α, b.Encloses o.getBounds →
      R.IntersectP b ray ray.direction_inv (dirIsNeg ray) = true)
    (hfar : ∀ o ∈ objs, Hits o ray → (o.getIntersection ray).distance < R.maxDouble ∧
      ∀ o' ∈ objs, ¬ Hits o' ray →
        (o.getIntersection ray).distance < (o'.getIntersection ray).distance) :
    (method = .SAH ∧ BVHAccel.new R objs maxPrims method = .error .indeterminate) ∨
    ∃ bvh r, BVHAccel.new R objs maxPrims method = .ok bvh ∧ bvh.Intersect R ray = .ok r ∧
      (r.happened = true ↔ ∃ o ∈ objs, Hits o ray) ∧
      (r.happened = true →
        (∃ o ∈ objs, Hits o ray ∧ (o.getIntersection ray).distance = r.distance) ∧
        ∀ o ∈ objs, Hits o ray → r.distance ≤ (o.getIntersection ray).distance) ∧
      r.happened = (bruteForce R objs ray).happened ∧
      (r.happened = true → r.distance = (bruteForce R objs ray).distance) := by
  cases method with
  | NAIVE =>
    right
    obtain ⟨t, ht, hn, hw, _⟩ := BVHAccel.new_naive R hsort objs hne maxPrims
    obtain ⟨r, hr⟩ := intersect_wellBuilt R objs ray hbox hfar
      ⟨t, min 255 maxPrims, .NAIVE, objs⟩ hn hw
    exact ⟨_, r, ht, hr⟩
  | SAH =>
    rcases BVHAccel.new_sah R hsort objs hne maxPrims with h | ⟨t, ht, hn, hw⟩
    · exact Or.inl ⟨rfl, h⟩
    · right
      obtain ⟨r, hr⟩ := intersect_wellBuilt R objs ray hbox hfar
        ⟨t, min 255 maxPrims, .SAH, objs⟩ hn hw
      exact ⟨_, r, ht, hr⟩

/-- Witness for C3: two plates hit at distances seven and three and a square
that is never hit; the accelerator reports a hit at distance three. -/
theorem intersect_answers_nearest_hit_witness :
    threeObjects ≠ [] ∧
    ∃ bvh r, BVHAccel.new demoRuntime threeObjects 1 .NAIVE = .ok bvh ∧
      bvh.Intersect demoRuntime demoRay = .ok r ∧ r.happened = true ∧ r.distance = 3 := by
  have hne : threeObjects ≠ [] := by simp [threeObjects]
  have hbox : ∀ o ∈ threeObjects, Hits o demoRay → ∀ b : Bounds3 ℚ, b.Encloses o.getBounds →
      demoRuntime.IntersectP b demoRay demoRay.direction_inv (dirIsNeg demoRay) = true :=
    fun _ _ _ _ _ => rfl
  have hmiss : ¬ Hits (unitSquare 0) demoRay := by
    simp [Hits, unitSquare, demoMiss, Intersection.default]
  have hfar : ∀ o ∈ threeObjects, Hits o demoRay →
      (o.getIntersection demoRay).distance < demoRuntime.maxDouble ∧
      ∀ o' ∈ threeObjects, ¬ Hits o' demoRay →
        (o.getIntersection demoRay).distance < (o'.getIntersection demoRay).distance := by
    intro o ho hh
    simp only [threeObjects, List.mem_cons, List.mem_singleton, List.not_mem_nil,
      or_false] at ho
    rcases ho with rfl | rfl | rfl
    · refine ⟨by decide!, ?_⟩
      intro o' ho' hn
      simp only [threeObjects, List.mem_cons, List.mem_singleton, List.not_mem_nil,
        or_false] at ho'
      rcases ho' with rfl | rfl | rfl
      · exact absurd rfl hn
      · decide!
      · exact absurd rfl hn
    · exact absurd hh hmiss
    · refine ⟨by decide!, ?_⟩
      intro o' ho' hn
      simp only [threeObjects, List.mem_cons, List.mem_singleton, List.not_mem_nil,
        or_false] at ho'
      rcases ho' with rfl | rfl | rfl
      · exact absurd rfl hn
      · decide!
      · exact absurd rfl hn
  rcases intersect_answers_nearest_hit demoRuntime demoRuntime_sort_perm threeObjects hne 1
    .NAIVE demoRay hbox hfar with ⟨h, _⟩ | ⟨bvh, r, hb, hr, _, _, hhap, hdist⟩
  · cases h
  · have h1 : (bruteForce demoRuntime threeObjects demoRay).happened = true := by decide!
    have h2 : (bruteForce demoRuntime threeObjects demoRay).distance = 3 := by decide!
    rw [h1] at hhap
    exact ⟨hne, bvh, r, hb, hr, hhap, by rw [hdist hhap, h2]⟩

/-- C7 (evaluated at the failing input): the twelve unit squares each report
the density 1 = 1/(own area) and their areas sum to twelve, so the claimed
output density is 1/12.  On the tree the SAH strategy builds, the root area is
the value the node was constructed with (five in this runtime) and `Sample`
outputs 1/5; on the tree the naive strategy builds it outputs 1/12. -/
theorem sah_sample_pdf_not_per_total_area :
    (∀ o ∈ twelveSquares, (o.Sample demoMiss 0 (demoState (1 / 4)).rng).2.1 = 1 / o.getArea) ∧
    1 / totalArea twelveSquares = (1 / 12 : ℚ) ∧
    (∃ bvh, BVHAccel.new staleRuntime twelveSquares 1 .SAH = .ok bvh ∧
      bvh.root.area = .ok staleRuntime.areaInit ∧
      (bvh.Sample staleRuntime demoMiss 0 (demoState (1 / 4))).value?.map Prod.snd
        = some (1 / 5)) ∧
    (∃ bvh, BVHAccel.new staleRuntime twelveSquares 1 .NAIVE = .ok bvh ∧
      (bvh.Sample staleRuntime demoMiss 0 (demoState (1 / 4))).value?.map Prod.snd
        = some (1 / 12)) := by
  refine ⟨?_, by decide!, ?_, ?_⟩
  · intro o ho
    simp only [twelveSquares, List.mem_map] at ho
    obtain ⟨k, _, rfl⟩ := ho
    simp [unitSquare]
  · have h : (BVHAccel.new staleRuntime twelveSquares 1 .SAH).toOption.map
        (fun b => (b.root.area.toOption,
          (b.Sample staleRuntime demoMiss 0 (demoState (1 / 4))).value?.map Prod.snd))
        = some (some 5, some (1 / 5)) := by decide!
    cases hb : BVHAccel.new staleRuntime twelveSquares 1 .SAH with
    | error e =>
      rw [hb] at h
      simp [Except.toOption] at h
    | ok bvh =>
      rw [hb] at h
      simp only [Except.toOption, Option.map_some', Option.some.injEq, Prod.mk.injEq] at h
      refine ⟨bvh, rfl, ?_, h.2⟩
      cases ha : bvh.root.area with
      | error e =>
        rw [ha] at h
        simp [Except.toOption] at h
      | ok a =>
        rw [ha] at h
        simp only [Except.toOption, Option.some.injEq] at h
        rw [h.1]
        rfl
  · have h : (BVHAccel.new staleRuntime twelveSquares 1 .NAIVE).toOption.map
        (fun b => (b.Sample staleRuntime demoMiss 0 (demoState (1 / 4))).value?.map Prod.snd)
        = some (some (1 / 12)) := by decide!
    cases hb : BVHAccel.new staleRuntime twelveSquares 1 .NAIVE with
    | error e =>
      rw [hb] at h
      simp [Except.toOption] at h
    | ok bvh =>
      rw [hb] at h
      simp only [Except.toOption, Option.map_some', Option.some.injEq] at h
      exact ⟨bvh, rfl, h⟩

/-- C8 (counterexample): in the area-additive tree whose leaves have areas 2 and
1, in this order, the draws that select the first leaf have measure 4/9 and
those that select the second have measure 5/9: the leaf of smaller area is
selected more often. -/
theorem sample_frequency_counterexample :
    (pairTree (2 : ℝ) 1).areaAdditive = true ∧
    (pairTree (2 : ℝ) 1).leafAreas = [2, 1] ∧
    volume (selectionSet (pairTree (2 : ℝ) 1) 0) = ENNReal.ofReal (4 / 9) ∧
    volume (selectionSet (pairTree (2 : ℝ) 1) 1) = ENNReal.ofReal (5 / 9) ∧
    ¬ (volume (selectionSet (pairTree (2 : ℝ) 1) 1)
        ≤ volume (selectionSet (pairTree (2 : ℝ) 1) 0)) := by
  obtain ⟨hn, hadd, hLA, hA⟩ := pairTree_facts (2 : ℝ) 1
  have hpos : ∀ a ∈ (pairTree (2 : ℝ) 1).leafAreas, 0 < a := by
    intro a ha
    rw [hLA] at ha
    simp only [List.mem_cons, List.mem_singleton, List.not_mem_nil, or_false] at ha
    rcases ha with rfl | rfl <;> norm_num
  have h0 := selectionSet_volume (pairTree (2 : ℝ) 1) hn hadd hpos 0 (by rw [hLA]; simp)
  have h1 := selectionSet_volume (pairTree (2 : ℝ) 1) hn hadd hpos 1 (by rw [hLA]; simp)
  have e0 : ((pairTree (2 : ℝ) 1).areaBefore (0 + 1) / (pairTree (2 : ℝ) 1).storedArea) ^ 2
      - ((pairTree (2 : ℝ) 1).areaBefore 0 / (pairTree (2 : ℝ) 1).storedArea) ^ 2 = 4 / 9 := by
    simp only [BVHBuildNode.areaBefore, hLA, hA]
    norm_num
  have e1 : ((pairTree (2 : ℝ) 1).areaBefore (1 + 1) / (pairTree (2 : ℝ) 1).storedArea) ^ 2
      - ((pairTree (2 : ℝ) 1).areaBefore 1 / (pairTree (2 : ℝ) 1).storedArea) ^ 2 = 5 / 9 := by
    simp only [BVHBuildNode.areaBefore, hLA, hA]
    norm_num
  rw [e0] at h0
  rw [e1] at h1
  refine ⟨hadd, hLA, h0, h1, ?_⟩
  rw [h0, h1, not_le]
  exact (ENNReal.ofReal_lt_ofReal_iff (by norm_num)).mpr (by norm_num)

/-- C8 (amended): in an area-additive tree with positive leaf areas, the draws
`u` in `[0, 1)` for which `getSample(root, sqrt(u) * rootArea)` reaches the
`i`-th leaf have measure `a (2 c + a) / rootArea ^ 2`, where `a` is the area of
that leaf and `c` the total area of the leaves to its left; hence a leaf is
selected at most as often as any leaf to its right of at least its area. -/
theorem sample_frequency_monotone_to_the_right (t : BVHBuildNode ℝ) (hn : t.isNull = false)
    (hadd : t.areaAdditive = true) (hpos : ∀ a ∈ t.leafAreas, 0 < a) (i j : Nat) (ai aj : ℝ)
    (hi : t.leafAreas[i]? = some ai) (hj : t.leafAreas[j]? = some aj) (hij : i ≤ j)
    (hle : ai ≤ aj) :
    volume (selectionSet t i)
      = ENNReal.ofReal (ai * (2 * t.areaBefore i + ai) / t.storedArea ^ 2) ∧
    volume (selectionSet t i) ≤ volume (selectionSet t j) := by
  have hil : i < t.leafAreas.length := by
    by_contra hcon
    rw [List.getElem?_eq_none (by omega)] at hi
    cases hi
  have hjl : j < t.leafAreas.length := by
    by_contra hcon
    rw [List.getElem?_eq_none (by omega)] at hj
    cases hj
  have hvi := selectionSet_volume t hn hadd hpos i hil
  have hvj := selectionSet_volume t hn hadd hpos j hjl
  have hsi := take_sum_succ t.leafAreas i ai hi
  have hsj := take_sum_succ t.leafAreas j aj hj
  have hci : 0 ≤ t.areaBefore i := by
    have := areaBefore_mono t hpos 0 i (by omega)
    simpa [BVHBuildNode.areaBefore] using this
  have hcij : t.areaBefore i ≤ t.areaBefore j := areaBefore_mono t hpos i j hij
  have hai : 0 < ai := hpos ai (List.getElem?_mem hi)
  have hfi : (t.areaBefore (i + 1) / t.storedArea) ^ 2 - (t.areaBefore i / t.storedArea) ^ 2
      = ai * (2 * t.areaBefore i + ai) / t.storedArea ^ 2 := by
    simp only [BVHBuildNode.areaBefore] at hsi ⊢
    rw [hsi]
    ring
  have hfj : (t.areaBefore (j + 1) / t.storedArea) ^ 2 - (t.areaBefore j / t.storedArea) ^ 2
      = aj * (2 * t.areaBefore j + aj) / t.storedArea ^ 2 := by
    simp only [BVHBuildNode.areaBefore] at hsj ⊢
    rw [hsj]
    ring
  rw [hfi] at hvi
  rw [hfj] at hvj
  refine ⟨hvi, ?_⟩
  rw [hvi, hvj]
  apply ENNReal.ofReal_le_ofReal
  apply div_le_div_of_nonneg_right _ (sq_nonneg _)
  nlinarith [mul_nonneg hci (le_of_lt hai)]

/-- Witness for C8 (amended): leaves of areas 1 and 2, in this order. -/
theorem sample_frequency_monotone_to_the_right_witness :
    (pairTree (1 : ℝ) 2).areaAdditive = true ∧
    volume (selectionSet (pairTree (1 : ℝ) 2) 0)
      ≤ volume (selectionSet (pairTree (1 : ℝ) 2) 1) := by
  obtain ⟨hn, hadd, hLA, _⟩ := pairTree_facts (1 : ℝ) 2
  have hpos : ∀ a ∈ (pairTree (1 : ℝ) 2).leafAreas, 0 < a := by
    intro a ha
    rw [hLA] at ha
    simp only [List.mem_cons, List.mem_singleton, List.not_mem_nil, or_false] at ha
    rcases ha with rfl | rfl <;> norm_num
  exact ⟨hadd, (sample_frequency_monotone_to_the_right (pairTree (1 : ℝ) 2) hn hadd hpos 0 1
    1 2 (by rw [hLA]; rfl) (by rw [hLA]; rfl) (by omega) (by norm_num)).2⟩

/-- C11: for every non-empty primitive list, whatever `maxPrimsInNode`, the
naive strategy returns a tree and the SAH strategy returns a tree unless it
reads its unassigned split choice; in every tree returned each node is either a
leaf (both children null, one primitive) or has both children and no primitive,
so no node has exactly one child, and the leaf test of `getIntersection` (both
children null) agrees with that of `getSample` (some child null) on every
node. -/
theorem built_tree_nodes_are_leaves_or_binary (R : Runtime α)
    (hsort : ∀ lt l, (R.sort lt l).Perm l) (objs : List (Object α)) (hne : objs ≠ [])
    (maxPrims : Int) :
    (∃ bvh, BVHAccel.new R objs maxPrims .NAIVE = .ok bvh ∧ bvh.root.isNull = false ∧
      bvh.root.proper = true ∧ bvh.root.leafTestsAgree = true) ∧
    (BVHAccel.new R objs maxPrims .SAH = .error .indeterminate ∨
      ∃ bvh, BVHAccel.new R objs maxPrims .SAH = .ok bvh ∧ bvh.root.isNull = false ∧
        bvh.root.proper = true ∧ bvh.root.leafTestsAgree = true) := by
  constructor
  · obtain ⟨t, ht, hn, hw, _⟩ := BVHAccel.new_naive R hsort objs hne maxPrims
    exact ⟨_, ht, hn, hw.1, proper_leafTestsAgree t hw.1⟩
  · rcases BVHAccel.new_sah R hsort objs hne maxPrims with h | ⟨t, ht, hn, hw⟩
    · exact Or.inl h
    · exact Or.inr ⟨_, ht, hn, hw.1, proper_leafTestsAgree t hw.1⟩

/-- Witness for C11: the twelve unit squares, with a leaf-size parameter of
four. -/
theorem built_tree_nodes_are_leaves_or_binary_witness :
    twelveSquares ≠ [] ∧
    (∃ bvh, BVHAccel.new demoRuntime twelveSquares 4 .NAIVE = .ok bvh ∧
      bvh.root.proper = true ∧ bvh.root.leafTestsAgree = true) ∧
    (∃ bvh, BVHAccel.new demoRuntime twelveSquares 4 .SAH = .ok bvh ∧
      bvh.root.proper = true ∧ bvh.root.leafTestsAgree = true) := by
  have hne : twelveSquares ≠ [] := by simp [twelveSquares]
  have h := built_tree_nodes_are_leaves_or_binary demoRuntime demoRuntime_sort_perm
    twelveSquares hne 4
  have hok : (BVHAccel.new demoRuntime twelveSquares 4 .SAH).toOption.isSome = true := by
    decide!
  refine ⟨hne, ?_, ?_⟩
  · obtain ⟨bvh, hb, _, hp, ha⟩ := h.1
    exact ⟨bvh, hb, hp, ha⟩
  · rcases h.2 with he | ⟨bvh, hb, _, hp, ha⟩
    · rw [he] at hok
      simp [Except.toOption] at hok
    · exact ⟨bvh, hb, hp, ha⟩

/-- C12 (counterexample): the floor is hit at `(1, 0, 0)`, the light sample is
the lamp point `(4, 4, 0)`, five away, and the shadow ray hits nothing, so that
`block_check` carries the no-hit distance and the two distances differ by far
more than `EPSILON`; yet the direct term is accumulated: `l_dir` is
`(-4/25, -4/25, -4/25)`, one division by `pdf_light` is recorded, and `castRay`
returns that value. -/
theorem direct_term_unmatched_counterexample :
    Scene.buildBVH demoRuntime ⟨[floorObject, lampObject], none, ⟨0, 0, 0⟩⟩ = .ok lampScene ∧
    (lampScene.intersect demoRuntime
        (Ray.new (floorObject.getIntersection downRay).coords
          (shadowDirection demoRuntime lampScene (floorObject.getIntersection downRay)
            (demoState (9 / 10))))).toOption.map (fun i => (i.happened, i.distance))
      = some (false, demoRuntime.maxDouble) ∧
    ¬ (|lightDistance demoRuntime lampScene (floorObject.getIntersection downRay)
          (demoState (9 / 10)) - demoRuntime.maxDouble| < demoRuntime.EPSILON) ∧
    (directLight demoRuntime lampScene downRay (floorObject.getIntersection downRay)
        floorMaterial (demoState (9 / 10))).value? = some ⟨-4 / 25, -4 / 25, -4 / 25⟩ ∧
    lightDivisors (directLight demoRuntime lampScene downRay
        (floorObject.getIntersection downRay) floorMaterial (demoState (9 / 10))).state.trace
      = [1] ∧
    (castRay demoRuntime lampScene 1 downRay 0 (demoState (9 / 10))).value?
      = some ⟨-4 / 25, -4 / 25, -4 / 25⟩ := by
  refine ⟨rfl, by decide!, by decide!, by decide!, by decide!, by decide!⟩

/-- C12 (amended): the direct-lighting term is accumulated if and only if
`norm(light_coords - inter.coords) - block_check.distance < EPSILON`, a
one-sided test: when it holds the block returns the term of lines 85-86 and
records the call to `eval` and the division by `pdf_light`; when it fails
`l_dir` stays zero and nothing more is recorded. -/
theorem direct_term_accumulated_iff_one_sided (R : Runtime α) (scene : Scene α) (ray : Ray α)
    (inter : Intersection α) (m : Material α) (s : State α) (block_check : Intersection α)
    (hblock : scene.intersect R (Ray.new inter.coords (shadowDirection R scene inter s))
      = .ok block_check) :
    (lightDistance R scene inter s - block_check.distance < R.EPSILON →
      directLight R scene ray inter m s =
        .ok (directTerm (lightSample R scene s).1.emit
            (m.eval ray.direction (shadowDirection R scene inter s) inter.normal)
            (shadowDirection R scene inter s) inter.normal (lightSample R scene s).1.normal
            (lightSample R scene s).1.coords inter.coords (lightSample R scene s).2.1)
          (((lightSample R scene s).2.2.log (.material .eval)).log
            (.divPdfLight (lightSample R scene s).2.1))) ∧
    (¬ (lightDistance R scene inter s - block_check.distance < R.EPSILON) →
      directLight R scene ray inter m s = .ok Vector3f.zero (lightSample R scene s).2.2) := by
  simp only [shadowDirection, lightDistance, lightSample] at hblock ⊢
  constructor
  · intro h
    simp only [directLight, hblock, h, if_true]
  · intro h
    simp only [directLight, hblock, h, if_false]

/-- Witness for C12 (amended): in the scene of the emissive shell the shadow ray
reaches the sampled point, five away, and the term is accumulated. -/
theorem direct_term_accumulated_iff_one_sided_witness :
    (glowScene 1).intersect demoRuntime
        (Ray.new ((glowObject 1).getIntersection glowRay).coords
          (shadowDirection demoRuntime (glowScene 1) ((glowObject 1).getIntersection glowRay)
            (demoState (9 / 10))))
      = .ok ((glowObject 1).getIntersection
          (Ray.new ((glowObject 1).getIntersection glowRay).coords
            (shadowDirection demoRuntime (glowScene 1)
              ((glowObject 1).getIntersection glowRay) (demoState (9 / 10))))) ∧
    ∃ l_dir s', directLight demoRuntime (glowScene 1) glowRay
      ((glowObject 1).getIntersection glowRay) glowMaterial (demoState (9 / 10))
        = .ok l_dir s' ∧ lightDivisors s'.trace = [1] := by
  have hb : (glowScene 1).intersect demoRuntime
      (Ray.new ((glowObject 1).getIntersection glowRay).coords
        (shadowDirection demoRuntime (glowScene 1) ((glowObject 1).getIntersection glowRay)
          (demoState (9 / 10))))
      = .ok ((glowObject 1).getIntersection
          (Ray.new ((glowObject 1).getIntersection glowRay).coords
            (shadowDirection demoRuntime (glowScene 1)
              ((glowObject 1).getIntersection glowRay) (demoState (9 / 10))))) := rfl
  have h := (direct_term_accumulated_iff_one_sided demoRuntime (glowScene 1) glowRay
    ((glowObject 1).getIntersection glowRay) glowMaterial (demoState (9 / 10)) _ hb).1
    (by decide!)
  exact ⟨hb, _, _, h, by decide!⟩

/-- C13: in an area-additive tree with non-negative leaf areas, for every `p`
with `0 ≤ p < root area`, `getSample(root, p)` delegates to exactly one leaf,
the only leaf `L` with (total area of the leaves to its left) `≤ p <` (that
total + area of `L`): the outputs are those of the `Sample` of its primitive,
the pdf multiplied by the leaf area, and the record grows by that one call. -/
theorem getSample_delegates_to_leaf_of_interval (t : BVHBuildNode α) (hn : t.isNull = false)
    (hadd : t.areaAdditive = true) (hnonneg : ∀ a ∈ t.leafAreas, 0 ≤ a) (p : α) (hp0 : 0 ≤ p)
    (hp1 : p < t.storedArea) (pos : Intersection α) (pdf : α) (s : State α) :
    ∃ (i : Nat) (b : Bounds3 α) (o : Object α),
      t.sampleLeaves[i]? = some (.node b .nullptr .nullptr (some o) o.getArea) ∧
      t.areaBefore i ≤ p ∧ p < t.areaBefore i + o.getArea ∧
      (∀ (j : Nat) (a : α), t.leafAreas[j]? = some a → t.areaBefore j ≤ p →
        p < t.areaBefore j + a → j = i) ∧
      getSample t p pos pdf s =
        .ok ((o.Sample pos pdf s.rng).1, (o.Sample pos pdf s.rng).2.1 * o.getArea)
          { rng := (o.Sample pos pdf s.rng).2.2, trace := s.trace ++ [.objectSample o] } := by
  obtain ⟨_, hspec⟩ := leafIndex_interval t hn hadd
  obtain ⟨h1, h2, h3⟩ := hspec p hp0 hp1
  obtain ⟨b, o, hleaf, hget⟩ := getSample_additive t hn hadd p pos pdf s
  have harea : t.leafAreas[t.leafIndex p]? = some o.getArea := by
    simp [BVHBuildNode.leafAreas, List.getElem?_map, hleaf, BVHBuildNode.storedArea]
  have hsucc := take_sum_succ t.leafAreas (t.leafIndex p) o.getArea harea
  have hmono := take_sum_mono t.leafAreas hnonneg
  refine ⟨t.leafIndex p, b, o, hleaf, h2, ?_, ?_, hget⟩
  · simp only [BVHBuildNode.areaBefore] at h3 ⊢
    rw [← hsucc]
    exact h3
  · intro j a hj g2 g3
    have hjs := take_sum_succ t.leafAreas j a hj
    simp only [BVHBuildNode.areaBefore] at h2 h3 g2 g3
    rw [← hjs] at g3
    rcases Nat.lt_trichotomy j (t.leafIndex p) with h | h | h
    · exact absurd (lt_of_lt_of_le g3 (hmono (j + 1) (t.leafIndex p) (by omega))) (not_lt.mpr h2)
    · exact h
    · exact absurd (lt_of_lt_of_le h3 (hmono (t.leafIndex p + 1) j (by omega))) (not_lt.mpr g2)

/-- Witness for C13: leaves of areas one and two, and `p = 3/2`, which falls in
the second leaf. -/
theorem getSample_delegates_to_leaf_of_interval_witness :
    (pairTree (1 : ℚ) 2).areaAdditive = true ∧ (0 : ℚ) ≤ 3 / 2 ∧
    (3 / 2 : ℚ) < (pairTree (1 : ℚ) 2).storedArea ∧
    ∃ o, (getSample (pairTree (1 : ℚ) 2) (3 / 2) demoMiss 0 (demoState 0)).state.trace
      = [.objectSample o] ∧ o.getArea = 2 := by
  obtain ⟨hn, hadd, hLA, hA⟩ := pairTree_facts (1 : ℚ) 2
  have hnonneg : ∀ a ∈ (pairTree (1 : ℚ) 2).leafAreas, 0 ≤ a := by
    intro a ha
    rw [hLA] at ha
    simp only [List.mem_cons, List.mem_singleton, List.not_mem_nil, or_false] at ha
    rcases ha with rfl | rfl <;> norm_num
  have hp1 : (3 / 2 : ℚ) < (pairTree (1 : ℚ) 2).storedArea := by rw [hA]; norm_num
  obtain ⟨i, b, o, hleaf, g2, g3, _, hget⟩ :=
    getSample_delegates_to_leaf_of_interval (pairTree (1 : ℚ) 2) hn hadd hnonneg (3 / 2)
      (by norm_num) hp1 demoMiss 0 (demoState 0)
  refine ⟨hadd, by norm_num, hp1, o, by rw [hget]; rfl, ?_⟩
  have harea : (pairTree (1 : ℚ) 2).leafAreas[i]? = some o.getArea := by
    simp [BVHBuildNode.leafAreas, List.getElem?_map, hleaf, BVHBuildNode.storedArea]
  rw [hLA] at harea
  simp only [BVHBuildNode.areaBefore, hLA] at g2 g3
  match i, harea, g2, g3 with
  | 0, harea, g2, g3 =>
    simp only [List.getElem?_cons_zero, Option.some.injEq] at harea
    rw [← harea] at g3
    norm_num at g3
  | 1, harea, _, _ =>
    simp only [List.getElem?_cons_succ, List.getElem?_cons_zero, Option.some.injEq] at harea
    exact harea.symm
  | (k + 2), harea, _, _ => simp at harea

/-- C14: let the ray hit a surface with material `m` and the direct-lighting
block return `l_dir` in state `s3`.  (1) When the roulette draw exceeds
`RussianRoulette`, `castRay` returns `l_dir + l_emit` with no call to `sample`
and no recursive call.  When the draw allows continuation and the bounce ray is
intersected with result `bounce`: (2) if it misses, (3) if it lands on an
emissive surface, or (4) if the material pdf does not exceed `EPSILON`, no
recursive call is made and the result is `l_dir + l_emit`; (5) if it lands on a
non-emissive surface and the pdf exceeds `EPSILON`, the call
`castRay(r, depth + 1)` is made and its radiance enters the indirect term. -/
theorem castRay_recurses_only_on_unlit_bounce (R : Runtime α) (scene : Scene α) (fuel : Nat)
    (ray : Ray α) (depth : Int) (s : State α) (inter : Intersection α) (m : Material α)
    (l_dir : Vector3f α) (s3 : State α)
    (hinter : scene.intersect R ray = .ok inter) (hhit : inter.happened = true)
    (hm : inter.m = some m)
    (hdirect : directLight R scene ray inter m (afterEmit m s) = .ok l_dir s3) :
    ((get_random_float s3.rng).1 > R.RussianRoulette →
      castRay R scene (fuel + 1) ray depth s
        = .ok (Vector3f.add l_dir (emitTerm m)) { s3 with rng := (get_random_float s3.rng).2 } ∧
      recursions s3.trace = recursions s.trace ∧
      materialCalls .sample s3.trace = materialCalls .sample s.trace) ∧
    (¬ (get_random_float s3.rng).1 > R.RussianRoulette →
      ∀ bounce, scene.intersect R (bounceRay m ray inter s3) = .ok bounce →
        recursions (afterBounce m ray inter s3).trace = recursions s.trace ∧
        (bounce.happened = false →
          castRay R scene (fuel + 1) ray depth s
            = .ok (Vector3f.add l_dir (emitTerm m)) (afterBounce m ray inter s3)) ∧
        (∀ m2, bounce.happened = true → bounce.m = some m2 →
          (m2.hasEmission = true →
            castRay R scene (fuel + 1) ray depth s
              = .ok (Vector3f.add l_dir (emitTerm m))
                ((afterBounce m ray inter s3).log (.material .hasEmission))) ∧
          (m2.hasEmission = false → ¬ bouncePdf m ray inter s3 > R.EPSILON →
            castRay R scene (fuel + 1) ray depth s
              = .ok (Vector3f.add l_dir (emitTerm m))
                (((afterBounce m ray inter s3).log (.material .hasEmission)).log
                  (.material .pdf))) ∧
          (m2.hasEmission = false → bouncePdf m ray inter s3 > R.EPSILON →
            castRay R scene (fuel + 1) ray depth s =
              match castRay R scene fuel (bounceRay m ray inter s3) (depth + 1)
                ((((afterBounce m ray inter s3).log (.material .hasEmission)).log
                  (.material .pdf)).log (.recurse (depth + 1))) with
              | .fault f s8 => .fault f s8
              | .ok radiance s8 =>
                .ok (Vector3f.add
                    (Vector3f.add l_dir
                      (indirectTerm R radiance
                        (m.eval ray.direction (bounceDirection m ray inter s3) inter.normal)
                        (bounceDirection m ray inter s3) inter.normal
                        (bouncePdf m ray inter s3)))
                    (emitTerm m))
                  ((s8.log (.material .eval)).log
                    (.divPdfBounce (bouncePdf m ray inter s3)))))) := by
  have hc1 := directLight_counts R scene ray inter m (afterEmit m s)
  rw [hdirect] at hc1
  simp only [Res.state] at hc1
  have hc0 := afterEmit_counts m s
  have hrec : recursions s3.trace = recursions s.trace := hc1.1.trans hc0.1
  have hsam : materialCalls .sample s3.trace = materialCalls .sample s.trace :=
    hc1.2.trans hc0.2
  have hd : directLight R scene ray inter m
      (if m.hasEmission = true then
        (s.log (.material .hasEmission)).log (.material .getEmission)
      else s.log (.material .hasEmission)) = .ok l_dir s3 := hdirect
  constructor
  · intro hu
    refine ⟨?_, hrec, hsam⟩
    unfold castRay
    rw [hinter]
    dsimp only
    rw [if_neg (by simp [hhit]), hm]
    dsimp only
    rw [hd]
    dsimp only
    rw [if_pos hu]
    rfl
  · intro hu bounce hb
    have hb' : scene.intersect R (Ray.new inter.coords
        (m.sample ray.direction inter.normal (get_random_float s3.rng).2).1) = .ok bounce := hb
    refine ⟨?_, ?_, ?_⟩
    · simp [afterBounce, recursions_append, recursions, hrec]
    · intro hmiss
      unfold castRay
      rw [hinter]
      dsimp only
      rw [if_neg (by simp [hhit]), hm]
      dsimp only
      rw [hd]
      dsimp only
      rw [if_neg hu, hb']
      dsimp only
      rw [if_neg (by simp [hmiss]), Vector3f.add_zero_right]
      rfl
    · intro m2 hhit2 hm2
      refine ⟨?_, ?_, ?_⟩
      · intro he
        unfold castRay
        rw [hinter]
        dsimp only
        rw [if_neg (by simp [hhit]), hm]
        dsimp only
        rw [hd]
        dsimp only
        rw [if_neg hu, hb']
        dsimp only
        rw [if_pos hhit2, hm2]
        dsimp only
        rw [if_neg (by simp [he]), Vector3f.add_zero_right]
        rfl
      · intro he hp
        have hp' : ¬ m.pdf ray.direction
            (m.sample ray.direction inter.normal (get_random_float s3.rng).2).1 inter.normal
            > R.EPSILON := hp
        unfold castRay
        rw [hinter]
        dsimp only
        rw [if_neg (by simp [hhit]), hm]
        dsimp only
        rw [hd]
        dsimp only
        rw [if_neg hu, hb']
        dsimp only
        rw [if_pos hhit2, hm2]
        dsimp only
        rw [if_pos (by simp [he]), if_neg hp', Vector3f.add_zero_right]
        rfl
      · intro he hp
        have hp' : m.pdf ray.direction
            (m.sample ray.direction inter.normal (get_random_float s3.rng).2).1 inter.normal
            > R.EPSILON := hp
        rw [castRay]
        rw [hinter]
        dsimp only
        rw [if_neg (by simp [hhit]), hm]
        dsimp only
        rw [hd]
        dsimp only
        rw [if_neg hu, hb']
        dsimp only
        rw [if_pos hhit2, hm2]
        dsimp only
        rw [if_pos (by simp [he]), if_pos hp']
        rfl

/-- Witness for C14: in the scene of the emissive shell with the draw 9/10 the
roulette stops the path. -/
theorem castRay_recurses_only_on_unlit_bounce_witness :
    (glowScene 1).intersect demoRuntime glowRay = .ok ((glowObject 1).getIntersection glowRay) ∧
    ∃ l_dir s3, directLight demoRuntime (glowScene 1) glowRay
        ((glowObject 1).getIntersection glowRay) glowMaterial
        (afterEmit glowMaterial (demoState (9 / 10))) = .ok l_dir s3 ∧
      castRay demoRuntime (glowScene 1) 1 glowRay 0 (demoState (9 / 10))
        = .ok (Vector3f.add l_dir (emitTerm glowMaterial))
          { s3 with rng := (get_random_float s3.rng).2 } ∧
      recursions s3.trace = 0 := by
  have hm : ((glowObject 1).getIntersection glowRay).m = some glowMaterial := by
    simp only [glowObject]
    split <;> rfl
  have hv : (directLight demoRuntime (glowScene 1) glowRay
      ((glowObject 1).getIntersection glowRay) glowMaterial
      (afterEmit glowMaterial (demoState (9 / 10)))).value?.isSome = true := by decide!
  have hu : (get_random_float (directLight demoRuntime (glowScene 1) glowRay
      ((glowObject 1).getIntersection glowRay) glowMaterial
      (afterEmit glowMaterial (demoState (9 / 10)))).state.rng).1
      > demoRuntime.RussianRoulette := by decide!
  cases hd : directLight demoRuntime (glowScene 1) glowRay
      ((glowObject 1).getIntersection glowRay) glowMaterial
      (afterEmit glowMaterial (demoState (9 / 10))) with
  | fault f s3 =>
    rw [hd] at hv
    simp [Res.value?] at hv
  | ok l_dir s3 =>
    rw [hd] at hu
    simp only [Res.state] at hu
    obtain ⟨h1, h2, _⟩ := (castRay_recurses_only_on_unlit_bounce demoRuntime (glowScene 1) 0
      glowRay 0 (demoState (9 / 10)) ((glowObject 1).getIntersection glowRay) glowMaterial
      l_dir s3 rfl (by decide!) hm hd).1 hu
    exact ⟨rfl, l_dir, s3, rfl, h1, h2⟩

/-- C16: for every non-empty primitive list, the naive strategy returns a tree,
and the SAH strategy returns a tree unless it reads its unassigned split
choice; in every tree returned, the primitives held by the leaves, read from
left to right, are a permutation of the input list, every leaf holds one
primitive, the number of leaves is the number `n` of primitives, and the tree
has `2n - 1` nodes. -/
theorem built_tree_leaves_permute_primitives (R : Runtime α)
    (hsort : ∀ lt l, (R.sort lt l).Perm l) (objs : List (Object α)) (hne : objs ≠ [])
    (maxPrims : Int) :
    (∃ bvh, BVHAccel.new R objs maxPrims .NAIVE = .ok bvh ∧ bvh.root.proper = true ∧
      bvh.root.heldObjects.Perm objs ∧ bvh.root.leafCount = objs.length ∧
      bvh.root.size + 1 = 2 * objs.length) ∧
    (BVHAccel.new R objs maxPrims .SAH = .error .indeterminate ∨
      ∃ bvh, BVHAccel.new R objs maxPrims .SAH = .ok bvh ∧ bvh.root.proper = true ∧
        bvh.root.heldObjects.Perm objs ∧ bvh.root.leafCount = objs.length ∧
        bvh.root.size + 1 = 2 * objs.length) := by
  constructor
  · obtain ⟨t, ht, hn, hw, _⟩ := BVHAccel.new_naive R hsort objs hne maxPrims
    refine ⟨_, ht, hw.1, hw.2.2, ?_, ?_⟩
    · show t.leafCount = objs.length
      rw [proper_leafCount t hw.1, hw.2.2.length_eq]
    · show t.size + 1 = 2 * objs.length
      rw [proper_size t hn hw.1, hw.2.2.length_eq]
  · rcases BVHAccel.new_sah R hsort objs hne maxPrims with h | ⟨t, ht, hn, hw⟩
    · exact Or.inl h
    · refine Or.inr ⟨_, ht, hw.1, hw.2.2, ?_, ?_⟩
      · show t.leafCount = objs.length
        rw [proper_leafCount t hw.1, hw.2.2.length_eq]
      · show t.size + 1 = 2 * objs.length
        rw [proper_size t hn hw.1, hw.2.2.length_eq]

/-- Witness for C16: on the twelve unit squares both strategies return a tree
with twelve leaves and twenty-three nodes. -/
theorem built_tree_leaves_permute_primitives_witness :
    twelveSquares ≠ [] ∧
    (∃ bvh, BVHAccel.new demoRuntime twelveSquares 1 .NAIVE = .ok bvh ∧
      bvh.root.leafCount = 12 ∧ bvh.root.size = 23) ∧
    (∃ bvh, BVHAccel.new demoRuntime twelveSquares 1 .SAH = .ok bvh ∧
      bvh.root.leafCount = 12 ∧ bvh.root.size = 23) := by
  have hne : twelveSquares ≠ [] := by simp [twelveSquares]
  have h := built_tree_leaves_permute_primitives demoRuntime demoRuntime_sort_perm
    twelveSquares hne 1
  have hlen : twelveSquares.length = 12 := rfl
  have hok : (BVHAccel.new demoRuntime twelveSquares 1 .SAH).toOption.isSome = true := by
    decide!
  refine ⟨hne, ?_, ?_⟩
  · obtain ⟨bvh, hb, _, _, hl, hs⟩ := h.1
    rw [hlen] at hl hs
    exact ⟨bvh, hb, hl, by omega⟩
  · rcases h.2 with he | ⟨bvh, hb, _, _, hl, hs⟩
    · rw [he] at hok
      simp [Except.toOption] at hok
    · rw [hlen] at hl hs
      exact ⟨bvh, hb, hl, by omega⟩

/-- C17 (failing input): on twelve point primitives along the `x` axis the box
around the list has surface area zero, every candidate cost of the SAH search
is the quotient `0 / 0` and compares below nothing, so no candidate is
accepted: `recursiveBuildSAH` goes on to read `dim` and `div_ind`, which were
never assigned, whatever the recursion budget, and the constructor returns no
tree; the naive strategy returns one on the same list. -/
theorem sah_build_of_point_primitives_reads_unassigned_split :
    (boundsOf demoRuntime twelveSpecks).SurfaceArea = 0 ∧
    (searchSplit demoRuntime (boundsOf demoRuntime twelveSpecks) twelveSpecks).pick = none ∧
    (∀ fuel, recursiveBuildSAH demoRuntime (fuel + 1) twelveSpecks = .error .indeterminate) ∧
    BVHAccel.new demoRuntime twelveSpecks 1 .SAH = .error .indeterminate ∧
    (BVHAccel.new demoRuntime twelveSpecks 1 .NAIVE).toOption.isSome = true := by
  have hp : (searchSplit demoRuntime (boundsOf demoRuntime twelveSpecks) twelveSpecks).pick
      = none := by decide!
  have hall : ∀ fuel, recursiveBuildSAH demoRuntime (fuel + 1) twelveSpecks
      = .error .indeterminate := by
    intro fuel
    rw [recursiveBuildSAH_large demoRuntime fuel twelveSpecks (by decide), hp]
  refine ⟨by decide!, hp, hall, ?_, by decide!⟩
  have h := hall 11
  simp only [BVHAccel.new]
  have hlen : twelveSpecks.length = 11 + 1 := rfl
  have he : twelveSpecks.isEmpty = false := rfl
  rw [hlen, h]
  simp [he]

/-- C18: for every non-empty list of `n` primitives the naive strategy returns a
tree of height `⌈log₂ n⌉` (a lone leaf has height zero): the height `h` is
`Nat.clog 2 n`, the least number with `n ≤ 2 ^ h`. -/
theorem naive_tree_height_is_ceil_log2 (R : Runtime α)
    (hsort : ∀ lt l, (R.sort lt l).Perm l) (objs : List (Object α)) (hne : objs ≠ [])
    (maxPrims : Int) :
    ∃ bvh, BVHAccel.new R objs maxPrims .NAIVE = .ok bvh ∧
      bvh.root.height = Nat.clog 2 objs.length ∧
      objs.length ≤ 2 ^ bvh.root.height ∧
      (∀ k, objs.length ≤ 2 ^ k → bvh.root.height ≤ k) ∧
      (objs.length = 1 → bvh.root.height = 0) := by
  obtain ⟨t, ht, _, hh⟩ := recursiveBuild_height R hsort objs.length objs hne le_rfl
  have he : objs.isEmpty = false := by
    cases objs with
    | nil => exact absurd rfl hne
    | cons o rest => rfl
  refine ⟨⟨t, min 255 maxPrims, .NAIVE, objs⟩, ?_, hh, ?_, ?_, ?_⟩
  · simp only [BVHAccel.new, he, ht]
    rfl
  · show objs.length ≤ 2 ^ t.height
    rw [hh]
    exact Nat.le_pow_clog (by decide) _
  · intro k hk
    show t.height ≤ k
    rw [hh]
    exact (Nat.le_pow_iff_clog_le (by decide)).mp hk
  · intro h1
    show t.height = 0
    rw [hh, h1]
    exact Nat.clog_one_right 2

/-- Witness for C18: the naive tree of the twelve unit squares has height four,
and that of a single square has height zero. -/
theorem naive_tree_height_is_ceil_log2_witness :
    twelveSquares ≠ [] ∧
    (∃ bvh, BVHAccel.new demoRuntime twelveSquares 1 .NAIVE = .ok bvh ∧
      bvh.root.height = 4) ∧
    (∃ bvh, BVHAccel.new demoRuntime [unitSquare 0] 1 .NAIVE = .ok bvh ∧
      bvh.root.height = 0) := by
  have hne : twelveSquares ≠ [] := by simp [twelveSquares]
  obtain ⟨bvh, hb, hh, _, _, _⟩ := naive_tree_height_is_ceil_log2 demoRuntime
    demoRuntime_sort_perm twelveSquares hne 1
  obtain ⟨bvh1, hb1, _, _, _, h1⟩ := naive_tree_height_is_ceil_log2 demoRuntime
    demoRuntime_sort_perm [unitSquare 0] (by simp) 1
  have hc : Nat.clog 2 twelveSquares.length = 4 := by decide!
  exact ⟨hne, ⟨bvh, hb, by rw [hh, hc]⟩, ⟨bvh1, hb1, h1 rfl⟩⟩

/-- C19: `sampleLight` calls `Sample` at most once, and only on an emissive
primitive of the list: the record grows by nothing or by one call.  When the
list holds an emissive primitive and the threshold `p` (the random number times
the total emissive area) is at most the total emissive area, exactly one call
is made, on an emissive primitive, and its outputs are returned; the same holds
of the selection loop for every threshold `p` up to the total.  When no
primitive is emissive, no call is made and the position and the density are
returned unchanged, only the random number having been drawn. -/
theorem sampleLight_samples_at_most_one_emitter (scene : Scene α) (pos : Intersection α)
    (pdf : α) (s : State α) :
    ((scene.sampleLight pos pdf s).2.2.trace = s.trace ∨
      ∃ o, o ∈ scene.objects ∧ o.hasEmit = true ∧
        (scene.sampleLight pos pdf s).2.2.trace = s.trace ++ [.objectSample o]) ∧
    ((∃ o, o ∈ scene.objects ∧ o.hasEmit = true) →
      (get_random_float s.rng).1 * emitAreaSum scene.objects ≤ emitAreaSum scene.objects →
      ∃ o, o ∈ scene.objects ∧ o.hasEmit = true ∧
        scene.sampleLight pos pdf s =
          ((o.Sample pos pdf (get_random_float s.rng).2).1,
            (o.Sample pos pdf (get_random_float s.rng).2).2.1,
            { rng := (o.Sample pos pdf (get_random_float s.rng).2).2.2,
              trace := s.trace ++ [.objectSample o] })) ∧
    (∀ p, (∃ o, o ∈ scene.objects ∧ o.hasEmit = true) → p ≤ emitAreaSum scene.objects →
      ∃ o, o ∈ scene.objects ∧ o.hasEmit = true ∧
        sampleLightLoop scene.objects p 0 pos pdf s =
          ((o.Sample pos pdf s.rng).1, (o.Sample pos pdf s.rng).2.1,
            { rng := (o.Sample pos pdf s.rng).2.2,
              trace := s.trace ++ [.objectSample o] })) ∧
    ((∀ o, o ∈ scene.objects → o.hasEmit = false) →
      scene.sampleLight pos pdf s = (pos, pdf, { s with rng := (get_random_float s.rng).2 })) := by
  refine ⟨sampleLight_trace scene pos pdf s, ?_, ?_, ?_⟩
  · intro hex hp
    simp only [Scene.sampleLight]
    exact sampleLightLoop_one scene.objects _ pos pdf
      { s with rng := (get_random_float s.rng).2 } hex hp
  · intro p hex hp
    exact sampleLightLoop_one scene.objects p pos pdf s hex hp
  · intro hno
    simp only [Scene.sampleLight]
    exact sampleLightLoop_none scene.objects hno _ 0 pos pdf _

/-- Witness for C19: with the two lights and the random number one (so that
`p` is the whole emissive area, three) exactly one call is recorded, on an
emissive primitive; in the scene whose only primitive is a non-emissive square
nothing is recorded and position and density come back unchanged. -/
theorem sampleLight_samples_at_most_one_emitter_witness :
    (∃ o, o ∈ twoLights.objects ∧ o.hasEmit = true) ∧
    (get_random_float (demoState 1).rng).1 * emitAreaSum twoLights.objects
      ≤ emitAreaSum twoLights.objects ∧
    (∃ o, o ∈ twoLights.objects ∧ o.hasEmit = true ∧
      (twoLights.sampleLight demoMiss 0 (demoState 1)).2.2.trace = [.objectSample o]) ∧
    (∀ o, o ∈ missScene.objects → o.hasEmit = false) ∧
    (missScene.sampleLight demoMiss 0 (demoState 1)).1 = demoMiss ∧
    (missScene.sampleLight demoMiss 0 (demoState 1)).2.1 = 0 ∧
    (missScene.sampleLight demoMiss 0 (demoState 1)).2.2.trace = [] := by
  have hex : ∃ o, o ∈ twoLights.objects ∧ o.hasEmit = true :=
    ⟨lightA, by simp [twoLights], rfl⟩
  have hp : (get_random_float (demoState 1).rng).1 * emitAreaSum twoLights.objects
      ≤ emitAreaSum twoLights.objects := by decide!
  have hno : ∀ o, o ∈ missScene.objects → o.hasEmit = false := by
    intro o ho
    simp only [missScene, List.mem_singleton] at ho
    subst ho
    rfl
  obtain ⟨o, ho, he, hres⟩ :=
    (sampleLight_samples_at_most_one_emitter twoLights demoMiss 0 (demoState 1)).2.1 hex hp
  have hnone :=
    (sampleLight_samples_at_most_one_emitter missScene demoMiss 0 (demoState 1)).2.2.2 hno
  refine ⟨hex, hp, ⟨o, ho, he, by rw [hres]; rfl⟩, hno, ?_, ?_, ?_⟩
  · rw [hnone]
  · rw [hnone]
  · rw [hnone]
    rfl

end Claims

end RayTracing
